import Mathlib

/-!
# SmartStop elevator simulator: dispatch engine

Shallow embedding of `src/smartstop.h`, `src/smartstop.c` and the dispatch part of
`src/main.c`, followed by the properties proved about it.

Conventions of the embedding

* C `int` values are mathematical integers (`Int`).  Signed overflow is undefined in C and
  is outside this model; every counter is far from the limits on the inputs considered.
* `HallCall calls[MAX_FLOORS]` and the three `bool [MAX_FLOORS]` globals of `main.c` are
  total maps from `Fin MAX_FLOORS`.  A C read at an `int` index goes through `floorIdx`,
  which fails outside `[0, MAX_FLOORS)`.
* `rand()` is a stream `Nat → Nat` read at an explicit position, or an explicit draw.
* `float` is IEEE binary32 with round-to-nearest-even and an unbounded exponent range
  (`F32`): on 32-bit integer inputs no intermediate value of the program leaves the normal
  range of binary32, so nothing overflows or underflows there.
* A C loop whose bound is not a constant takes a `fuel` argument, one unit per
  iteration; running out of fuel and reading outside an array are the two `Fault`s.
* `printf`, the LEDs and `sleep_ms` have no effect on the state and are left out.
-/

namespace SmartStop

/-! ## smartstop.h -/

abbrev MAX_FLOORS : Nat := 10

abbrev ELEVATOR_CAP : Int := 8

structure HallCall where
  active : Bool
  floor : Int
  est_passengers : Int
  wait_time : Int
deriving DecidableEq, Repr

inductive TrafficMode where
  | TRAFFIC_LOW
  | TRAFFIC_MEDIUM
  | TRAFFIC_HIGH
deriving DecidableEq, Repr

structure ElevatorState where
  current_floor : Int
  direction : Int
  occupancy : Int
deriving DecidableEq, Repr

structure Stats where
  total_stops : Int
  skipped_stops : Int
  total_cycles : Int
  total_boarded : Int
deriving DecidableEq, Repr

/-- The array `HallCall calls[MAX_FLOORS]`. -/
abbrev Calls := Fin MAX_FLOORS → HallCall

/-- A `bool [MAX_FLOORS]` array. -/
abbrev Flags := Fin MAX_FLOORS → Bool

/-- The indices `0 .. MAX_FLOORS - 1` in the order of `for (int i = 0; i < MAX_FLOORS; i++)`. -/
def floors : List (Fin MAX_FLOORS) := [0, 1, 2, 3, 4, 5, 6, 7, 8, 9]

/-- The floor number of an index, as a C `int`. -/
def fl (i : Fin MAX_FLOORS) : Int := ((i : Nat) : Int)

/-- An `int` used as an array index: defined only inside `[0, MAX_FLOORS)`. -/
def floorIdx (f : Int) : Option (Fin MAX_FLOORS) :=
  if h : 0 ≤ f ∧ f < (MAX_FLOORS : Int) then some ⟨f.toNat, by omega⟩ else none

/-! ## binary32 arithmetic -/

/-- A finite binary32 value `sig * 2 ^ exp`. -/
structure F32 where
  sig : Int
  exp : Int
deriving DecidableEq, Repr

namespace F32

/-- Numerator of the exact value over the denominator `den`. -/
def num (x : F32) : Int := if 0 ≤ x.exp then x.sig * 2 ^ x.exp.toNat else x.sig

/-- Denominator of the exact value: a power of two. -/
def den (x : F32) : Nat := if 0 ≤ x.exp then 1 else 2 ^ (-x.exp).toNat

/-- The exact value. -/
def val (x : F32) : ℚ := (x.num : ℚ) / (x.den : ℚ)

/-- Number of binary digits of `n` (when `fuel ≥` that number). -/
def bitLen : Nat → Nat → Nat
  | 0, _ => 0
  | fuel + 1, n => if n = 0 then 0 else bitLen fuel (n / 2) + 1

/-- Round the positive fraction `n / d` to 24 significant bits, nearest, ties to even:
the result `(m, e)` stands for `m * 2 ^ e`. -/
def roundPos (n d : Nat) : Nat × Int :=
  let k0 : Int := 23 + (bitLen d d : Int) - (bitLen n n : Int)
  let scale (k : Int) : Nat × Nat :=
    if 0 ≤ k then (n * 2 ^ k.toNat, d) else (n, d * 2 ^ (-k).toNat)
  let k := if (scale k0).1 / (scale k0).2 < 2 ^ 23 then k0 + 1 else k0
  let N := (scale k).1
  let D := (scale k).2
  let q := N / D
  let r := N % D
  let q1 := if 2 * r < D then q else if 2 * r > D then q + 1 else q + q % 2
  (q1, -k)

/-- Round the fraction `n / d` to binary32. -/
def round (n : Int) (d : Nat) : F32 :=
  if n = 0 then ⟨0, 0⟩
  else
    let r := roundPos n.natAbs d
    ⟨if n < 0 then -(r.1 : Int) else (r.1 : Int), r.2⟩

/-- The conversion `(float) n`. -/
def ofInt (n : Int) : F32 := round n 1

def add (x y : F32) : F32 := round (x.num * y.den + y.num * x.den) (x.den * y.den)

def mul (x y : F32) : F32 := round (x.num * y.num) (x.den * y.den)

def div (x y : F32) : F32 := round (x.num * y.den * y.num.sign) (x.den * y.num.natAbs)

/-- The comparison `x < y`. -/
def blt (x y : F32) : Bool := decide (x.num * y.den < y.num * x.den)

/-- The literal `-1.0f`. -/
def negOne : F32 := ⟨-1, 0⟩

/-- The literal `2.0f`. -/
def two : F32 := ⟨2, 0⟩

/-- The literal `1.2f`. -/
def c1_2 : F32 := round 6 5

/-- The literal `0.65f`. -/
def c0_65 : F32 := round 13 20

end F32

/-! ## smartstop.c -/

/-- The state written by `smartstop_init` (the seeding of `rand` apart). -/
def smartstop_init : Calls × ElevatorState × Stats :=
  (fun i => ⟨false, fl i, 0, 0⟩, ⟨(MAX_FLOORS : Int) - 1, -1, 0⟩, ⟨0, 0, 0, 0⟩)

/-- `estimate_passengers`, on the draw `r` that `rand()` returns. -/
def estimate_passengers (mode : TrafficMode) (r : Nat) : Int :=
  match mode with
  | .TRAFFIC_LOW => ((r % 2 : Nat) : Int)
  | .TRAFFIC_MEDIUM => ((r % 4 : Nat) : Int)
  | .TRAFFIC_HIGH => ((r % 6 : Nat) : Int)

/-- One iteration of the loop of `generate_random_hall_calls`: the table and the position
in the random stream. -/
def generate_step (e : ElevatorState) (mode : TrafficMode) (rand : Nat → Nat)
    (st : Calls × Nat) (i : Fin MAX_FLOORS) : Calls × Nat :=
  if fl i = e.current_floor then st
  else if !(st.1 i).active then
    let r := rand st.2 % 100
    if r < 10 then
      (Function.update st.1 i
        { active := true, floor := fl i,
          est_passengers := estimate_passengers mode (rand (st.2 + 1)), wait_time := 0 },
       st.2 + 2)
    else (st.1, st.2 + 1)
  else
    (Function.update st.1 i { st.1 i with wait_time := (st.1 i).wait_time + 1 }, st.2)

/-- `generate_random_hall_calls`: `rand` is the stream of values of `rand()`, `pos` the
number of values already consumed; the new position is returned with the table. -/
def generate_random_hall_calls (calls : Calls) (e : ElevatorState) (mode : TrafficMode)
    (rand : Nat → Nat) (pos : Nat) : Calls × Nat :=
  floors.foldl (generate_step e mode rand) (calls, pos)

/-- The value `eff` computed in the loop of `smartstop_decide_next_floor` for a call of
`est` passengers at offset `delta` that has waited `wait_time` cycles. -/
def efficiency (est delta wait_time : Int) : F32 :=
  let cost := F32.add (F32.ofInt (if delta ≥ 0 then delta else -delta)) F32.two
  let eff := F32.div (F32.ofInt est) cost
  if wait_time > 5 then F32.mul eff F32.c1_2 else eff

/-- One iteration of the loop of `smartstop_decide_next_floor` on
`(best_efficiency, best_floor)`. -/
def decide_step (calls : Calls) (e : ElevatorState) (acc : F32 × Int)
    (i : Fin MAX_FLOORS) : F32 × Int :=
  if !(calls i).active then acc
  else
    let delta := fl i - e.current_floor
    if e.direction = 1 ∧ delta ≤ 0 then acc
    else if e.direction = -1 ∧ delta ≥ 0 then acc
    else
      let est := (calls i).est_passengers
      if est ≤ 0 then acc
      else
        let eff := efficiency est delta (calls i).wait_time
        if F32.blt acc.1 eff then (eff, fl i) else acc

/-- `smartstop_decide_next_floor`: the returned floor (or `-1`) and the state after the
call. -/
def smartstop_decide_next_floor (calls : Calls) (e : ElevatorState) (s : Stats)
    (efficiency_threshold : F32) : Int × Calls × ElevatorState × Stats :=
  let s1 := { s with total_cycles := s.total_cycles + 1 }
  let best := floors.foldl (decide_step calls e) (F32.negOne, -1)
  if best.2 = -1 then (-1, calls, e, s1)
  else if F32.blt best.1 efficiency_threshold then
    (-1, calls, e, { s1 with skipped_stops := s1.skipped_stops + 1 })
  else (best.2, calls, e, s1)

/-- `smartstop_handle_stop` at a floor of the table. -/
def smartstop_handle_stop (calls : Calls) (e : ElevatorState) (s : Stats)
    (floor : Fin MAX_FLOORS) : Calls × ElevatorState × Stats :=
  if !(calls floor).active then (calls, e, s)
  else
    let est := (calls floor).est_passengers
    let est := if est < 0 then 0 else est
    let available_capacity := ELEVATOR_CAP - e.occupancy
    let available_capacity := if available_capacity < 0 then 0 else available_capacity
    let boarded := est
    let boarded := if boarded > available_capacity then available_capacity else boarded
    let occupancy := e.occupancy + boarded
    let occupancy := if occupancy > ELEVATOR_CAP then ELEVATOR_CAP else occupancy
    (Function.update calls floor
       { calls floor with active := false, est_passengers := 0, wait_time := 0 },
     { e with occupancy := occupancy },
     { s with total_boarded := s.total_boarded + boarded, total_stops := s.total_stops + 1 })

/-! ## main.c -/

abbrev EMERGENCY_WAIT_TIME : Int := 15

abbrev CYCLES_FULL_MAX : Int := 8

abbrev MIN_DISEMBARK_PASSENGERS : Int := 1

abbrev MAX_DISEMBARK_PASSENGERS : Int := 4

/-- `simulate_disembark` on the array `internal_calls`; `r1` is the draw of
`rand() % 100` and `r2` the draw of the number leaving, each used only on the path that
calls `rand()`. -/
def simulate_disembark (internal_calls : Flags) (elevator : ElevatorState)
    (floor : Fin MAX_FLOORS) (has_call : Bool) (r1 r2 : Nat) : Flags × ElevatorState :=
  if elevator.occupancy ≤ 2 then (internal_calls, elevator)
  else
    let exit_probability : Int := 35
    let exit_probability :=
      if fl floor = 0 ∨ fl floor = (MAX_FLOORS : Int) - 1 then 70 else exit_probability
    let exit_probability := if has_call then exit_probability + 25 else exit_probability
    let st : Bool × Flags :=
      if internal_calls floor then (true, Function.update internal_calls floor false)
      else (decide (((r1 % 100 : Nat) : Int) < exit_probability), internal_calls)
    if st.1 then
      let disembark_count : Int :=
        MIN_DISEMBARK_PASSENGERS +
          (((r2 : Int) % (MAX_DISEMBARK_PASSENGERS - MIN_DISEMBARK_PASSENGERS + 1)))
      let disembark_count :=
        if disembark_count > elevator.occupancy then elevator.occupancy else disembark_count
      (st.2, { elevator with occupancy := elevator.occupancy - disembark_count })
    else (st.2, elevator)

/-- One iteration of the loop of `cleanup_empty_calls`. -/
def cleanup_step (calls : Calls) (i : Fin MAX_FLOORS) : Calls :=
  if (calls i).active ∧ (calls i).est_passengers ≤ 0 then
    Function.update calls i { calls i with active := false, est_passengers := 0 }
  else calls

/-- `cleanup_empty_calls`. -/
def cleanup_empty_calls (calls : Calls) : Calls :=
  floors.foldl cleanup_step calls

/-- The state `choose_next_floor_realistic` works on: its three arguments and the globals
of `main.c` it reads or writes. -/
structure World where
  calls : Calls
  elevator : ElevatorState
  stats : Stats
  internal_calls : Flags
  internal_from_button : Flags
  external_from_button : Flags
  cycles_at_full_capacity : Int

/-- What stops the model of a C function short of its `return`. -/
inductive Fault where
  | out_of_bounds
  | out_of_fuel
deriving DecidableEq, Repr

/-- `any_internal_call`. -/
def any_internal_call (internal_calls : Flags) : Bool :=
  floors.any fun i => internal_calls i

/-- One iteration of the loop of `find_emergency_call` on `(worst_wait, worst_floor)`. -/
def find_emergency_step (calls : Calls) (acc : Int × Int) (i : Fin MAX_FLOORS) : Int × Int :=
  if (calls i).active ∧ (calls i).est_passengers > 0 ∧ (calls i).wait_time > acc.1 then
    ((calls i).wait_time, fl i)
  else acc

/-- `find_emergency_call`. -/
def find_emergency_call (calls : Calls) : Int :=
  let worst := floors.foldl (find_emergency_step calls) (0, -1)
  if worst.1 ≥ EMERGENCY_WAIT_TIME then worst.2 else -1

/-- The loop `for (f = current_floor; f != emergency_floor; f += direction)` of
`choose_next_floor_realistic`, from floor `f` with `calls_in_path = n`: each iteration
uses one unit of fuel and reads `calls[f]`. -/
def count_calls_in_path (calls : Calls) (emergency_floor direction : Int) :
    Nat → Int → Int → Except Fault Int
  | 0, f, n => if f = emergency_floor then .ok n else .error .out_of_fuel
  | fuel + 1, f, n =>
    if f = emergency_floor then .ok n
    else
      match floorIdx f with
      | none => .error .out_of_bounds
      | some i =>
        count_calls_in_path calls emergency_floor direction fuel (f + direction)
          (if (calls i).active ∧ (calls i).est_passengers > 0 then n + 1 else n)

/-- The distance `dist` of floor `i` from `current_floor`. -/
def dist (current_floor : Int) (i : Fin MAX_FLOORS) : Int :=
  let delta := fl i - current_floor
  if delta ≥ 0 then delta else -delta

/-- One iteration of the button loop (priority 1) on `(best_btn_dist, best_btn_floor)`. -/
def button_step (w : World) (acc : Int × Int) (i : Fin MAX_FLOORS) : Int × Int :=
  if !(w.internal_from_button i || w.external_from_button i) then acc
  else if dist w.elevator.current_floor i < acc.1 then
    (dist w.elevator.current_floor i, fl i)
  else acc

/-- One iteration of the first loop over `internal_calls` (priority 2), which keeps to the
current direction, on `(best_dist, best_floor)`. -/
def internal_dir_step (w : World) (acc : Int × Int) (i : Fin MAX_FLOORS) : Int × Int :=
  if !(w.internal_calls i) then acc
  else
    let delta := fl i - w.elevator.current_floor
    if (w.elevator.direction = 1 ∧ delta < 0) ∨ (w.elevator.direction = -1 ∧ delta > 0) then acc
    else if dist w.elevator.current_floor i < acc.1 then
      (dist w.elevator.current_floor i, fl i)
    else acc

/-- One iteration of the second loop over `internal_calls` (priority 2), any direction. -/
def internal_any_step (w : World) (acc : Int × Int) (i : Fin MAX_FLOORS) : Int × Int :=
  if !(w.internal_calls i) then acc
  else if dist w.elevator.current_floor i < acc.1 then
    (dist w.elevator.current_floor i, fl i)
  else acc

/-- The floor that the internal-destination block (priority 2) selects, `-1` when it
selects none. -/
def internal_choice (w : World) : Int :=
  if any_internal_call w.internal_calls then
    let best := floors.foldl (internal_dir_step w) (999, -1)
    let best := if best.2 = -1 then floors.foldl (internal_any_step w) best else best
    best.2
  else -1

/-- Whether `calls[check_floor]` is an active call with passengers; `false` outside the
table, where the C code does not read. -/
def call_waiting (calls : Calls) (check_floor : Int) : Bool :=
  match floorIdx check_floor with
  | some i => (calls i).active && decide ((calls i).est_passengers > 0)
  | none => false

/-- The proximity loop (priority 4) over the offsets 0, 1, 2: the floor it returns. -/
def proximity_choice (calls : Calls) (elevator : ElevatorState) : Option Int :=
  ([0, 1, 2] : List Int).findSome? fun offset =>
    let check_floor := elevator.current_floor + offset * elevator.direction
    if call_waiting calls check_floor then some check_floor else none

/-- The loop of priority 6 over the offsets still to try: it stops at the first floor
outside the building. -/
def crowded_scan (calls : Calls) (elevator : ElevatorState) : List Int → Option Int
  | [] => none
  | offset :: rest =>
    let floor := elevator.current_floor + offset * elevator.direction
    if floor < 0 ∨ floor ≥ (MAX_FLOORS : Int) then none
    else if call_waiting calls floor then some floor
    else crowded_scan calls elevator rest

/-- One iteration of the loop of the empty-car fallback on `(best_dist, best_floor)`. -/
def fallback_step (w : World) (acc : Int × Int) (i : Fin MAX_FLOORS) : Int × Int :=
  if (w.calls i).active ∧ (w.calls i).est_passengers > 0 then
    if dist w.elevator.current_floor i < acc.1 then (dist w.elevator.current_floor i, fl i)
    else acc
  else acc

/-- Priorities 5 and 6 and the empty-car fallback of `choose_next_floor_realistic`. -/
def choose_after_proximity (w : World) : Int × World :=
  let sm : Int × World :=
    if w.elevator.occupancy < ELEVATOR_CAP - 2 then
      let r := smartstop_decide_next_floor w.calls w.elevator w.stats F32.c0_65
      (r.1, { w with calls := r.2.1, elevator := r.2.2.1, stats := r.2.2.2 })
    else (-1, w)
  if sm.1 ≠ -1 then sm
  else
    let w := sm.2
    let crowded : Option Int :=
      if w.elevator.occupancy ≥ ELEVATOR_CAP - 1 then
        crowded_scan w.calls w.elevator [1, 2, 3, 4, 5, 6, 7, 8, 9]
      else none
    match crowded with
    | some floor => (floor, w)
    | none =>
      if w.elevator.occupancy = 0 then
        ((floors.foldl (fallback_step w) (999, -1)).2, w)
      else (-1, w)

/-- Priorities 1 to 6 and the fallback of `choose_next_floor_realistic`: what the function
does once the emergency block has not returned. -/
def choose_after_emergency (w : World) : Int × World :=
  let best_btn := floors.foldl (button_step w) (999, -1)
  if best_btn.2 ≠ -1 then (best_btn.2, w)
  else if internal_choice w ≠ -1 then (internal_choice w, w)
  else
    let next := w.elevator.current_floor + w.elevator.direction
    if w.elevator.occupancy ≥ ELEVATOR_CAP ∧ w.cycles_at_full_capacity ≥ CYCLES_FULL_MAX ∧
        next ≥ 0 ∧ next < (MAX_FLOORS : Int) then
      (next, { w with cycles_at_full_capacity := 0 })
    else
      match proximity_choice w.calls w.elevator with
      | some check_floor => (check_floor, w)
      | none => choose_after_proximity w

/-- `choose_next_floor_realistic`: the returned floor (or `-1`) and the state after the
call.  `fuel` bounds the iterations of the path-counting loop of the emergency block. -/
def choose_next_floor_realistic (fuel : Nat) (w : World) : Except Fault (Int × World) :=
  let emergency_floor := find_emergency_call w.calls
  if emergency_floor ≠ -1 then
    let direction : Int := if emergency_floor > w.elevator.current_floor then 1 else -1
    match count_calls_in_path w.calls emergency_floor direction fuel w.elevator.current_floor 0 with
    | .error err => .error err
    | .ok calls_in_path =>
      if calls_in_path < 2 ∨ w.elevator.occupancy < 2 then .ok (emergency_floor, w)
      else .ok (choose_after_emergency w)
  else .ok (choose_after_emergency w)

/-- The direction adjustment that precedes the movement loop of the stop branch of
`main`. -/
def set_direction (elevator : ElevatorState) (target_floor : Int) : ElevatorState :=
  if target_floor > elevator.current_floor then { elevator with direction := 1 }
  else if target_floor < elevator.current_floor then { elevator with direction := -1 }
  else elevator

/-- One iteration of the inner loop `for (f = 0; f < MAX_FLOORS; f++)` of the movement
loop, with the car just moved to `current_floor`. -/
def pass_step (calls : Calls) (current_floor target_floor : Int) (stats : Stats)
    (f : Fin MAX_FLOORS) : Stats :=
  if (calls f).active ∧ (calls f).est_passengers > 0 ∧ fl f = current_floor ∧
      fl f ≠ target_floor then
    { stats with skipped_stops := stats.skipped_stops + 1 }
  else stats

/-- The body of the movement loop `while (elevator.current_floor != target_floor)`. -/
def move_body (calls : Calls) (target_floor : Int) (st : ElevatorState × Stats) :
    ElevatorState × Stats :=
  let current_floor := st.1.current_floor + st.1.direction
  let stats := floors.foldl (pass_step calls current_floor target_floor) st.2
  let elevator : ElevatorState := { st.1 with current_floor := current_floor }
  let elevator : ElevatorState :=
    if current_floor ≤ 0 then { elevator with current_floor := 0, direction := 1 }
    else if current_floor ≥ (MAX_FLOORS : Int) - 1 then
      { elevator with current_floor := (MAX_FLOORS : Int) - 1, direction := -1 }
    else elevator
  (elevator, stats)

/-- The movement loop `while (elevator.current_floor != target_floor)`: each iteration uses
one unit of fuel. -/
def move_loop (calls : Calls) (target_floor : Int) :
    Nat → ElevatorState × Stats → Except Fault (ElevatorState × Stats)
  | 0, st => if st.1.current_floor = target_floor then .ok st else .error .out_of_fuel
  | fuel + 1, st =>
    if st.1.current_floor = target_floor then .ok st
    else move_loop calls target_floor fuel (move_body calls target_floor st)

/-- The stop branch of `main` (`target_floor != -1`): direction adjustment, movement loop,
then at the target disembarking, boarding and the clearing of the button flags.  `r1` and
`r2` are the draws of `simulate_disembark`. -/
def stop_branch (fuel : Nat) (w : World) (target_floor : Int) (r1 r2 : Nat) :
    Except Fault World :=
  match move_loop w.calls target_floor fuel
      (set_direction w.elevator target_floor, w.stats) with
  | .error err => .error err
  | .ok moved =>
    match floorIdx target_floor with
    | none => .error .out_of_bounds
    | some t =>
      let d : Flags × ElevatorState :=
        if moved.1.occupancy > 0 then
          simulate_disembark w.internal_calls moved.1 t (w.calls t).active r1 r2
        else (w.internal_calls, moved.1)
      let b : Calls × ElevatorState × Stats :=
        if (w.calls t).active ∧ d.2.occupancy < ELEVATOR_CAP then
          if (w.calls t).est_passengers > 0 then
            smartstop_handle_stop w.calls d.2 moved.2 t
          else (Function.update w.calls t { w.calls t with active := false }, d.2, moved.2)
        else if (w.calls t).active ∧ d.2.occupancy ≥ ELEVATOR_CAP then (w.calls, d.2, moved.2)
        else if (w.calls t).active ∧ (w.calls t).est_passengers = 0 then
          (Function.update w.calls t { w.calls t with active := false }, d.2, moved.2)
        else (w.calls, d.2, moved.2)
      .ok { w with
        calls := b.1
        elevator := b.2.1
        stats := b.2.2
        internal_calls := d.1
        internal_from_button := Function.update w.internal_from_button t false
        external_from_button := Function.update w.external_from_button t false }

/-- The boundary handling that follows `elevator.current_floor += elevator.direction` in
the cruising branch. -/
def cruise_move (elevator : ElevatorState) : ElevatorState :=
  let current_floor := elevator.current_floor + elevator.direction
  if current_floor ≤ 0 then { elevator with current_floor := 0, direction := 1 }
  else if current_floor ≥ (MAX_FLOORS : Int) - 1 then
    { elevator with current_floor := (MAX_FLOORS : Int) - 1, direction := -1 }
  else { elevator with current_floor := current_floor }

/-- The cruising branch of `main` (`target_floor == -1`): `r0` is the draw of the 15 %
test, `r1` and `r2` the draws of `simulate_disembark`. -/
def cruise_branch (w : World) (r0 r1 r2 : Nat) : Except Fault World :=
  let d : Except Fault (Flags × ElevatorState) :=
    if w.elevator.occupancy > 0 ∧ r0 % 100 < 15 then
      if w.elevator.occupancy ≤ 2 then .ok (w.internal_calls, w.elevator)
      else
        match floorIdx w.elevator.current_floor with
        | none => .error .out_of_bounds
        | some i => .ok (simulate_disembark w.internal_calls w.elevator i false r1 r2)
    else .ok (w.internal_calls, w.elevator)
  match d with
  | .error err => .error err
  | .ok d => .ok { w with internal_calls := d.1, elevator := cruise_move d.2 }

/-! ## Specification vocabulary -/

/-- The inactive-call invariant of the data model: an inactive call carries no demand
and no waiting time. -/
def InactiveClean (calls : Calls) : Prop :=
  ∀ i, (calls i).active = false → (calls i).est_passengers = 0 ∧ (calls i).wait_time = 0

instance (calls : Calls) : Decidable (InactiveClean calls) := by
  unfold InactiveClean; infer_instance

/-- The effect of one cleanup iteration on a single record. -/
def cleanup_call (c : HallCall) : HallCall :=
  if c.active ∧ c.est_passengers ≤ 0 then { c with active := false, est_passengers := 0 } else c

namespace F32

instance : LT F32 := ⟨fun x y => x.num * y.den < y.num * x.den⟩

instance (x y : F32) : Decidable (x < y) := by
  show Decidable (x.num * y.den < y.num * x.den); infer_instance

/-- Two binary32 values are equal as numbers. -/
def same (x y : F32) : Prop := x.num * y.den = y.num * x.den

instance (x y : F32) : Decidable (same x y) := by
  unfold same; infer_instance

end F32

namespace F32

/-- The pair `scale k` of `roundPos`: the fraction `n / d` multiplied by `2 ^ k`. -/
def scalePair (n d : Nat) (k : Int) : Nat × Nat :=
  if 0 ≤ k then (n * 2 ^ k.toNat, d) else (n, d * 2 ^ (-k).toNat)

/-- The exponent `k` that `roundPos` settles on. -/
def roundExp (n d : Nat) : Int :=
  let k0 : Int := 23 + (bitLen d d : Int) - (bitLen n n : Int)
  if (scalePair n d k0).1 / (scalePair n d k0).2 < 2 ^ 23 then k0 + 1 else k0

/-- The quotient `N / D` rounded to an integer, nearest, ties to even, as in `roundPos`. -/
def roundSig (N D : Nat) : Nat :=
  let q := N / D
  let r := N % D
  if 2 * r < D then q else if 2 * r > D then q + 1 else q + q % 2

/-- A value `v` that lies between `lo * x` and `hi * x`. -/
def Within (lo hi x v : ℚ) : Prop := lo * x ≤ v ∧ v ≤ hi * x

end F32

/-- The efficiency of the SmartStop rule in exact arithmetic:
`est / (|delta| + 2)`, multiplied by 1.2 when the call has waited more than 5 cycles. -/
def exactEfficiency (est delta wait_time : Int) : ℚ :=
  (est : ℚ) / ((|delta| : Int) + 2 : ℚ) * (if wait_time > 5 then 6 / 5 else 1)

/-- Floor `i` lies strictly ahead of the car in its direction of travel. -/
def Ahead (e : ElevatorState) (i : Fin MAX_FLOORS) : Prop :=
  (e.direction = 1 ∧ fl i > e.current_floor) ∨ (e.direction = -1 ∧ fl i < e.current_floor)

instance (e : ElevatorState) (i : Fin MAX_FLOORS) : Decidable (Ahead e i) := by
  unfold Ahead; infer_instance

/-- A SmartStop candidate: an active call strictly ahead with passengers waiting. -/
def Candidate (calls : Calls) (e : ElevatorState) (i : Fin MAX_FLOORS) : Prop :=
  (calls i).active = true ∧ Ahead e i ∧ (calls i).est_passengers > 0

instance (calls : Calls) (e : ElevatorState) (i : Fin MAX_FLOORS) :
    Decidable (Candidate calls e i) := by
  unfold Candidate; infer_instance

/-- The efficiency of the call at floor `i` seen from the car. -/
def callEff (calls : Calls) (e : ElevatorState) (i : Fin MAX_FLOORS) : F32 :=
  efficiency (calls i).est_passengers (fl i - e.current_floor) (calls i).wait_time

/-- Floor `m` is the candidate of maximum efficiency, the lowest floor among the candidates
of equal efficiency. -/
def BestCandidate (calls : Calls) (e : ElevatorState) (m : Fin MAX_FLOORS) : Prop :=
  Candidate calls e m ∧
  ∀ j, Candidate calls e j →
    callEff calls e j < callEff calls e m ∨
      (F32.same (callEff calls e j) (callEff calls e m) ∧ m ≤ j)

instance (calls : Calls) (e : ElevatorState) (m : Fin MAX_FLOORS) :
    Decidable (BestCandidate calls e m) := by
  unfold BestCandidate; infer_instance

/-- A table that satisfies the inactive-call invariant: the only active call, at floor 3,
has no passenger and has not waited yet, the state in which button B leaves a call when
`estimate_passengers` returns 0. -/
def staleTable : Calls := fun i => if i = 3 then ⟨true, 3, 0, 0⟩ else ⟨false, fl i, 0, 0⟩

/-- The call table of the SmartStop example: 3 passengers at floor 6 and 1 at floor 9, none
of them having waited. -/
def exampleCalls : Calls := fun i =>
  if i = 6 then ⟨true, 6, 3, 0⟩ else if i = 9 then ⟨true, 9, 1, 0⟩ else ⟨false, fl i, 0, 0⟩

/-- The efficiency of the call at floor `i` seen from the car, in exact arithmetic. -/
def exactCallEff (calls : Calls) (e : ElevatorState) (i : Fin MAX_FLOORS) : ℚ :=
  exactEfficiency (calls i).est_passengers (fl i - e.current_floor) (calls i).wait_time

/-- Floor `m` is the candidate of maximum exact efficiency, the lowest floor among the
candidates of equal exact efficiency. -/
def ExactBest (calls : Calls) (e : ElevatorState) (m : Fin MAX_FLOORS) : Prop :=
  Candidate calls e m ∧
  ∀ j, Candidate calls e j →
    exactCallEff calls e j < exactCallEff calls e m ∨
      (exactCallEff calls e j = exactCallEff calls e m ∧ m ≤ j)

/-- Calls of 4 passengers at floor 8, which has not waited, and of 4 passengers at floor 9,
which has waited 6 cycles. -/
def tieCalls : Calls := fun i =>
  if i = 8 then ⟨true, 8, 4, 0⟩ else if i = 9 then ⟨true, 9, 4, 6⟩ else ⟨false, fl i, 0, 0⟩

/-- An active call with passengers waiting at floor `i`. -/
def Waiting (calls : Calls) (i : Fin MAX_FLOORS) : Prop :=
  (calls i).active = true ∧ (calls i).est_passengers > 0

instance (calls : Calls) (i : Fin MAX_FLOORS) : Decidable (Waiting calls i) := by
  unfold Waiting; infer_instance

/-- Floor `f` holds the waiting call of largest `wait_time`, the lowest floor among the
calls that have waited as long. -/
def LongestWaiting (calls : Calls) (f : Fin MAX_FLOORS) : Prop :=
  Waiting calls f ∧
  ∀ j, Waiting calls j →
    (calls j).wait_time < (calls f).wait_time ∨
      ((calls j).wait_time = (calls f).wait_time ∧ f ≤ j)

instance (calls : Calls) (f : Fin MAX_FLOORS) : Decidable (LongestWaiting calls f) := by
  unfold LongestWaiting; infer_instance

/-- Number of waiting calls on the floors from `current_floor` (included) to `f`
(excluded), the floors that the path loop of the emergency block visits. -/
def pathCount (calls : Calls) (current_floor f : Int) : Nat :=
  floors.countP fun i =>
    decide (Waiting calls i ∧
      ((current_floor ≤ fl i ∧ fl i < f) ∨ (f < fl i ∧ fl i ≤ current_floor)))

/-- Number of waiting calls on the floors strictly between `current_floor` and `f`, both
ends excluded. -/
def strictlyBetweenCount (calls : Calls) (current_floor f : Int) : Nat :=
  floors.countP fun i =>
    decide (Waiting calls i ∧
      ((current_floor < fl i ∧ fl i < f) ∨ (f < fl i ∧ fl i < current_floor)))

deriving instance DecidableEq for Except

/-- Floor `i` carries a manual flag, of internal or external origin. -/
def Flagged (w : World) (i : Fin MAX_FLOORS) : Prop :=
  w.internal_from_button i = true ∨ w.external_from_button i = true

instance (w : World) (i : Fin MAX_FLOORS) : Decidable (Flagged w i) := by
  unfold Flagged; infer_instance

/-- Floor `m` is the flagged floor closest to the car, the lowest floor among the flagged
floors at the same distance. -/
def ClosestFlagged (w : World) (m : Fin MAX_FLOORS) : Prop :=
  Flagged w m ∧
  ∀ j, Flagged w j →
    dist w.elevator.current_floor m < dist w.elevator.current_floor j ∨
      (dist w.elevator.current_floor j = dist w.elevator.current_floor m ∧ m ≤ j)

instance (w : World) (m : Fin MAX_FLOORS) : Decidable (ClosestFlagged w m) := by
  unfold ClosestFlagged; infer_instance

/-- The emergency block does not return: no waiting call has reached the emergency
threshold, or the emergency is deferred because at least two calls wait on the path and
at least two passengers are on board. -/
def EmergencySilent (w : World) : Prop :=
  (∀ i, Waiting w.calls i → (w.calls i).wait_time < EMERGENCY_WAIT_TIME) ∨
  (∃ f, LongestWaiting w.calls f ∧ (w.calls f).wait_time ≥ EMERGENCY_WAIT_TIME ∧
    2 ≤ pathCount w.calls w.elevator.current_floor (fl f) ∧ 2 ≤ w.elevator.occupancy)

instance (w : World) : Decidable (EmergencySilent w) := by
  unfold EmergencySilent; infer_instance

/-- A state with the given calls and car, no manual flag, no internal destination and all
counters at zero. -/
def plainWorld (calls : Calls) (e : ElevatorState) : World :=
  ⟨calls, e, ⟨0, 0, 0, 0⟩, fun _ => false, fun _ => false, fun _ => false, 0⟩

/-- Calls of one passenger at floors 5 and 6, and one at floor 8 that has waited 20
cycles. -/
def pathTable : Calls := fun i =>
  if i = 5 then ⟨true, 5, 1, 0⟩
  else if i = 6 then ⟨true, 6, 1, 0⟩
  else if i = 8 then ⟨true, 8, 1, 20⟩
  else ⟨false, fl i, 0, 0⟩

/-- A call of one passenger at floor 6 and one at floor 8 that has waited 20 cycles. -/
def urgentTable : Calls := fun i =>
  if i = 6 then ⟨true, 6, 1, 0⟩
  else if i = 8 then ⟨true, 8, 1, 20⟩
  else ⟨false, fl i, 0, 0⟩

/-- The state of `plainWorld` with floor 2 flagged by button A. -/
def flaggedWorld (calls : Calls) (e : ElevatorState) : World :=
  { plainWorld calls e with
    internal_calls := fun i => decide (i = 2)
    internal_from_button := fun i => decide (i = 2) }

/-- Calls at floors 2 and 7 only, with the given demands and waits. -/
def twoCalls (est2 wait2 est7 wait7 : Int) : Calls := fun i =>
  if i = 2 then ⟨true, 2, est2, wait2⟩
  else if i = 7 then ⟨true, 7, est7, wait7⟩
  else ⟨false, fl i, 0, 0⟩

/-- The exit probability, in percent, that `simulate_disembark` uses at `floor`. -/
def exitProbability (floor : Fin MAX_FLOORS) (has_call : Bool) : Int :=
  (if fl floor = 0 ∨ fl floor = (MAX_FLOORS : Int) - 1 then 70 else 35) +
    (if has_call then 25 else 0)

/-- Passengers leave at `floor`: it is a pending internal destination, or the draw `r1`
falls under the exit probability. -/
def Leaves (internal_calls : Flags) (floor : Fin MAX_FLOORS) (has_call : Bool) (r1 : Nat) :
    Prop :=
  internal_calls floor = true ∨ ((r1 % 100 : Nat) : Int) < exitProbability floor has_call

instance (internal_calls : Flags) (floor : Fin MAX_FLOORS) (has_call : Bool) (r1 : Nat) :
    Decidable (Leaves internal_calls floor has_call r1) := by
  unfold Leaves; infer_instance

/-- A single call of one passenger at floor 0. -/
def behindCall : Calls := fun i => if i = 0 then ⟨true, 0, 1, 0⟩ else ⟨false, fl i, 0, 0⟩

/-- No floor carries a manual flag. -/
def NoFlag (w : World) : Prop := ∀ i, ¬Flagged w i

instance (w : World) : Decidable (NoFlag w) := by
  unfold NoFlag; infer_instance

/-- No internal destination is pending. -/
def NoInternal (w : World) : Prop := ∀ i, w.internal_calls i = false

instance (w : World) : Decidable (NoInternal w) := by
  unfold NoInternal; infer_instance

/-- Floor `m` is the floor closest to `current_floor` among those that satisfy `P`, the
lowest floor among the equally distant ones. -/
def Closest (P : Fin MAX_FLOORS → Prop) (current_floor : Int) (m : Fin MAX_FLOORS) : Prop :=
  P m ∧
  ∀ j, P j →
    dist current_floor m < dist current_floor j ∨
      (dist current_floor j = dist current_floor m ∧ m ≤ j)

instance (P : Fin MAX_FLOORS → Prop) [DecidablePred P] (current_floor : Int)
    (m : Fin MAX_FLOORS) : Decidable (Closest P current_floor m) := by
  unfold Closest; infer_instance

/-- The offset of floor `i` from the car is zero or has the sign of the direction of
travel. -/
def InDirection (e : ElevatorState) (i : Fin MAX_FLOORS) : Prop :=
  fl i - e.current_floor = 0 ∨ (e.direction = 1 ∧ fl i - e.current_floor > 0) ∨
    (e.direction = -1 ∧ fl i - e.current_floor < 0)

instance (e : ElevatorState) (i : Fin MAX_FLOORS) : Decidable (InDirection e i) := by
  unfold InDirection; infer_instance

/-- The number `f` is a floor of the building that holds a waiting call. -/
def WaitingAt (calls : Calls) (f : Int) : Prop := ∃ i, fl i = f ∧ Waiting calls i

instance (calls : Calls) (f : Int) : Decidable (WaitingAt calls f) := by
  unfold WaitingAt; infer_instance

/-- The forced-disembark rule fires: the car is full, has been for `CYCLES_FULL_MAX`
cycles, and the next floor in the direction of travel is inside the building. -/
def ForcedFires (w : World) : Prop :=
  w.elevator.occupancy ≥ ELEVATOR_CAP ∧ w.cycles_at_full_capacity ≥ CYCLES_FULL_MAX ∧
    w.elevator.current_floor + w.elevator.direction ≥ 0 ∧
    w.elevator.current_floor + w.elevator.direction < (MAX_FLOORS : Int)

instance (w : World) : Decidable (ForcedFires w) := by
  unfold ForcedFires; infer_instance

/-- The rest of `choose_next_floor_realistic` from the proximity rule (priority 4) on. -/
def choose_from_proximity (w : World) : Int × World :=
  match proximity_choice w.calls w.elevator with
  | some check_floor => (check_floor, w)
  | none => choose_after_proximity w

/-- A call of 2 passengers at floor 7. -/
def nearCall : Calls := fun i => if i = 7 then ⟨true, 7, 2, 0⟩ else ⟨false, fl i, 0, 0⟩

/-- The state of `plainWorld` with the saturation counter at `n`. -/
def saturatedWorld (calls : Calls) (e : ElevatorState) (n : Int) : World :=
  { plainWorld calls e with cycles_at_full_capacity := n }

/-- The state of `plainWorld` with internal destinations at floors 3 and 8, none of them
flagged. -/
def destinationWorld (calls : Calls) (e : ElevatorState) : World :=
  { plainWorld calls e with internal_calls := fun i => decide (i = 3 ∨ i = 8) }

/-- The largest estimate that `estimate_passengers` draws in a traffic mode. -/
def modeMax : TrafficMode → Int
  | .TRAFFIC_LOW => 1
  | .TRAFFIC_MEDIUM => 3
  | .TRAFFIC_HIGH => 5

/-- The record that one iteration of `generate_random_hall_calls` leaves at floor `i`, from
the record `c` found there and the position `pos` in the random stream. -/
def generate_entry (e : ElevatorState) (mode : TrafficMode) (rand : Nat → Nat)
    (c : HallCall) (pos : Nat) (i : Fin MAX_FLOORS) : HallCall :=
  if fl i = e.current_floor then c
  else if !c.active then
    if rand pos % 100 < 10 then
      { active := true, floor := fl i,
        est_passengers := estimate_passengers mode (rand (pos + 1)), wait_time := 0 }
    else c
  else { c with wait_time := c.wait_time + 1 }

/-- The position invariant of the car: it is inside the building, goes up or down, goes
up at the ground floor and down at the top floor. -/
def PosInv (e : ElevatorState) : Prop :=
  0 ≤ e.current_floor ∧ e.current_floor ≤ (MAX_FLOORS : Int) - 1 ∧
  (e.direction = 1 ∨ e.direction = -1) ∧
  (e.current_floor = 0 → e.direction = 1) ∧
  (e.current_floor = (MAX_FLOORS : Int) - 1 → e.direction = -1)

instance (e : ElevatorState) : Decidable (PosInv e) := by
  unfold PosInv; infer_instance

/-- A destination that the first loop over `internal_calls` keeps: the test of the C code
for "same direction", as written there. -/
def KeptDestination (w : World) (i : Fin MAX_FLOORS) : Prop :=
  w.internal_calls i = true ∧
    ¬((w.elevator.direction = 1 ∧ fl i - w.elevator.current_floor < 0) ∨
      (w.elevator.direction = -1 ∧ fl i - w.elevator.current_floor > 0))

/-- Calls of 4 passengers at floors 0 and 9, both having waited 10 cycles. -/
def farCalls : Calls := fun i =>
  if i = 0 then ⟨true, 0, 4, 10⟩ else if i = 9 then ⟨true, 9, 4, 10⟩ else ⟨false, fl i, 0, 0⟩

/-- The state of `plainWorld` with an internal destination at floor 5, not flagged. -/
def pendingWorld (calls : Calls) (e : ElevatorState) : World :=
  { plainWorld calls e with internal_calls := fun i => decide (i = 5) }

/-- A result of the dispatcher: `-1` or a floor of the building. -/
def FloorOrNone (f : Int) : Prop := f = -1 ∨ (0 ≤ f ∧ f ≤ 9)

instance (f : Int) : Decidable (FloorOrNone f) := by
  unfold FloorOrNone; infer_instance

/-- Priority 5 of `choose_next_floor_realistic`: the result of SmartStop, consulted only
with fewer than `ELEVATOR_CAP - 2` passengers, and the state after it. -/
def smartstop_stage (w : World) : Int × World :=
  if w.elevator.occupancy < ELEVATOR_CAP - 2 then
    ((smartstop_decide_next_floor w.calls w.elevator w.stats F32.c0_65).1,
      { w with
        calls := (smartstop_decide_next_floor w.calls w.elevator w.stats F32.c0_65).2.1
        elevator := (smartstop_decide_next_floor w.calls w.elevator w.stats F32.c0_65).2.2.1
        stats := (smartstop_decide_next_floor w.calls w.elevator w.stats F32.c0_65).2.2.2 })
  else (-1, w)

/-- Priority 6 and the empty-car fallback of `choose_next_floor_realistic`. -/
def after_smartstop (w : World) : Int × World :=
  match (if w.elevator.occupancy ≥ ELEVATOR_CAP - 1 then
      crowded_scan w.calls w.elevator [1, 2, 3, 4, 5, 6, 7, 8, 9] else none) with
  | some floor => (floor, w)
  | none =>
    if w.elevator.occupancy = 0 then ((floors.foldl (fallback_step w) (999, -1)).2, w)
    else (-1, w)

/-- A call of 3 passengers at floor 8 that has waited 6 cycles. -/
def reachCall : Calls := fun i => if i = 8 then ⟨true, 8, 3, 6⟩ else ⟨false, fl i, 0, 0⟩

/-! ## Properties -/

theorem floors_nodup : floors.Nodup := by decide

theorem mem_floors (i : Fin MAX_FLOORS) : i ∈ floors := by
  revert i; decide

/-- A loop that rewrites entry `i` from its own old value rewrites every listed entry
once. -/
theorem foldl_update_apply {α : Type} (g : Fin MAX_FLOORS → α → α) :
    ∀ (L : List (Fin MAX_FLOORS)), L.Nodup → ∀ (t : Fin MAX_FLOORS → α) (j : Fin MAX_FLOORS),
      (L.foldl (fun t i => Function.update t i (g i (t i))) t) j
        = if j ∈ L then g j (t j) else t j
  | [], _, t, j => by simp
  | i :: L, hnd, t, j => by
    have hi : i ∉ L := (List.nodup_cons.mp hnd).1
    rw [List.foldl_cons, foldl_update_apply g L (List.nodup_cons.mp hnd).2]
    by_cases hji : j = i
    · subst hji
      simp [hi]
    · simp [hji, Function.update_noteq hji]

theorem cleanup_step_eq (calls : Calls) (i : Fin MAX_FLOORS) :
    cleanup_step calls i = Function.update calls i (cleanup_call (calls i)) := by
  unfold cleanup_step cleanup_call
  split
  · rfl
  · simp

theorem cleanup_empty_calls_apply (calls : Calls) (j : Fin MAX_FLOORS) :
    cleanup_empty_calls calls j = cleanup_call (calls j) := by
  have h : cleanup_step = fun (t : Calls) i => Function.update t i (cleanup_call (t i)) := by
    funext t i; exact cleanup_step_eq t i
  unfold cleanup_empty_calls
  rw [h, foldl_update_apply (fun _ c => cleanup_call c) floors floors_nodup]
  simp [mem_floors]

theorem cleanup_call_idem (c : HallCall) : cleanup_call (cleanup_call c) = cleanup_call c := by
  unfold cleanup_call
  split <;> simp_all

namespace F32

theorem den_pos (x : F32) : 0 < x.den := by
  unfold den; split <;> simp

theorem blt_iff (x y : F32) : blt x y = true ↔ x < y := by
  unfold blt; exact decide_eq_true_iff

theorem lt_iff_val (x y : F32) : x < y ↔ x.val < y.val := by
  have hx : (0 : ℚ) < x.den := by exact_mod_cast x.den_pos
  have hy : (0 : ℚ) < y.den := by exact_mod_cast y.den_pos
  show x.num * (y.den : Int) < y.num * (x.den : Int) ↔ _
  unfold val
  rw [div_lt_div_iff₀ hx hy]
  exact_mod_cast Iff.rfl

theorem same_iff_val (x y : F32) : same x y ↔ x.val = y.val := by
  have hx : (x.den : ℚ) ≠ 0 := by exact_mod_cast x.den_pos.ne'
  have hy : (y.den : ℚ) ≠ 0 := by exact_mod_cast y.den_pos.ne'
  unfold same val
  rw [div_eq_div_iff hx hy]
  exact_mod_cast Iff.rfl

theorem round_num_nonneg (n : Int) (d : Nat) (h : 0 ≤ n) : 0 ≤ (round n d).num := by
  unfold round num
  split_ifs <;> simp_all <;> omega

theorem add_num_nonneg (x y : F32) (hx : 0 ≤ x.num) (hy : 0 ≤ y.num) : 0 ≤ (add x y).num := by
  apply round_num_nonneg; positivity

theorem mul_num_nonneg (x y : F32) (hx : 0 ≤ x.num) (hy : 0 ≤ y.num) : 0 ≤ (mul x y).num := by
  apply round_num_nonneg; positivity

theorem div_num_nonneg (x y : F32) (hx : 0 ≤ x.num) (hy : 0 ≤ y.num) : 0 ≤ (div x y).num := by
  apply round_num_nonneg
  have : 0 ≤ y.num.sign := Int.sign_nonneg.mpr hy
  positivity

theorem negOne_lt (x : F32) (hx : 0 ≤ x.num) : negOne < x := by
  show negOne.num * (x.den : Int) < x.num * (negOne.den : Int)
  have : (0 : Int) < x.den := by exact_mod_cast x.den_pos
  have h1 : negOne.num = -1 := by decide
  have h2 : negOne.den = 1 := by decide
  rw [h1, h2]; push_cast; omega

end F32

theorem efficiency_num_nonneg (est delta wait_time : Int) (h : 0 ≤ est) :
    0 ≤ (efficiency est delta wait_time).num := by
  have hc : 0 ≤ (F32.add (F32.ofInt (if delta ≥ 0 then delta else -delta)) F32.two).num := by
    apply F32.add_num_nonneg
    · apply F32.round_num_nonneg; split <;> omega
    · decide
  have he := F32.div_num_nonneg _ _ (F32.round_num_nonneg est 1 h) hc
  unfold efficiency
  simp only []
  split
  · exact F32.mul_num_nonneg _ _ he (by decide)
  · exact he

namespace F32

theorem roundPos_eq (n d : Nat) :
    roundPos n d
      = (roundSig (scalePair n d (roundExp n d)).1 (scalePair n d (roundExp n d)).2,
          -roundExp n d) := rfl

theorem bitLen_spec : ∀ (fuel n : Nat), n ≤ fuel → 0 < n →
    ∃ b, bitLen fuel n = b + 1 ∧ 2 ^ b ≤ n ∧ n < 2 ^ (b + 1) := by
  intro fuel
  induction fuel with
  | zero => intro n h1 h2; omega
  | succ f ih =>
    intro n hn hpos
    have hne : n ≠ 0 := by omega
    simp only [bitLen, if_neg hne]
    by_cases h2 : n / 2 = 0
    · have h1 : n = 1 := by omega
      subst h1
      refine ⟨0, ?_, by norm_num, by norm_num⟩
      cases f <;> simp [bitLen]
    · obtain ⟨b, hb, hlo, hhi⟩ := ih (n / 2) (by omega) (by omega)
      refine ⟨b + 1, by rw [hb], ?_, ?_⟩
      · rw [pow_succ]; omega
      · rw [pow_succ]; omega

theorem val_eq (x : F32) : x.val = (x.sig : ℚ) * (2 : ℚ) ^ x.exp := by
  unfold val num den
  by_cases h : 0 ≤ x.exp
  · rw [if_pos h, if_pos h]
    obtain ⟨n, hn⟩ := Int.eq_ofNat_of_zero_le h
    rw [hn]
    simp
  · rw [if_neg h, if_neg h]
    obtain ⟨n, hn⟩ : ∃ n : Nat, x.exp = -(n : Int) := ⟨(-x.exp).toNat, by omega⟩
    rw [hn]
    simp [zpow_neg, div_eq_mul_inv]

theorem scalePair_pos (n d : Nat) (k : Int) (hd : 0 < d) : 0 < (scalePair n d k).2 := by
  unfold scalePair
  split
  · exact hd
  · exact Nat.mul_pos hd (pow_pos (by norm_num) _)

theorem scalePair_ratio (n d : Nat) (k : Int) (hd : 0 < d) :
    ((scalePair n d k).1 : ℚ) / ((scalePair n d k).2 : ℚ) = (n : ℚ) / d * (2 : ℚ) ^ k := by
  have hd0 : (d : ℚ) ≠ 0 := by exact_mod_cast hd.ne'
  unfold scalePair
  by_cases h : 0 ≤ k
  · rw [if_pos h]
    obtain ⟨m, hm⟩ := Int.eq_ofNat_of_zero_le h
    rw [hm]
    simp only [Int.toNat_ofNat, Nat.cast_mul, Nat.cast_pow, Nat.cast_ofNat, zpow_natCast]
    ring
  · rw [if_neg h]
    obtain ⟨m, hm⟩ : ∃ m : Nat, k = -(m : Int) := ⟨(-k).toNat, by omega⟩
    rw [hm]
    simp only [neg_neg, Int.toNat_ofNat, Nat.cast_mul, Nat.cast_pow, Nat.cast_ofNat,
      zpow_neg, zpow_natCast]
    field_simp

theorem roundSig_near (N D : Nat) (hD : 0 < D) :
    |((roundSig N D : Nat) : ℚ) - (N : ℚ) / D| ≤ 1 / 2 := by
  have hD0 : (0 : ℚ) < D := by exact_mod_cast hD
  have hdm : (N : ℚ) = D * ((N / D : Nat) : ℚ) + ((N % D : Nat) : ℚ) := by
    exact_mod_cast (Nat.div_add_mod N D).symm
  have hr : N % D < D := Nat.mod_lt _ hD
  have hx : (N : ℚ) / D = ((N / D : Nat) : ℚ) + ((N % D : Nat) : ℚ) / D := by
    rw [div_eq_iff hD0.ne', add_mul, div_mul_cancel₀ _ hD0.ne']
    linarith [hdm]
  have ht0 : (0 : ℚ) ≤ ((N % D : Nat) : ℚ) / D := by positivity
  rw [hx, abs_le]
  unfold roundSig
  simp only []
  split_ifs with h1 h2
  · have : ((N % D : Nat) : ℚ) / D ≤ 1 / 2 := by
      rw [div_le_iff₀ hD0]
      have : (2 : ℚ) * ((N % D : Nat) : ℚ) < D := by exact_mod_cast h1
      linarith
    constructor <;> linarith
  · have : (1 : ℚ) / 2 ≤ ((N % D : Nat) : ℚ) / D := by
      rw [le_div_iff₀ hD0]
      have : (D : ℚ) < 2 * ((N % D : Nat) : ℚ) := by exact_mod_cast h2
      linarith
    have : ((N % D : Nat) : ℚ) / D ≤ 1 := by
      rw [div_le_iff₀ hD0]
      have : ((N % D : Nat) : ℚ) < D := by exact_mod_cast hr
      linarith
    push_cast
    constructor <;> linarith
  · have he : 2 * (N % D) = D := by omega
    have : ((N % D : Nat) : ℚ) / D = 1 / 2 := by
      rw [div_eq_iff hD0.ne']
      have : (2 : ℚ) * ((N % D : Nat) : ℚ) = D := by exact_mod_cast he
      linarith
    have hq : N / D % 2 = 0 ∨ N / D % 2 = 1 := by omega
    rcases hq with hq | hq <;> rw [hq] <;> push_cast <;> constructor <;> linarith

theorem roundExp_spec (n d : Nat) (hn : 0 < n) (hd : 0 < d) :
    (2 : ℚ) ^ 23 ≤ (n : ℚ) / d * (2 : ℚ) ^ roundExp n d := by
  obtain ⟨a, ha, halo, -⟩ := bitLen_spec n n le_rfl hn
  obtain ⟨b, hb, -, hbhi⟩ := bitLen_spec d d le_rfl hd
  have hd0 : (0 : ℚ) < d := by exact_mod_cast hd
  have hn0 : (0 : ℚ) < n := by exact_mod_cast hn
  have h22 : (2 : ℚ) ^ 22 ≤ (n : ℚ) / d * (2 : ℚ) ^ ((23 : Int) + (b + 1 : Nat) - (a + 1 : Nat)) := by
    have hk : ((23 : Int) + (b + 1 : Nat) - (a + 1 : Nat)) = (23 : Nat) + (b : Int) - (a : Int) := by
      push_cast; ring
    rw [hk, zpow_sub₀ (by norm_num), zpow_add₀ (by norm_num), zpow_natCast, zpow_natCast,
      zpow_natCast]
    have h1 : (2 : ℚ) ^ a ≤ n := by exact_mod_cast halo
    have h2 : (d : ℚ) ≤ 2 ^ (b + 1) := by exact_mod_cast hbhi.le
    have hpa : (0 : ℚ) < 2 ^ a := by positivity
    have hpb : (0 : ℚ) < 2 ^ b := by positivity
    rw [pow_succ] at h2
    have e : (n : ℚ) / d * (2 ^ 23 * 2 ^ b / 2 ^ a) = (n / 2 ^ a) * (2 ^ b / d) * 2 ^ 23 := by
      field_simp
      ring
    rw [e]
    have h3 : (1 : ℚ) ≤ n / 2 ^ a := by rw [le_div_iff₀ hpa]; linarith
    have h4 : (1 : ℚ) / 2 ≤ 2 ^ b / d := by
      rw [div_le_div_iff₀ (by norm_num) hd0]; linarith
    have h5 : (1 : ℚ) * (1 / 2) ≤ (n / 2 ^ a) * (2 ^ b / d) :=
      mul_le_mul h3 h4 (by norm_num) (by positivity)
    nlinarith
  unfold roundExp
  simp only [ha, hb]
  split_ifs with h
  · rw [zpow_add₀ (by norm_num), zpow_one]
    nlinarith
  · rw [← scalePair_ratio n d _ hd]
    have hD : (0 : ℚ) < ((scalePair n d ((23 : Int) + (b + 1 : Nat) - (a + 1 : Nat))).2 : ℚ) := by
      exact_mod_cast scalePair_pos n d _ hd
    have h1 : 2 ^ 23 ≤ (scalePair n d ((23 : Int) + (b + 1 : Nat) - (a + 1 : Nat))).1
        / (scalePair n d ((23 : Int) + (b + 1 : Nat) - (a + 1 : Nat))).2 := by omega
    calc (2 : ℚ) ^ 23
        ≤ (((scalePair n d ((23 : Int) + (b + 1 : Nat) - (a + 1 : Nat))).1
            / (scalePair n d ((23 : Int) + (b + 1 : Nat) - (a + 1 : Nat))).2 : Nat) : ℚ) := by
          exact_mod_cast h1
      _ ≤ _ := Nat.cast_div_le

/-- Rounding a positive fraction to binary32 changes it by at most the factor
`2 ^ -24`. -/
theorem round_within (n : Int) (d : Nat) (hn : 0 ≤ n) (hd : 0 < d) :
    Within (1 - 1 / 2 ^ 24) (1 + 1 / 2 ^ 24) ((n : ℚ) / d) (round n d).val := by
  rcases hn.eq_or_lt with h0 | hpos
  · subst h0
    have : (round 0 d).val = 0 := by
      simp [round, val, num]
    rw [this]
    simp [Within]
  · obtain ⟨m, rfl⟩ := Int.eq_ofNat_of_zero_le hn
    have hm : 0 < m := by exact_mod_cast hpos
    have hne : ¬((m : Int) = 0) := by omega
    have hnl : ¬((m : Int) < 0) := by omega
    have hr : round (m : Int) d
        = ⟨((roundSig (scalePair m d (roundExp m d)).1 (scalePair m d (roundExp m d)).2
            : Nat) : Int), -roundExp m d⟩ := by
      unfold round
      simp only [if_neg hne, if_neg hnl, Int.natAbs_ofNat, roundPos_eq]
    rw [hr, val_eq]
    have hD := scalePair_pos m d (roundExp m d) hd
    have hnear := roundSig_near (scalePair m d (roundExp m d)).1
      (scalePair m d (roundExp m d)).2 hD
    rw [scalePair_ratio m d _ hd, abs_le] at hnear
    have hX := roundExp_spec m d hm hd
    have hp : (0 : ℚ) < (2 : ℚ) ^ (-roundExp m d) := zpow_pos (by norm_num) _
    have hinv : (2 : ℚ) ^ roundExp m d * (2 : ℚ) ^ (-roundExp m d) = 1 := by
      rw [← zpow_add₀ (by norm_num)]; simp
    set X : ℚ := (m : ℚ) / d * (2 : ℚ) ^ roundExp m d with hXdef
    set q : ℚ := ((roundSig (scalePair m d (roundExp m d)).1
      (scalePair m d (roundExp m d)).2 : Nat) : ℚ) with hq
    set p : ℚ := (2 : ℚ) ^ (-roundExp m d) with hpdef
    have hx : ((m : Int) : ℚ) / d = X * p := by
      rw [hXdef, mul_assoc, hinv, mul_one]; simp
    have hcast : (((roundSig (scalePair m d (roundExp m d)).1
      (scalePair m d (roundExp m d)).2 : Nat) : Int) : ℚ) = q := by
      rw [hq]; simp
    simp only [hcast]
    rw [hx]
    have hX' : (8388608 : ℚ) ≤ X := by
      have : (2 : ℚ) ^ 23 = 8388608 := by norm_num
      linarith
    constructor
    · have : (1 - 1 / 2 ^ 24) * X ≤ q := by
        norm_num
        linarith [hnear.1]
      calc (1 - 1 / 2 ^ 24) * (X * p) = ((1 - 1 / 2 ^ 24) * X) * p := by ring
        _ ≤ q * p := mul_le_mul_of_nonneg_right this hp.le
    · have : q ≤ (1 + 1 / 2 ^ 24) * X := by
        norm_num
        linarith [hnear.2]
      calc q * p ≤ ((1 + 1 / 2 ^ 24) * X) * p := mul_le_mul_of_nonneg_right this hp.le
        _ = (1 + 1 / 2 ^ 24) * (X * p) := by ring

end F32

namespace F32

theorem within_trans {a b lo hi x y v : ℚ} (h1 : Within a b y v) (h2 : Within lo hi x y)
    (ha : 0 ≤ a) (hb : 0 ≤ b) : Within (a * lo) (b * hi) x v := by
  constructor
  · calc a * lo * x = a * (lo * x) := by ring
      _ ≤ a * y := mul_le_mul_of_nonneg_left h2.1 ha
      _ ≤ v := h1.1
  · calc v ≤ b * y := h1.2
      _ ≤ b * (hi * x) := mul_le_mul_of_nonneg_left h2.2 hb
      _ = b * hi * x := by ring

theorem within_mul {lo1 hi1 lo2 hi2 x y v w : ℚ} (h1 : Within lo1 hi1 x v)
    (h2 : Within lo2 hi2 y w) (hx : 0 ≤ lo1 * x) (hy : 0 ≤ lo2 * y) :
    Within (lo1 * lo2) (hi1 * hi2) (x * y) (v * w) := by
  have hv : 0 ≤ v := le_trans hx h1.1
  have hw : 0 ≤ w := le_trans hy h2.1
  constructor
  · calc lo1 * lo2 * (x * y) = (lo1 * x) * (lo2 * y) := by ring
      _ ≤ v * w := mul_le_mul h1.1 h2.1 hy hv
  · calc v * w ≤ (hi1 * x) * (hi2 * y) := mul_le_mul h1.2 h2.2 hw (le_trans hv h1.2)
      _ = hi1 * hi2 * (x * y) := by ring

theorem within_div {lo1 hi1 lo2 hi2 x y v w : ℚ} (h1 : Within lo1 hi1 x v)
    (h2 : Within lo2 hi2 y w) (hx : 0 ≤ lo1 * x) (hy : 0 < lo2 * y) :
    Within (lo1 / hi2) (hi1 / lo2) (x / y) (v / w) := by
  have hv : 0 ≤ v := le_trans hx h1.1
  have hw : 0 < w := lt_of_lt_of_le hy h2.1
  constructor
  · calc lo1 / hi2 * (x / y) = (lo1 * x) / (hi2 * y) := by rw [div_mul_div_comm]
      _ ≤ v / w := div_le_div₀ hv h1.1 hw h2.2
  · calc v / w ≤ (hi1 * x) / (lo2 * y) := div_le_div₀ (le_trans hv h1.2) h1.2 hy h2.1
      _ = hi1 / lo2 * (x / y) := by rw [div_mul_div_comm]

theorem within_add_const {lo hi x v : ℚ} (h : Within lo hi x v) (c : ℚ) (hc : 0 ≤ c)
    (hlo : lo ≤ 1) (hhi : 1 ≤ hi) : Within lo hi (x + c) (v + c) := by
  constructor
  · have : lo * c ≤ c := mul_le_of_le_one_left hc hlo
    linarith [h.1]
  · have : c ≤ hi * c := le_mul_of_one_le_left hc hhi
    linarith [h.2]

theorem within_mono {lo hi lo' hi' x v : ℚ} (h : Within lo hi x v) (hx : 0 ≤ x)
    (h1 : lo' ≤ lo) (h2 : hi ≤ hi') : Within lo' hi' x v :=
  ⟨le_trans (mul_le_mul_of_nonneg_right h1 hx) h.1,
    le_trans h.2 (mul_le_mul_of_nonneg_right h2 hx)⟩

theorem val_pos_iff (x : F32) : 0 < x.val ↔ 0 < x.num := by
  have hd : (0 : ℚ) < x.den := by exact_mod_cast x.den_pos
  unfold val
  rw [div_pos_iff_of_pos_right hd]
  exact_mod_cast Iff.rfl

/-- The conversion of a non-negative integer is accurate to the factor `2 ^ -24`. -/
theorem ofInt_within (n : Int) (hn : 0 ≤ n) :
    Within (1 - 1 / 2 ^ 24) (1 + 1 / 2 ^ 24) (n : ℚ) (ofInt n).val := by
  have h := round_within n 1 hn (by norm_num)
  simpa [ofInt] using h

/-- The sum of two non-negative values is accurate to the factor `2 ^ -24`. -/
theorem add_within (x y : F32) (hx : 0 ≤ x.num) (hy : 0 ≤ y.num) :
    Within (1 - 1 / 2 ^ 24) (1 + 1 / 2 ^ 24) (x.val + y.val) (add x y).val := by
  have hxd : (x.den : ℚ) ≠ 0 := by exact_mod_cast x.den_pos.ne'
  have hyd : (y.den : ℚ) ≠ 0 := by exact_mod_cast y.den_pos.ne'
  have h := round_within (x.num * y.den + y.num * x.den) (x.den * y.den) (by positivity)
    (Nat.mul_pos x.den_pos y.den_pos)
  have e : (((x.num * y.den + y.num * x.den : Int)) : ℚ) / ((x.den * y.den : Nat) : ℚ)
      = x.val + y.val := by
    unfold val
    push_cast
    field_simp
  rw [e] at h
  exact h

/-- The product of two non-negative values is accurate to the factor `2 ^ -24`. -/
theorem mul_within (x y : F32) (hx : 0 ≤ x.num) (hy : 0 ≤ y.num) :
    Within (1 - 1 / 2 ^ 24) (1 + 1 / 2 ^ 24) (x.val * y.val) (mul x y).val := by
  have hxd : (x.den : ℚ) ≠ 0 := by exact_mod_cast x.den_pos.ne'
  have hyd : (y.den : ℚ) ≠ 0 := by exact_mod_cast y.den_pos.ne'
  have h := round_within (x.num * y.num) (x.den * y.den) (by positivity)
    (Nat.mul_pos x.den_pos y.den_pos)
  have e : (((x.num * y.num : Int)) : ℚ) / ((x.den * y.den : Nat) : ℚ) = x.val * y.val := by
    unfold val
    push_cast
    field_simp
  rw [e] at h
  exact h

/-- The quotient of a non-negative value by a positive one is accurate to the factor
`2 ^ -24`. -/
theorem div_within (x y : F32) (hx : 0 ≤ x.num) (hy : 0 < y.num) :
    Within (1 - 1 / 2 ^ 24) (1 + 1 / 2 ^ 24) (x.val / y.val) (div x y).val := by
  have hxd : (x.den : ℚ) ≠ 0 := by exact_mod_cast x.den_pos.ne'
  have hyd : (y.den : ℚ) ≠ 0 := by exact_mod_cast y.den_pos.ne'
  have hyn : (y.num : ℚ) ≠ 0 := by exact_mod_cast hy.ne'
  have hs : y.num.sign = 1 := Int.sign_eq_one_of_pos hy
  have hna : ((y.num.natAbs : Nat) : Int) = y.num := Int.natAbs_of_nonneg hy.le
  have hnq : ((y.num.natAbs : Nat) : ℚ) = (y.num : ℚ) :=
    (Int.cast_natCast y.num.natAbs).symm.trans (congrArg Int.cast hna)
  have h := round_within (x.num * y.den * y.num.sign) (x.den * y.num.natAbs)
    (by rw [hs]; positivity) (Nat.mul_pos x.den_pos (by omega))
  have e : (((x.num * y.den * y.num.sign : Int)) : ℚ) / ((x.den * y.num.natAbs : Nat) : ℚ)
      = x.val / y.val := by
    rw [hs]
    unfold val
    push_cast
    rw [hnq]
    field_simp
  rw [e] at h
  exact h

end F32

/-- The single-precision efficiency of the code lies within the factor `2 ^ -21` of the
exact quotient `est / (|delta| + 2)`, multiplied by 1.2 when the call has waited more than
5 cycles. -/
theorem efficiency_within (est delta wait_time : Int) (hest : 0 ≤ est) :
    F32.Within (1 - 1 / 2 ^ 21) (1 + 1 / 2 ^ 21) (exactEfficiency est delta wait_time)
      (efficiency est delta wait_time).val := by
  have hd : (if delta ≥ 0 then delta else -delta) = |delta| := by
    split_ifs with h
    · exact (abs_of_nonneg h).symm
    · exact (abs_of_neg (by omega)).symm
  have hd0 : (0 : Int) ≤ |delta| := abs_nonneg _
  have hdq : (0 : ℚ) ≤ ((|delta| : Int) : ℚ) := by exact_mod_cast hd0
  have heq : (0 : ℚ) ≤ (est : ℚ) := by exact_mod_cast hest
  -- the numerator
  have ha := F32.ofInt_within est hest
  have han : 0 ≤ (F32.ofInt est).num := F32.round_num_nonneg est 1 hest
  -- the cost
  have hb := F32.ofInt_within |delta| hd0
  have hbn : 0 ≤ (F32.ofInt |delta|).num := F32.round_num_nonneg _ 1 hd0
  have h2v : F32.two.val = 2 := by
    simp [F32.two, F32.val, F32.num, F32.den]
  have hb2 := F32.within_add_const hb 2 (by norm_num) (by norm_num) (by norm_num)
  have hc0 := F32.add_within (F32.ofInt |delta|) F32.two hbn (by decide)
  rw [h2v] at hc0
  have hc := F32.within_trans hc0 hb2 (by norm_num) (by norm_num)
  have hcpos : 0 < (1 - 1 / 2 ^ 24) * (1 - 1 / 2 ^ 24) * (((|delta| : Int) : ℚ) + 2) := by
    have : (0 : ℚ) < (1 - 1 / 2 ^ 24) * (1 - 1 / 2 ^ 24) := by norm_num
    exact mul_pos this (by linarith)
  have hcn : 0 < (F32.add (F32.ofInt |delta|) F32.two).num :=
    (F32.val_pos_iff _).mp (lt_of_lt_of_le hcpos hc.1)
  -- the quotient
  have he0 := F32.div_within (F32.ofInt est) (F32.add (F32.ofInt |delta|) F32.two) han hcn
  have hq := F32.within_div ha hc (mul_nonneg (by norm_num) heq) hcpos
  have he := F32.within_trans he0 hq (by norm_num) (by norm_num)
  have hen : 0 ≤ (F32.div (F32.ofInt est) (F32.add (F32.ofInt |delta|) F32.two)).num :=
    F32.div_num_nonneg _ _ han hcn.le
  have hE0 : (0 : ℚ) ≤ (est : ℚ) / (((|delta| : Int) : ℚ) + 2) := by positivity
  unfold efficiency exactEfficiency
  simp only [hd]
  split_ifs with hw
  · have hk := F32.round_within 6 5 (by norm_num) (by norm_num)
    have hk' : F32.Within (1 - 1 / 2 ^ 24) (1 + 1 / 2 ^ 24) (6 / 5) F32.c1_2.val := by
      simpa [F32.c1_2] using hk
    have hm0 := F32.mul_within _ F32.c1_2 hen (by decide)
    have hp := F32.within_mul he hk' (mul_nonneg (by norm_num) hE0) (by norm_num)
    have hm := F32.within_trans hm0 hp (by norm_num) (by norm_num)
    exact F32.within_mono hm (by positivity) (by norm_num) (by norm_num)
  · rw [mul_one]
    exact F32.within_mono he hE0 (by norm_num) (by norm_num)

theorem floors_sorted : floors.Pairwise (· < ·) := by decide

/-- A loop over ascending indices that replaces `(key, floor)` exactly when a candidate
has a strictly better score ends on the first candidate of best score, or on its initial
value when there is no candidate. -/
theorem scan_foldl {K α : Type} [LinearOrder α] (sc : K → α) (cand : Fin MAX_FLOORS → Prop)
    (key : Fin MAX_FLOORS → K) (step : K × Int → Fin MAX_FLOORS → K × Int) (k0 : K)
    (hstep : ∀ acc i, sc k0 ≤ sc acc.1 →
      (cand i ∧ sc acc.1 < sc (key i) → step acc i = (key i, fl i)) ∧
      (¬(cand i ∧ sc acc.1 < sc (key i)) → step acc i = acc))
    (h0 : ∀ i, cand i → sc k0 < sc (key i)) (L : List (Fin MAX_FLOORS))
    (hL : L.Pairwise (· < ·)) :
    ((∀ i ∈ L, ¬cand i) ∧ L.foldl step (k0, -1) = (k0, -1)) ∨
    (∃ m ∈ L, cand m ∧ L.foldl step (k0, -1) = (key m, fl m) ∧
      ∀ j ∈ L, cand j → sc (key j) < sc (key m) ∨ (sc (key j) = sc (key m) ∧ m ≤ j)) := by
  induction L using List.reverseRecOn with
  | nil => left; simp
  | append_singleton L i ih =>
    rw [List.pairwise_append] at hL
    obtain ⟨hL1, -, hlt⟩ := hL
    rw [List.foldl_append, List.foldl_cons, List.foldl_nil]
    rcases ih hL1 with ⟨hno, hres⟩ | ⟨m, hm, hcm, hres, hbest⟩
    · rw [hres]
      by_cases hc : cand i
      · right
        refine ⟨i, by simp, hc, ?_, ?_⟩
        · exact (hstep (k0, -1) i le_rfl).1 ⟨hc, h0 i hc⟩
        · intro j hj hcj
          rcases List.mem_append.mp hj with hj | hj
          · exact absurd hcj (hno j hj)
          · rw [List.mem_singleton.mp hj]; right; exact ⟨rfl, le_rfl⟩
      · left
        refine ⟨?_, (hstep (k0, -1) i le_rfl).2 (fun h => hc h.1)⟩
        intro j hj
        rcases List.mem_append.mp hj with hj | hj
        · exact hno j hj
        · rw [List.mem_singleton.mp hj]; exact hc
    · rw [hres]
      right
      have hk : sc k0 ≤ sc (key m, fl m).1 := le_of_lt (h0 m hcm)
      by_cases hc : cand i ∧ sc (key m) < sc (key i)
      · refine ⟨i, by simp, hc.1, (hstep _ i hk).1 hc, ?_⟩
        intro j hj hcj
        rcases List.mem_append.mp hj with hj | hj
        · left
          rcases hbest j hj hcj with h | ⟨h, -⟩
          · exact lt_trans h hc.2
          · rw [h]; exact hc.2
        · rw [List.mem_singleton.mp hj]; right; exact ⟨rfl, le_rfl⟩
      · refine ⟨m, by simp [hm], hcm, (hstep _ i hk).2 hc, ?_⟩
        intro j hj hcj
        rcases List.mem_append.mp hj with hj | hj
        · exact hbest j hj hcj
        · rw [List.mem_singleton.mp hj] at hcj ⊢
          have hle : sc (key i) ≤ sc (key m) := not_lt.mp (fun h => hc ⟨hcj, h⟩)
          rcases lt_or_eq_of_le hle with h | h
          · left; exact h
          · right; exact ⟨h, le_of_lt (hlt m hm i (by simp))⟩

/-- The first candidate of best score is unique. -/
theorem best_unique {K α : Type} [LinearOrder α] (sc : K → α) (cand : Fin MAX_FLOORS → Prop)
    (key : Fin MAX_FLOORS → K) (m m' : Fin MAX_FLOORS) (hm : cand m) (hm' : cand m')
    (hb : ∀ j, cand j → sc (key j) < sc (key m) ∨ (sc (key j) = sc (key m) ∧ m ≤ j))
    (hb' : ∀ j, cand j → sc (key j) < sc (key m') ∨ (sc (key j) = sc (key m') ∧ m' ≤ j)) :
    m = m' := by
  rcases hb m' hm' with h | ⟨h, hle⟩
  · rcases hb' m hm with h' | ⟨h', -⟩
    · exact absurd h (lt_asymm h')
    · rw [h'] at h; exact absurd h (lt_irrefl _)
  · rcases hb' m hm with h' | ⟨-, hle'⟩
    · rw [h] at h'; exact absurd h' (lt_irrefl _)
    · exact le_antisymm hle hle'

theorem decide_step_spec (calls : Calls) (e : ElevatorState)
    (hdir : e.direction = 1 ∨ e.direction = -1) (acc : F32 × Int) (i : Fin MAX_FLOORS) :
    (Candidate calls e i ∧ acc.1.val < (callEff calls e i).val →
      decide_step calls e acc i = (callEff calls e i, fl i)) ∧
    (¬(Candidate calls e i ∧ acc.1.val < (callEff calls e i).val) →
      decide_step calls e acc i = acc) := by
  have hblt : F32.blt acc.1 (callEff calls e i) = true ↔ acc.1.val < (callEff calls e i).val := by
    rw [F32.blt_iff, F32.lt_iff_val]
  unfold Candidate Ahead at *
  unfold decide_step
  simp only [callEff] at hblt ⊢
  constructor
  · rintro ⟨⟨ha, hah, hest⟩, hlt⟩
    rw [if_neg (by simp [ha]), if_neg (by omega), if_neg (by omega), if_neg (by omega),
      if_pos (hblt.mpr hlt)]
  · intro hn
    split_ifs with h1 h2 h3 h4 h5 <;> try rfl
    exfalso
    apply hn
    refine ⟨⟨by simpa using h1, by omega, by omega⟩, hblt.mp h5⟩

/-- The loop of `smartstop_decide_next_floor`, for a car going up or down. -/
theorem decide_foldl (calls : Calls) (e : ElevatorState)
    (hdir : e.direction = 1 ∨ e.direction = -1) :
    ((∀ i, ¬Candidate calls e i) ∧
      floors.foldl (decide_step calls e) (F32.negOne, -1) = (F32.negOne, -1)) ∨
    (∃ m, BestCandidate calls e m ∧
      floors.foldl (decide_step calls e) (F32.negOne, -1) = (callEff calls e m, fl m)) := by
  have h := scan_foldl F32.val (Candidate calls e) (callEff calls e) (decide_step calls e)
    F32.negOne (fun acc i _ => decide_step_spec calls e hdir acc i)
    (fun i hi => (F32.lt_iff_val _ _).mp
      (F32.negOne_lt _ (efficiency_num_nonneg _ _ _ (le_of_lt hi.2.2)))) floors floors_sorted
  rcases h with ⟨hno, hres⟩ | ⟨m, -, hcm, hres, hbest⟩
  · left; exact ⟨fun i => hno i (mem_floors i), hres⟩
  · right
    refine ⟨m, ⟨hcm, fun j hj => ?_⟩, hres⟩
    rcases hbest j (mem_floors j) hj with h | ⟨h, hle⟩
    · left; exact (F32.lt_iff_val _ _).mpr h
    · right; exact ⟨(F32.same_iff_val _ _).mpr h, hle⟩

theorem bestCandidate_unique (calls : Calls) (e : ElevatorState) (m m' : Fin MAX_FLOORS)
    (hm : BestCandidate calls e m) (hm' : BestCandidate calls e m') : m = m' := by
  refine best_unique F32.val (Candidate calls e) (callEff calls e) m m' hm.1 hm'.1 ?_ ?_
  · intro j hj
    rcases hm.2 j hj with h | ⟨h, hle⟩
    · left; exact (F32.lt_iff_val _ _).mp h
    · right; exact ⟨(F32.same_iff_val _ _).mp h, hle⟩
  · intro j hj
    rcases hm'.2 j hj with h | ⟨h, hle⟩
    · left; exact (F32.lt_iff_val _ _).mp h
    · right; exact ⟨(F32.same_iff_val _ _).mp h, hle⟩

theorem fl_ne_neg_one (i : Fin MAX_FLOORS) : fl i ≠ -1 := by
  unfold fl; omega

theorem fl_injective {i j : Fin MAX_FLOORS} (h : fl i = fl j) : i = j := by
  unfold fl at h; exact Fin.ext (by omega)

theorem generate_step_inactiveClean (e : ElevatorState) (mode : TrafficMode) (rand : Nat → Nat)
    (st : Calls × Nat) (i : Fin MAX_FLOORS) (h : InactiveClean st.1) :
    InactiveClean (generate_step e mode rand st i).1 := by
  intro j hj
  by_cases hji : j = i
  · subst hji
    simp only [generate_step] at hj ⊢
    split_ifs at hj ⊢ with h1 h2 h3
    · exact h j hj
    · simp at hj
    · exact h j hj
    · simp only [Function.update_same] at hj
      simp [hj] at h2
  · have hsame : (generate_step e mode rand st i).1 j = st.1 j := by
      simp only [generate_step]
      split_ifs <;> simp [Function.update_noteq hji]
    rw [hsame] at hj ⊢
    exact h j hj

/-- The traffic generator keeps the inactive-call invariant, for every random stream. -/
theorem generate_inactiveClean (calls : Calls) (e : ElevatorState) (mode : TrafficMode)
    (rand : Nat → Nat) (pos : Nat) (h : InactiveClean calls) :
    InactiveClean (generate_random_hall_calls calls e mode rand pos).1 := by
  unfold generate_random_hall_calls
  suffices H : ∀ (L : List (Fin MAX_FLOORS)) (st : Calls × Nat), InactiveClean st.1 →
      InactiveClean (L.foldl (generate_step e mode rand) st).1 from H floors (calls, pos) h
  intro L
  induction L with
  | nil => intro st hst; exact hst
  | cons i L ih =>
    intro st hst
    exact ih _ (generate_step_inactiveClean e mode rand st i hst)

/-- The stop handler keeps the inactive-call invariant. -/
theorem handle_stop_inactiveClean (calls : Calls) (e : ElevatorState) (s : Stats)
    (floor : Fin MAX_FLOORS) (h : InactiveClean calls) :
    InactiveClean (smartstop_handle_stop calls e s floor).1 := by
  unfold smartstop_handle_stop
  split_ifs
  · exact h
  · intro j hj
    by_cases hjf : j = floor
    · subst hjf; simp
    · simp only [Function.update_noteq hjf] at hj ⊢
      exact h j hj

theorem find_emergency_step_spec (calls : Calls) (acc : Int × Int) (i : Fin MAX_FLOORS)
    (hacc : (0 : Int) ≤ acc.1) :
    ((Waiting calls i ∧ 0 < (calls i).wait_time) ∧ acc.1 < (calls i).wait_time →
      find_emergency_step calls acc i = ((calls i).wait_time, fl i)) ∧
    (¬((Waiting calls i ∧ 0 < (calls i).wait_time) ∧ acc.1 < (calls i).wait_time) →
      find_emergency_step calls acc i = acc) := by
  unfold Waiting find_emergency_step
  constructor
  · rintro ⟨⟨⟨ha, he⟩, -⟩, hlt⟩
    rw [if_pos ⟨ha, he, hlt⟩]
  · intro hn
    rw [if_neg]
    rintro ⟨ha, he, hlt⟩
    exact hn ⟨⟨⟨ha, he⟩, by omega⟩, hlt⟩

/-- The loop of `find_emergency_call`. -/
theorem find_emergency_foldl (calls : Calls) :
    ((∀ i, ¬(Waiting calls i ∧ 0 < (calls i).wait_time)) ∧
      floors.foldl (find_emergency_step calls) (0, -1) = (0, -1)) ∨
    (∃ m, (Waiting calls m ∧ 0 < (calls m).wait_time) ∧
      floors.foldl (find_emergency_step calls) (0, -1) = ((calls m).wait_time, fl m) ∧
      ∀ j, Waiting calls j ∧ 0 < (calls j).wait_time →
        (calls j).wait_time < (calls m).wait_time ∨
          ((calls j).wait_time = (calls m).wait_time ∧ m ≤ j)) := by
  have h := scan_foldl (fun x : Int => x) (fun i => Waiting calls i ∧ 0 < (calls i).wait_time)
    (fun i => (calls i).wait_time) (find_emergency_step calls) 0
    (fun acc i hacc => find_emergency_step_spec calls acc i hacc)
    (fun i hi => hi.2) floors floors_sorted
  rcases h with ⟨hno, hres⟩ | ⟨m, -, hcm, hres, hbest⟩
  · left; exact ⟨fun i => hno i (mem_floors i), hres⟩
  · right; exact ⟨m, hcm, hres, fun j hj => hbest j (mem_floors j) hj⟩

/-- When the longest-waiting call has reached the emergency threshold,
`find_emergency_call` returns its floor. -/
theorem find_emergency_call_of_longest (calls : Calls) (f : Fin MAX_FLOORS)
    (hf : LongestWaiting calls f) (hw : (calls f).wait_time ≥ EMERGENCY_WAIT_TIME) :
    find_emergency_call calls = fl f := by
  have hpos : 0 < (calls f).wait_time := by simp only [EMERGENCY_WAIT_TIME] at hw; omega
  unfold find_emergency_call
  rcases find_emergency_foldl calls with ⟨hno, -⟩ | ⟨m, hm, hres, hbest⟩
  · exact absurd ⟨hf.1, hpos⟩ (hno f)
  · have hmf : m = f :=
      best_unique (fun x : Int => x) (fun i => Waiting calls i ∧ 0 < (calls i).wait_time)
        (fun i => (calls i).wait_time) m f hm ⟨hf.1, hpos⟩ hbest (fun j hj => hf.2 j hj.1)
    subst hmf
    rw [hres]
    simp only [hw, if_true]

/-- When no waiting call has reached the emergency threshold, `find_emergency_call`
returns `-1`. -/
theorem find_emergency_call_none (calls : Calls)
    (h : ∀ i, Waiting calls i → (calls i).wait_time < EMERGENCY_WAIT_TIME) :
    find_emergency_call calls = -1 := by
  unfold find_emergency_call
  rcases find_emergency_foldl calls with ⟨-, hres⟩ | ⟨m, hm, hres, -⟩
  · rw [hres]; simp
  · rw [hres]
    have := h m hm.1
    simp only [ge_iff_le, ite_eq_right_iff]
    intro hle
    omega

/-- Counting with a predicate that differs from another one at a single entry. -/
theorem countP_split (p q : Fin MAX_FLOORS → Bool) (g : Fin MAX_FLOORS) (hq : q g = false) :
    ∀ L : List (Fin MAX_FLOORS), L.Nodup → (∀ i ∈ L, i ≠ g → p i = q i) →
      L.countP p = (if g ∈ L ∧ p g = true then 1 else 0) + L.countP q
  | [], _, _ => by simp
  | a :: L, hnd, hpq => by
    have hnd' := List.nodup_cons.mp hnd
    have ih := countP_split p q g hq L hnd'.2 (fun i hi => hpq i (List.mem_cons_of_mem a hi))
    rw [List.countP_cons, List.countP_cons, ih]
    by_cases hag : a = g
    · subst hag
      have hnot : a ∉ L := hnd'.1
      cases hp : p a
      · simp [hnot, hq, hp]
      · simp [hnot, hq, hp]; omega
    · have hpa : p a = q a := hpq a (List.mem_cons_self a L) hag
      have hmem : g ∈ a :: L ↔ g ∈ L := by
        simp [List.mem_cons, Ne.symm hag]
      simp only [hmem, hpa]
      omega

theorem floorIdx_of_range (g : Int) (h0 : 0 ≤ g) (h1 : g < (MAX_FLOORS : Int)) :
    ∃ i, floorIdx g = some i ∧ fl i = g := by
  refine ⟨⟨g.toNat, by omega⟩, ?_, ?_⟩
  · unfold floorIdx; rw [dif_pos ⟨h0, h1⟩]
  · unfold fl; simp only []; omega

/-- The path loop going up from floor `g` to `ef`. -/
theorem count_path_up (calls : Calls) (ef : Int) (hef : ef < (MAX_FLOORS : Int)) :
    ∀ (d fuel : Nat) (g n : Int), d ≤ fuel → 0 ≤ g → g + d = ef →
      count_calls_in_path calls ef 1 fuel g n
        = .ok (n + (floors.countP fun i =>
            decide (Waiting calls i ∧ g ≤ fl i ∧ fl i < ef) : Nat))
  | 0, fuel, g, n, _, _, hg => by
    have hge : g = ef := by omega
    have hz : (floors.countP fun i => decide (Waiting calls i ∧ g ≤ fl i ∧ fl i < ef)) = 0 := by
      rw [List.countP_eq_zero]
      intro i _
      simp only [decide_eq_true_eq]
      omega
    rw [hz]
    cases fuel <;> simp [count_calls_in_path, hge]
  | d + 1, 0, _, _, hfuel, _, _ => by omega
  | d + 1, fuel + 1, g, n, hfuel, h0, hg => by
    have hne : g ≠ ef := by omega
    obtain ⟨gi, hgi, hfl⟩ := floorIdx_of_range g h0 (by omega)
    have ih := count_path_up calls ef hef d fuel (g + 1)
      (if (calls gi).active ∧ (calls gi).est_passengers > 0 then n + 1 else n)
      (by omega) (by omega) (by omega)
    rw [count_calls_in_path, if_neg hne, hgi]
    simp only []
    rw [ih]
    have hsplit := countP_split
      (fun i => decide (Waiting calls i ∧ g ≤ fl i ∧ fl i < ef))
      (fun i => decide (Waiting calls i ∧ g + 1 ≤ fl i ∧ fl i < ef)) gi
      (by simp only [decide_eq_false_iff_not]; omega) floors floors_nodup
      (by
        intro i _ hi
        have : fl i ≠ g := fun h => hi (fl_injective (h.trans hfl.symm))
        have hiff : (g ≤ fl i ∧ fl i < ef) ↔ (g + 1 ≤ fl i ∧ fl i < ef) := by omega
        simp only [hiff])
    rw [hsplit]
    have hin : g ≤ fl gi ∧ fl gi < ef := by omega
    by_cases hw : (calls gi).active ∧ (calls gi).est_passengers > 0
    · have hW : Waiting calls gi := hw
      simp only [mem_floors, hW, hin, hw, and_self, decide_True, if_true]
      push_cast
      congr 1
      omega
    · have hW : ¬Waiting calls gi := hw
      simp only [mem_floors, hW, hw, false_and, decide_False, and_false, if_false,
        Bool.false_eq_true, zero_add]

/-- The path loop going down from floor `g` to `ef`. -/
theorem count_path_down (calls : Calls) (ef : Int) (hef : 0 ≤ ef) :
    ∀ (d fuel : Nat) (g n : Int), d ≤ fuel → g < (MAX_FLOORS : Int) → g - d = ef →
      count_calls_in_path calls ef (-1) fuel g n
        = .ok (n + (floors.countP fun i =>
            decide (Waiting calls i ∧ ef < fl i ∧ fl i ≤ g) : Nat))
  | 0, fuel, g, n, _, _, hg => by
    have hge : g = ef := by omega
    have hz : (floors.countP fun i => decide (Waiting calls i ∧ ef < fl i ∧ fl i ≤ g)) = 0 := by
      rw [List.countP_eq_zero]
      intro i _
      simp only [decide_eq_true_eq]
      omega
    rw [hz]
    cases fuel <;> simp [count_calls_in_path, hge]
  | d + 1, 0, _, _, hfuel, _, _ => by omega
  | d + 1, fuel + 1, g, n, hfuel, h9, hg => by
    have hne : g ≠ ef := by omega
    obtain ⟨gi, hgi, hfl⟩ := floorIdx_of_range g (by omega) h9
    have ih := count_path_down calls ef hef d fuel (g + -1)
      (if (calls gi).active ∧ (calls gi).est_passengers > 0 then n + 1 else n)
      (by omega) (by omega) (by omega)
    rw [count_calls_in_path, if_neg hne, hgi]
    simp only []
    rw [ih]
    have hsplit := countP_split
      (fun i => decide (Waiting calls i ∧ ef < fl i ∧ fl i ≤ g))
      (fun i => decide (Waiting calls i ∧ ef < fl i ∧ fl i ≤ g + -1)) gi
      (by simp only [decide_eq_false_iff_not]; omega) floors floors_nodup
      (by
        intro i _ hi
        have : fl i ≠ g := fun h => hi (fl_injective (h.trans hfl.symm))
        have hiff : (ef < fl i ∧ fl i ≤ g) ↔ (ef < fl i ∧ fl i ≤ g + -1) := by omega
        simp only [hiff])
    rw [hsplit]
    have hin : ef < fl gi ∧ fl gi ≤ g := by omega
    by_cases hw : (calls gi).active ∧ (calls gi).est_passengers > 0
    · have hW : Waiting calls gi := hw
      simp only [mem_floors, hW, hin, hw, and_self, decide_True, if_true]
      push_cast
      congr 1
      omega
    · have hW : ¬Waiting calls gi := hw
      simp only [mem_floors, hW, hw, false_and, decide_False, and_false, if_false,
        Bool.false_eq_true, zero_add]

/-- With the car inside the building and at least `MAX_FLOORS` units of fuel, the path loop
of the emergency block ends and counts the waiting calls from the current floor
(included) to the emergency floor (excluded). -/
theorem count_calls_in_path_eq (calls : Calls) (current_floor : Int) (f : Fin MAX_FLOORS)
    (fuel : Nat) (hfuel : MAX_FLOORS ≤ fuel) (h0 : 0 ≤ current_floor)
    (h9 : current_floor < (MAX_FLOORS : Int)) :
    count_calls_in_path calls (fl f) (if fl f > current_floor then 1 else -1) fuel
      current_floor 0 = .ok ((pathCount calls current_floor (fl f) : Nat) : Int) := by
  have hf : 0 ≤ fl f ∧ fl f < (MAX_FLOORS : Int) := by unfold fl; omega
  unfold pathCount
  by_cases hup : fl f > current_floor
  · rw [if_pos hup, count_path_up calls (fl f) hf.2 (fl f - current_floor).toNat fuel
      current_floor 0 (by omega) h0 (by omega), zero_add]
    congr 2
    apply List.countP_congr
    intro i _
    simp only [decide_eq_true_eq]
    constructor
    · rintro ⟨hw, h⟩; exact ⟨hw, Or.inl h⟩
    · rintro ⟨hw, h | h⟩
      · exact ⟨hw, h⟩
      · omega
  · rw [if_neg hup, count_path_down calls (fl f) hf.1 (current_floor - fl f).toNat fuel
      current_floor 0 (by omega) h9 (by omega), zero_add]
    congr 2
    apply List.countP_congr
    intro i _
    simp only [decide_eq_true_eq]
    constructor
    · rintro ⟨hw, h⟩; exact ⟨hw, Or.inr h⟩
    · rintro ⟨hw, h | h⟩
      · omega
      · exact ⟨hw, h⟩

/-- The emergency block returns the emergency floor at once. -/
theorem emergency_return (fuel : Nat) (w : World) (f : Fin MAX_FLOORS)
    (hfuel : MAX_FLOORS ≤ fuel) (h0 : 0 ≤ w.elevator.current_floor)
    (h9 : w.elevator.current_floor < (MAX_FLOORS : Int))
    (hf : LongestWaiting w.calls f) (hw : (w.calls f).wait_time ≥ EMERGENCY_WAIT_TIME)
    (hq : pathCount w.calls w.elevator.current_floor (fl f) < 2 ∨ w.elevator.occupancy < 2) :
    choose_next_floor_realistic fuel w = .ok (fl f, w) := by
  unfold choose_next_floor_realistic
  simp only [find_emergency_call_of_longest w.calls f hf hw, ne_eq, fl_ne_neg_one,
    not_false_eq_true, if_true,
    count_calls_in_path_eq w.calls w.elevator.current_floor f fuel hfuel h0 h9]
  rw [if_pos]
  rcases hq with h | h
  · left; exact_mod_cast h
  · right; exact h

/-- The emergency block defers the emergency and the other priorities decide. -/
theorem emergency_deferred (fuel : Nat) (w : World) (f : Fin MAX_FLOORS)
    (hfuel : MAX_FLOORS ≤ fuel) (h0 : 0 ≤ w.elevator.current_floor)
    (h9 : w.elevator.current_floor < (MAX_FLOORS : Int))
    (hf : LongestWaiting w.calls f) (hw : (w.calls f).wait_time ≥ EMERGENCY_WAIT_TIME)
    (hp : 2 ≤ pathCount w.calls w.elevator.current_floor (fl f))
    (ho : 2 ≤ w.elevator.occupancy) :
    choose_next_floor_realistic fuel w = .ok (choose_after_emergency w) := by
  unfold choose_next_floor_realistic
  simp only [find_emergency_call_of_longest w.calls f hf hw, ne_eq, fl_ne_neg_one,
    not_false_eq_true, if_true,
    count_calls_in_path_eq w.calls w.elevator.current_floor f fuel hfuel h0 h9]
  rw [if_neg]
  rintro (h | h)
  · have : (pathCount w.calls w.elevator.current_floor (fl f) : Int) < 2 := h
    omega
  · omega

/-- Without a call at the emergency threshold the other priorities decide. -/
theorem no_emergency (fuel : Nat) (w : World)
    (h : ∀ i, Waiting w.calls i → (w.calls i).wait_time < EMERGENCY_WAIT_TIME) :
    choose_next_floor_realistic fuel w = .ok (choose_after_emergency w) := by
  unfold choose_next_floor_realistic
  simp only [find_emergency_call_none w.calls h, ne_eq, not_true_eq_false, if_false]

theorem emergency_silent (fuel : Nat) (w : World) (hfuel : MAX_FLOORS ≤ fuel)
    (h0 : 0 ≤ w.elevator.current_floor) (h9 : w.elevator.current_floor < (MAX_FLOORS : Int))
    (h : EmergencySilent w) :
    choose_next_floor_realistic fuel w = .ok (choose_after_emergency w) := by
  rcases h with h | ⟨f, hf, hw, hp, ho⟩
  · exact no_emergency fuel w h
  · exact emergency_deferred fuel w f hfuel h0 h9 hf hw hp ho

theorem dist_lt_999 (current_floor : Int) (i : Fin MAX_FLOORS) (h0 : 0 ≤ current_floor)
    (h9 : current_floor < (MAX_FLOORS : Int)) : dist current_floor i < 999 := by
  have hi : (i : Nat) < 10 := i.isLt
  have h9 : current_floor < 10 := h9
  unfold dist fl
  simp only []
  split <;> omega

theorem button_step_spec (w : World) (acc : Int × Int) (i : Fin MAX_FLOORS) :
    (Flagged w i ∧ -acc.1 < -dist w.elevator.current_floor i →
      button_step w acc i = (dist w.elevator.current_floor i, fl i)) ∧
    (¬(Flagged w i ∧ -acc.1 < -dist w.elevator.current_floor i) →
      button_step w acc i = acc) := by
  unfold Flagged button_step
  constructor
  · rintro ⟨hfl, hlt⟩
    have hb : (w.internal_from_button i || w.external_from_button i) = true := by
      simpa [Bool.or_eq_true] using hfl
    rw [if_neg (by simp [hb]), if_pos (by omega)]
  · intro hn
    split_ifs with h1 h2
    · rfl
    · exfalso; apply hn
      refine ⟨?_, by omega⟩
      cases ha : w.internal_from_button i <;> cases hb : w.external_from_button i <;>
        simp_all
    · rfl

/-- The button loop (priority 1), for a car inside the building. -/
theorem button_foldl (w : World) (h0 : 0 ≤ w.elevator.current_floor)
    (h9 : w.elevator.current_floor < (MAX_FLOORS : Int)) :
    ((∀ i, ¬Flagged w i) ∧ floors.foldl (button_step w) (999, -1) = (999, -1)) ∨
    (∃ m, ClosestFlagged w m ∧
      floors.foldl (button_step w) (999, -1) = (dist w.elevator.current_floor m, fl m)) := by
  have h := scan_foldl (fun x : Int => -x) (Flagged w)
    (fun i => dist w.elevator.current_floor i) (button_step w) 999
    (fun acc i _ => button_step_spec w acc i)
    (fun i _ => by
      have := dist_lt_999 w.elevator.current_floor i h0 h9
      simp only []; omega) floors floors_sorted
  rcases h with ⟨hno, hres⟩ | ⟨m, -, hcm, hres, hbest⟩
  · left; exact ⟨fun i => hno i (mem_floors i), hres⟩
  · right
    refine ⟨m, ⟨hcm, fun j hj => ?_⟩, hres⟩
    rcases hbest j (mem_floors j) hj with h | ⟨h, hle⟩
    · left; simp only [] at h; omega
    · right; simp only [] at h; exact ⟨by omega, hle⟩

theorem call_waiting_fl (calls : Calls) (i : Fin MAX_FLOORS) :
    call_waiting calls (fl i) = decide (Waiting calls i) := by
  obtain ⟨j, hj, hfl⟩ := floorIdx_of_range (fl i) (by unfold fl; omega) (by unfold fl; omega)
  have hji : j = i := fl_injective hfl
  subst hji
  unfold call_waiting Waiting
  rw [hj]
  simp only []
  by_cases ha : (calls j).active = true <;> by_cases he : (calls j).est_passengers > 0 <;>
    simp [ha, he]

/-- A loop over ascending floors that keeps the closest floor satisfying `P`. -/
theorem dist_scan_foldl (P : Fin MAX_FLOORS → Prop) (current_floor : Int)
    (step : Int × Int → Fin MAX_FLOORS → Int × Int)
    (hstep : ∀ acc i,
      (P i ∧ dist current_floor i < acc.1 → step acc i = (dist current_floor i, fl i)) ∧
      (¬(P i ∧ dist current_floor i < acc.1) → step acc i = acc))
    (h0 : 0 ≤ current_floor) (h9 : current_floor < (MAX_FLOORS : Int)) :
    ((∀ i, ¬P i) ∧ floors.foldl step (999, -1) = (999, -1)) ∨
    (∃ m, Closest P current_floor m ∧
      floors.foldl step (999, -1) = (dist current_floor m, fl m)) := by
  have h := scan_foldl (fun x : Int => -x) P (fun i => dist current_floor i) step 999
    (fun acc i _ => by
      have := hstep acc i
      simp only [neg_lt_neg_iff]
      exact this)
    (fun i _ => by
      have := dist_lt_999 current_floor i h0 h9
      simp only []; omega) floors floors_sorted
  rcases h with ⟨hno, hres⟩ | ⟨m, -, hcm, hres, hbest⟩
  · left; exact ⟨fun i => hno i (mem_floors i), hres⟩
  · right
    refine ⟨m, ⟨hcm, fun j hj => ?_⟩, hres⟩
    rcases hbest j (mem_floors j) hj with h | ⟨h, hle⟩
    · left; simp only [] at h; omega
    · right; simp only [] at h; exact ⟨by omega, hle⟩

theorem closest_unique (P : Fin MAX_FLOORS → Prop) (current_floor : Int)
    (m m' : Fin MAX_FLOORS) (hm : Closest P current_floor m)
    (hm' : Closest P current_floor m') : m = m' := by
  refine best_unique (fun x : Int => -x) P (fun i => dist current_floor i) m m' hm.1 hm'.1
    ?_ ?_
  · intro j hj
    rcases hm.2 j hj with h | ⟨h, hle⟩
    · left; simp only []; omega
    · right; exact ⟨by simp only []; omega, hle⟩
  · intro j hj
    rcases hm'.2 j hj with h | ⟨h, hle⟩
    · left; simp only []; omega
    · right; exact ⟨by simp only []; omega, hle⟩

theorem button_foldl_noFlag (w : World) (h0 : 0 ≤ w.elevator.current_floor)
    (h9 : w.elevator.current_floor < (MAX_FLOORS : Int)) (h : NoFlag w) :
    floors.foldl (button_step w) (999, -1) = (999, -1) := by
  rcases button_foldl w h0 h9 with ⟨-, hres⟩ | ⟨m, hm, -⟩
  · exact hres
  · exact absurd hm.1 (h m)

theorem any_internal_call_eq_false (internal_calls : Flags)
    (h : ∀ i, internal_calls i = false) : any_internal_call internal_calls = false := by
  unfold any_internal_call
  rw [List.any_eq_false]
  intro i _
  simp [h i]

theorem any_internal_call_eq_true (internal_calls : Flags) (i : Fin MAX_FLOORS)
    (h : internal_calls i = true) : any_internal_call internal_calls = true := by
  unfold any_internal_call
  rw [List.any_eq_true]
  exact ⟨i, mem_floors i, h⟩

theorem internal_choice_none (w : World) (h : NoInternal w) : internal_choice w = -1 := by
  unfold internal_choice
  rw [any_internal_call_eq_false w.internal_calls h]
  simp

/-- With no manual flag and no internal destination, the ladder goes on to the
forced-disembark rule. -/
theorem choose_after_emergency_plain (w : World) (h0 : 0 ≤ w.elevator.current_floor)
    (h9 : w.elevator.current_floor < (MAX_FLOORS : Int)) (hflag : NoFlag w)
    (hint : NoInternal w) :
    choose_after_emergency w
      = if ForcedFires w then
          (w.elevator.current_floor + w.elevator.direction,
            { w with cycles_at_full_capacity := 0 })
        else choose_from_proximity w := by
  unfold choose_after_emergency ForcedFires choose_from_proximity
  simp only [button_foldl_noFlag w h0 h9 hflag, internal_choice_none w hint, ne_eq,
    not_true_eq_false, if_false]

theorem call_waiting_iff (calls : Calls) (f : Int) :
    call_waiting calls f = true ↔ WaitingAt calls f := by
  unfold WaitingAt
  constructor
  · intro h
    unfold call_waiting at h
    cases hidx : floorIdx f with
    | none => rw [hidx] at h; simp at h
    | some i =>
      have hfl : fl i = f := by
        unfold floorIdx at hidx
        split at hidx
        · cases hidx; unfold fl; simp only []; omega
        · exact absurd hidx (by simp)
      refine ⟨i, hfl, ?_⟩
      have := call_waiting_fl calls i
      rw [hfl] at this
      unfold call_waiting at this
      rw [hidx] at this h
      simp only [] at this h
      rw [this] at h
      exact of_decide_eq_true h
  · rintro ⟨i, rfl, hw⟩
    rw [call_waiting_fl]
    exact decide_eq_true hw

theorem call_waiting_eq_false (calls : Calls) (f : Int) (h : ¬WaitingAt calls f) :
    call_waiting calls f = false := by
  rw [Bool.eq_false_iff]
  exact fun hc => h ((call_waiting_iff calls f).mp hc)

theorem smartstop_decide_calls (calls : Calls) (e : ElevatorState) (s : Stats) (thr : F32) :
    (smartstop_decide_next_floor calls e s thr).2.1 = calls := by
  simp only [smartstop_decide_next_floor]
  split_ifs <;> rfl

theorem smartstop_decide_elevator (calls : Calls) (e : ElevatorState) (s : Stats)
    (thr : F32) : (smartstop_decide_next_floor calls e s thr).2.2.1 = e := by
  simp only [smartstop_decide_next_floor]
  split_ifs <;> rfl

/-- The proximity loop returns the first of the offsets 0, 1, 2 at which a call waits. -/
theorem proximity_choice_first (calls : Calls) (e : ElevatorState) (k : Int)
    (hk0 : 0 ≤ k) (hk2 : k ≤ 2)
    (hwait : WaitingAt calls (e.current_floor + k * e.direction))
    (hfirst : ∀ j : Int, 0 ≤ j → j < k →
      ¬WaitingAt calls (e.current_floor + j * e.direction)) :
    proximity_choice calls e = some (e.current_floor + k * e.direction) := by
  have hk : k = 0 ∨ k = 1 ∨ k = 2 := by omega
  rcases hk with rfl | rfl | rfl
  · have h0 := (call_waiting_iff calls _).mpr hwait
    simp only [proximity_choice, List.findSome?, h0, if_true]
  · have h0 := call_waiting_eq_false calls _ (hfirst 0 (by decide) (by decide))
    have h1 := (call_waiting_iff calls _).mpr hwait
    simp only [proximity_choice, List.findSome?, h0, h1, if_true, Bool.false_eq_true,
      if_false]
  · have h0 := call_waiting_eq_false calls _ (hfirst 0 (by decide) (by decide))
    have h1 := call_waiting_eq_false calls _ (hfirst 1 (by decide) (by decide))
    have h2 := (call_waiting_iff calls _).mpr hwait
    simp only [proximity_choice, List.findSome?, h0, h1, h2, if_true, Bool.false_eq_true,
      if_false]

/-- The proximity loop returns nothing when no call waits at the offsets 0, 1, 2. -/
theorem proximity_choice_none (calls : Calls) (e : ElevatorState)
    (h : ∀ j : Int, 0 ≤ j → j ≤ 2 → ¬WaitingAt calls (e.current_floor + j * e.direction)) :
    proximity_choice calls e = none := by
  have h0 := call_waiting_eq_false calls _ (h 0 (by decide) (by decide))
  have h1 := call_waiting_eq_false calls _ (h 1 (by decide) (by decide))
  have h2 := call_waiting_eq_false calls _ (h 2 (by decide) (by decide))
  simp only [proximity_choice, List.findSome?, h0, h1, h2, Bool.false_eq_true, if_false]

theorem fallback_step_spec (w : World) (acc : Int × Int) (i : Fin MAX_FLOORS) :
    (Waiting w.calls i ∧ dist w.elevator.current_floor i < acc.1 →
      fallback_step w acc i = (dist w.elevator.current_floor i, fl i)) ∧
    (¬(Waiting w.calls i ∧ dist w.elevator.current_floor i < acc.1) →
      fallback_step w acc i = acc) := by
  unfold Waiting fallback_step
  constructor
  · rintro ⟨hw, hlt⟩
    rw [if_pos hw, if_pos hlt]
  · intro hn
    split_ifs with h1 h2
    · exact absurd ⟨h1, h2⟩ hn
    · rfl
    · rfl

/-- The empty-car fallback, once priorities 5 and 6 have returned nothing. -/
theorem choose_after_proximity_empty (w : World) (hocc : w.elevator.occupancy = 0)
    (hsm : (smartstop_decide_next_floor w.calls w.elevator w.stats F32.c0_65).1 = -1) :
    (choose_after_proximity w).1 = (floors.foldl (fallback_step w) (999, -1)).2 := by
  have hc := smartstop_decide_calls w.calls w.elevator w.stats F32.c0_65
  have he := smartstop_decide_elevator w.calls w.elevator w.stats F32.c0_65
  have hstep : ∀ s : Stats, fallback_step { w with stats := s } = fallback_step w := by
    intro s; rfl
  simp only [choose_after_proximity, hocc, hsm, hc, he, ELEVATOR_CAP]
  simp [hocc, hstep]

theorem internal_dir_step_spec (w : World)
    (hdir : w.elevator.direction = 1 ∨ w.elevator.direction = -1) (acc : Int × Int)
    (i : Fin MAX_FLOORS) :
    ((w.internal_calls i = true ∧ InDirection w.elevator i) ∧
        dist w.elevator.current_floor i < acc.1 →
      internal_dir_step w acc i = (dist w.elevator.current_floor i, fl i)) ∧
    (¬((w.internal_calls i = true ∧ InDirection w.elevator i) ∧
        dist w.elevator.current_floor i < acc.1) →
      internal_dir_step w acc i = acc) := by
  unfold InDirection internal_dir_step
  simp only []
  constructor
  · rintro ⟨⟨hi, hd⟩, hlt⟩
    rw [if_neg (by simp [hi]), if_neg (by omega), if_pos hlt]
  · intro hn
    split_ifs with h1 h2 h3
    · rfl
    · rfl
    · exfalso
      apply hn
      refine ⟨⟨by simpa using h1, by omega⟩, h3⟩
    · rfl

theorem internal_any_step_spec (w : World) (acc : Int × Int) (i : Fin MAX_FLOORS) :
    (w.internal_calls i = true ∧ dist w.elevator.current_floor i < acc.1 →
      internal_any_step w acc i = (dist w.elevator.current_floor i, fl i)) ∧
    (¬(w.internal_calls i = true ∧ dist w.elevator.current_floor i < acc.1) →
      internal_any_step w acc i = acc) := by
  unfold internal_any_step
  constructor
  · rintro ⟨hi, hlt⟩
    rw [if_neg (by simp [hi]), if_pos hlt]
  · intro hn
    split_ifs with h1 h2
    · rfl
    · exfalso
      apply hn
      exact ⟨by simpa using h1, h2⟩
    · rfl

theorem generate_step_same (e : ElevatorState) (mode : TrafficMode) (rand : Nat → Nat)
    (st : Calls × Nat) (i : Fin MAX_FLOORS) :
    (generate_step e mode rand st i).1 i = generate_entry e mode rand (st.1 i) st.2 i := by
  simp only [generate_step, generate_entry]
  split_ifs <;> simp

theorem generate_step_other (e : ElevatorState) (mode : TrafficMode) (rand : Nat → Nat)
    (st : Calls × Nat) (i j : Fin MAX_FLOORS) (hji : j ≠ i) :
    (generate_step e mode rand st i).1 j = st.1 j := by
  simp only [generate_step]
  split_ifs <;> simp [Function.update_noteq hji]

/-- Each floor is rewritten once by the generator loop, from its own old record. -/
theorem generate_foldl_apply (e : ElevatorState) (mode : TrafficMode) (rand : Nat → Nat) :
    ∀ (L : List (Fin MAX_FLOORS)), L.Nodup → ∀ (st : Calls × Nat) (j : Fin MAX_FLOORS),
      (j ∉ L → (L.foldl (generate_step e mode rand) st).1 j = st.1 j) ∧
      (j ∈ L → ∃ pos,
        (L.foldl (generate_step e mode rand) st).1 j
          = generate_entry e mode rand (st.1 j) pos j)
  | [], _, st, j => by simp
  | i :: L, hnd, st, j => by
    have hnd' := List.nodup_cons.mp hnd
    have ih := generate_foldl_apply e mode rand L hnd'.2 (generate_step e mode rand st i) j
    rw [List.foldl_cons]
    constructor
    · intro hj
      have hji : j ≠ i := fun h => hj (h ▸ List.mem_cons_self i L)
      have hjL : j ∉ L := fun h => hj (List.mem_cons_of_mem i h)
      rw [ih.1 hjL, generate_step_other e mode rand st i j hji]
    · intro hj
      by_cases hji : j = i
      · subst hji
        rw [ih.1 hnd'.1, generate_step_same]
        exact ⟨st.2, rfl⟩
      · have hjL : j ∈ L := by
          rcases List.mem_cons.mp hj with h | h
          · exact absurd h hji
          · exact h
        obtain ⟨pos, hpos⟩ := ih.2 hjL
        rw [generate_step_other e mode rand st i j hji] at hpos
        exact ⟨pos, hpos⟩

theorem estimate_passengers_range (mode : TrafficMode) (r : Nat) :
    0 ≤ estimate_passengers mode r ∧ estimate_passengers mode r ≤ modeMax mode := by
  cases mode <;> simp only [estimate_passengers, modeMax] <;> omega

theorem pass_step_eq (calls : Calls) (current_floor target_floor : Int) (s : Stats)
    (f : Fin MAX_FLOORS) :
    pass_step calls current_floor target_floor s f
      = { s with skipped_stops := s.skipped_stops +
            (if Waiting calls f ∧ fl f = current_floor ∧ fl f ≠ target_floor then 1 else 0) } := by
  unfold pass_step Waiting
  by_cases h : (calls f).active = true ∧ (calls f).est_passengers > 0 ∧
      fl f = current_floor ∧ fl f ≠ target_floor
  · rw [if_pos h, if_pos ⟨⟨h.1, h.2.1⟩, h.2.2⟩]
  · rw [if_neg h, if_neg (fun hc => h ⟨hc.1.1, hc.1.2, hc.2⟩)]
    simp

theorem pass_foldl_count (calls : Calls) (current_floor target_floor : Int) :
    ∀ (L : List (Fin MAX_FLOORS)) (s : Stats),
      L.foldl (pass_step calls current_floor target_floor) s
        = { s with skipped_stops := s.skipped_stops +
              ((L.countP fun f => decide (Waiting calls f ∧ fl f = current_floor ∧
                fl f ≠ target_floor) : Nat) : Int) }
  | [], s => by simp
  | f :: L, s => by
    rw [List.foldl_cons, pass_foldl_count calls current_floor target_floor L, List.countP_cons,
      pass_step_eq]
    by_cases h : Waiting calls f ∧ fl f = current_floor ∧ fl f ≠ target_floor
    · rw [if_pos h, decide_eq_true h, if_pos rfl]
      simp only []
      push_cast
      congr 1
      omega
    · rw [if_neg h, decide_eq_false h, if_neg (by decide)]
      simp

/-- The inner loop of the movement loop adds one skipped stop exactly when the floor just
reached holds a waiting call and is not the target. -/
theorem pass_foldl (calls : Calls) (g : Fin MAX_FLOORS) (target_floor : Int) (s : Stats) :
    floors.foldl (pass_step calls (fl g) target_floor) s
      = { s with skipped_stops := s.skipped_stops +
            (if Waiting calls g ∧ fl g ≠ target_floor then 1 else 0) } := by
  rw [pass_foldl_count]
  have hsplit := countP_split
    (fun f => decide (Waiting calls f ∧ fl f = fl g ∧ fl f ≠ target_floor))
    (fun _ => false) g rfl floors floors_nodup
    (by
      intro i _ hi
      have : fl i ≠ fl g := fun h => hi (fl_injective h)
      simp [this])
  rw [hsplit]
  have hz : (floors.countP fun _ => false) = 0 := by
    rw [List.countP_eq_zero]; intro a _; simp
  rw [hz]
  by_cases h : Waiting calls g ∧ fl g ≠ target_floor
  · simp [mem_floors, h]
  · have hn : ¬(g ∈ floors ∧
        decide (Waiting calls g ∧ fl g = fl g ∧ fl g ≠ target_floor) = true) := by
      rintro ⟨-, hc⟩
      have hc' := of_decide_eq_true hc
      exact h ⟨hc'.1, hc'.2.2⟩
    rw [if_neg hn, if_neg h]
    simp

theorem waitingAt_fl (calls : Calls) (g : Fin MAX_FLOORS) :
    WaitingAt calls (fl g) ↔ Waiting calls g := by
  constructor
  · rintro ⟨i, hi, hw⟩
    rw [← fl_injective hi]; exact hw
  · intro h; exact ⟨g, rfl, h⟩

/-- One iteration of the movement loop going up from a floor below the target. -/
theorem move_body_up (calls : Calls) (target_floor : Int) (st : ElevatorState × Stats)
    (hdir : st.1.direction = 1) (h0 : 0 ≤ st.1.current_floor)
    (hlt : st.1.current_floor < target_floor) (ht9 : target_floor < (MAX_FLOORS : Int)) :
    (move_body calls target_floor st).1.current_floor = st.1.current_floor + 1 ∧
    (move_body calls target_floor st).1.occupancy = st.1.occupancy ∧
    (st.1.current_floor + 1 < target_floor →
      (move_body calls target_floor st).1.direction = 1) ∧
    (st.1.current_floor + 1 = target_floor →
      (move_body calls target_floor st).1.direction = if target_floor ≥ 9 then -1 else 1) ∧
    (move_body calls target_floor st).2.skipped_stops
      = st.2.skipped_stops +
          (if WaitingAt calls (st.1.current_floor + 1) ∧
              st.1.current_floor + 1 ≠ target_floor then 1 else 0) := by
  have ht9' : target_floor < 10 := ht9
  obtain ⟨g, -, hg⟩ := floorIdx_of_range (st.1.current_floor + 1) (by omega)
    (show st.1.current_floor + 1 < (MAX_FLOORS : Int) by
      show st.1.current_floor + 1 < 10; omega)
  have hpass := pass_foldl calls g target_floor st.2
  rw [hg] at hpass
  have hw : WaitingAt calls (st.1.current_floor + 1) ↔ Waiting calls g := by
    rw [← hg]; exact waitingAt_fl calls g
  simp only [move_body, hdir, hpass, hw]
  have hpos : ¬st.1.current_floor + 1 ≤ 0 := by omega
  simp only [hpos, if_false, hg]
  refine ⟨?_, ?_, ?_, ?_, ?_⟩
  · split_ifs with h
    · show (10 : Int) - 1 = _
      have : st.1.current_floor + 1 ≥ 10 - 1 := h
      omega
    · rfl
  · split_ifs <;> rfl
  · intro h
    rw [if_neg]
    intro hc
    have : st.1.current_floor + 1 ≥ 10 - 1 := hc
    omega
  · intro h
    by_cases h9 : target_floor ≥ 9
    · rw [if_pos h9, if_pos]
      show st.1.current_floor + 1 ≥ 10 - 1
      omega
    · rw [if_neg h9, if_neg]
      intro hc
      have : st.1.current_floor + 1 ≥ 10 - 1 := hc
      omega
  · trivial

/-- One iteration of the movement loop going down from a floor above the target. -/
theorem move_body_down (calls : Calls) (target_floor : Int) (st : ElevatorState × Stats)
    (hdir : st.1.direction = -1) (h9 : st.1.current_floor < (MAX_FLOORS : Int))
    (hlt : target_floor < st.1.current_floor) (ht0 : 0 ≤ target_floor) :
    (move_body calls target_floor st).1.current_floor = st.1.current_floor - 1 ∧
    (move_body calls target_floor st).1.occupancy = st.1.occupancy ∧
    (target_floor < st.1.current_floor - 1 →
      (move_body calls target_floor st).1.direction = -1) ∧
    (st.1.current_floor - 1 = target_floor →
      (move_body calls target_floor st).1.direction = if target_floor ≤ 0 then 1 else -1) ∧
    (move_body calls target_floor st).2.skipped_stops
      = st.2.skipped_stops +
          (if WaitingAt calls (st.1.current_floor - 1) ∧
              st.1.current_floor - 1 ≠ target_floor then 1 else 0) := by
  have h9' : st.1.current_floor < 10 := h9
  obtain ⟨g, -, hg⟩ := floorIdx_of_range (st.1.current_floor - 1) (by omega)
    (show st.1.current_floor - 1 < (MAX_FLOORS : Int) by
      show st.1.current_floor - 1 < 10; omega)
  have hpass := pass_foldl calls g target_floor st.2
  rw [hg] at hpass
  have hw : WaitingAt calls (st.1.current_floor - 1) ↔ Waiting calls g := by
    rw [← hg]; exact waitingAt_fl calls g
  have hsub : st.1.current_floor + -1 = st.1.current_floor - 1 := by omega
  simp only [move_body, hdir, hsub, hpass, hw]
  have hhi : ¬st.1.current_floor - 1 ≥ (MAX_FLOORS : Int) - 1 := by
    intro hc
    have : st.1.current_floor - 1 ≥ 10 - 1 := hc
    omega
  refine ⟨?_, ?_, ?_, ?_, ?_⟩
  · split_ifs with h
    · show (0 : Int) = _; omega
    · rfl
  · split_ifs <;> rfl
  · intro h
    rw [if_neg (by omega), if_neg hhi]
  · intro h
    by_cases hz : target_floor ≤ 0
    · rw [if_pos hz, if_pos (by omega)]
    · rw [if_neg hz, if_neg (by omega), if_neg hhi]
  · trivial

/-- The movement loop going up: `d` iterations from a floor `d` below the target. -/
theorem move_up (calls : Calls) (target_floor : Int) (ht9 : target_floor < (MAX_FLOORS : Int)) :
    ∀ (d fuel : Nat) (st : ElevatorState × Stats), d ≤ fuel → 0 ≤ st.1.current_floor →
      st.1.current_floor + d = target_floor → (d ≠ 0 → st.1.direction = 1) →
      ((move_body calls target_floor)^[d] st).1.current_floor = target_floor ∧
      ((move_body calls target_floor)^[d] st).1.occupancy = st.1.occupancy ∧
      (d ≠ 0 → ((move_body calls target_floor)^[d] st).1.direction
        = if target_floor ≥ 9 then -1 else 1) ∧
      (∀ k, k < d → ((move_body calls target_floor)^[k] st).1.current_floor ≠ target_floor) ∧
      move_loop calls target_floor fuel st = .ok ((move_body calls target_floor)^[d] st) ∧
      ((move_body calls target_floor)^[d] st).2.skipped_stops
        = st.2.skipped_stops + ((floors.countP fun i =>
            decide (Waiting calls i ∧ st.1.current_floor < fl i ∧ fl i < target_floor) : Nat) :
              Int)
  | 0, fuel, st, _, _, hd, _ => by
    have hcf : st.1.current_floor = target_floor := by omega
    have hz : (floors.countP fun i =>
        decide (Waiting calls i ∧ st.1.current_floor < fl i ∧ fl i < target_floor)) = 0 := by
      rw [List.countP_eq_zero]
      intro i _
      simp only [decide_eq_true_eq]
      omega
    rw [hz]
    refine ⟨hcf, rfl, fun h => absurd rfl h, fun k hk => absurd hk (Nat.not_lt_zero k), ?_,
      by simp⟩
    cases fuel <;> simp [move_loop, hcf]
  | d + 1, 0, _, hfuel, _, _, _ => by omega
  | d + 1, fuel + 1, st, hfuel, h0, hd, hdir => by
    have hlt : st.1.current_floor < target_floor := by omega
    have hne : st.1.current_floor ≠ target_floor := by omega
    obtain ⟨hb1, hb2, hb3, hb4, hb5⟩ :=
      move_body_up calls target_floor st (hdir (Nat.succ_ne_zero d)) h0 hlt ht9
    obtain ⟨ih1, ih2, ih3, ih4, ih5, ih6⟩ :=
      move_up calls target_floor ht9 d fuel (move_body calls target_floor st) (by omega)
        (by rw [hb1]; omega) (by rw [hb1]; omega)
        (fun hd0 => hb3 (by
          have : d ≥ 1 := Nat.pos_of_ne_zero hd0
          omega))
    rw [Function.iterate_succ_apply]
    refine ⟨ih1, by rw [ih2, hb2], ?_, ?_, ?_, ?_⟩
    · intro _
      by_cases hd0 : d = 0
      · subst hd0
        simp only [Function.iterate_zero, id_eq]
        exact hb4 (by omega)
      · exact ih3 hd0
    · intro k hk
      cases k with
      | zero => simpa using hne
      | succ k =>
        rw [Function.iterate_succ_apply]
        exact ih4 k (by omega)
    · rw [move_loop, if_neg hne, ih5]
    · rw [ih6, hb5, hb1]
      obtain ⟨g, -, hg⟩ := floorIdx_of_range (st.1.current_floor + 1) (by omega)
        (show st.1.current_floor + 1 < (MAX_FLOORS : Int) by
          have : target_floor < 10 := ht9
          show st.1.current_floor + 1 < 10; omega)
      have hsplit := countP_split
        (fun i => decide (Waiting calls i ∧ st.1.current_floor < fl i ∧ fl i < target_floor))
        (fun i => decide (Waiting calls i ∧ st.1.current_floor + 1 < fl i ∧
          fl i < target_floor)) g
        (by simp only [decide_eq_false_iff_not]; omega) floors floors_nodup
        (by
          intro i _ hi
          have : fl i ≠ st.1.current_floor + 1 := fun h => hi (fl_injective (h.trans hg.symm))
          have hiff : (st.1.current_floor < fl i ∧ fl i < target_floor) ↔
              (st.1.current_floor + 1 < fl i ∧ fl i < target_floor) := by omega
          simp only [hiff])
      rw [hsplit]
      have hw : WaitingAt calls (st.1.current_floor + 1) ↔ Waiting calls g := by
        rw [← hg]; exact waitingAt_fl calls g
      by_cases hc : Waiting calls g ∧ st.1.current_floor + 1 ≠ target_floor
      · have hp : Waiting calls g ∧ st.1.current_floor < fl g ∧ fl g < target_floor :=
          ⟨hc.1, by omega, by omega⟩
        rw [if_pos ⟨hw.mpr hc.1, hc.2⟩, if_pos ⟨mem_floors g, decide_eq_true hp⟩]
        push_cast
        omega
      · have hp : ¬(Waiting calls g ∧ st.1.current_floor < fl g ∧ fl g < target_floor) :=
          fun h => hc ⟨h.1, by omega⟩
        rw [if_neg (fun h => hc ⟨hw.mp h.1, h.2⟩),
          if_neg (fun h => hp (of_decide_eq_true h.2))]
        push_cast
        omega

/-- The movement loop going down: `d` iterations from a floor `d` above the target. -/
theorem move_down (calls : Calls) (target_floor : Int) (ht0 : 0 ≤ target_floor) :
    ∀ (d fuel : Nat) (st : ElevatorState × Stats), d ≤ fuel →
      st.1.current_floor < (MAX_FLOORS : Int) →
      st.1.current_floor - d = target_floor → (d ≠ 0 → st.1.direction = -1) →
      ((move_body calls target_floor)^[d] st).1.current_floor = target_floor ∧
      ((move_body calls target_floor)^[d] st).1.occupancy = st.1.occupancy ∧
      (d ≠ 0 → ((move_body calls target_floor)^[d] st).1.direction
        = if target_floor ≤ 0 then 1 else -1) ∧
      (∀ k, k < d → ((move_body calls target_floor)^[k] st).1.current_floor ≠ target_floor) ∧
      move_loop calls target_floor fuel st = .ok ((move_body calls target_floor)^[d] st) ∧
      ((move_body calls target_floor)^[d] st).2.skipped_stops
        = st.2.skipped_stops + ((floors.countP fun i =>
            decide (Waiting calls i ∧ target_floor < fl i ∧ fl i < st.1.current_floor) : Nat) :
              Int)
  | 0, fuel, st, _, _, hd, _ => by
    have hcf : st.1.current_floor = target_floor := by omega
    have hz : (floors.countP fun i =>
        decide (Waiting calls i ∧ target_floor < fl i ∧ fl i < st.1.current_floor)) = 0 := by
      rw [List.countP_eq_zero]
      intro i _
      simp only [decide_eq_true_eq]
      omega
    rw [hz]
    refine ⟨hcf, rfl, fun h => absurd rfl h, fun k hk => absurd hk (Nat.not_lt_zero k), ?_,
      by simp⟩
    cases fuel <;> simp [move_loop, hcf]
  | d + 1, 0, _, hfuel, _, _, _ => by omega
  | d + 1, fuel + 1, st, hfuel, h9, hd, hdir => by
    have h9' : st.1.current_floor < 10 := h9
    have hlt : target_floor < st.1.current_floor := by omega
    have hne : st.1.current_floor ≠ target_floor := by omega
    obtain ⟨hb1, hb2, hb3, hb4, hb5⟩ :=
      move_body_down calls target_floor st (hdir (Nat.succ_ne_zero d)) h9 hlt ht0
    obtain ⟨ih1, ih2, ih3, ih4, ih5, ih6⟩ :=
      move_down calls target_floor ht0 d fuel (move_body calls target_floor st) (by omega)
        (by rw [hb1]; show st.1.current_floor - 1 < 10; omega) (by rw [hb1]; omega)
        (fun hd0 => hb3 (by
          have : d ≥ 1 := Nat.pos_of_ne_zero hd0
          omega))
    rw [Function.iterate_succ_apply]
    refine ⟨ih1, by rw [ih2, hb2], ?_, ?_, ?_, ?_⟩
    · intro _
      by_cases hd0 : d = 0
      · subst hd0
        simp only [Function.iterate_zero, id_eq]
        exact hb4 (by omega)
      · exact ih3 hd0
    · intro k hk
      cases k with
      | zero => simpa using hne
      | succ k =>
        rw [Function.iterate_succ_apply]
        exact ih4 k (by omega)
    · rw [move_loop, if_neg hne, ih5]
    · rw [ih6, hb5, hb1]
      obtain ⟨g, -, hg⟩ := floorIdx_of_range (st.1.current_floor - 1) (by omega)
        (show st.1.current_floor - 1 < (MAX_FLOORS : Int) by
          show st.1.current_floor - 1 < 10; omega)
      have hsplit := countP_split
        (fun i => decide (Waiting calls i ∧ target_floor < fl i ∧ fl i < st.1.current_floor))
        (fun i => decide (Waiting calls i ∧ target_floor < fl i ∧
          fl i < st.1.current_floor - 1)) g
        (by simp only [decide_eq_false_iff_not]; omega) floors floors_nodup
        (by
          intro i _ hi
          have : fl i ≠ st.1.current_floor - 1 := fun h => hi (fl_injective (h.trans hg.symm))
          have hiff : (target_floor < fl i ∧ fl i < st.1.current_floor) ↔
              (target_floor < fl i ∧ fl i < st.1.current_floor - 1) := by omega
          simp only [hiff])
      rw [hsplit]
      have hw : WaitingAt calls (st.1.current_floor - 1) ↔ Waiting calls g := by
        rw [← hg]; exact waitingAt_fl calls g
      by_cases hc : Waiting calls g ∧ st.1.current_floor - 1 ≠ target_floor
      · have hp : Waiting calls g ∧ target_floor < fl g ∧ fl g < st.1.current_floor :=
          ⟨hc.1, by omega, by omega⟩
        rw [if_pos ⟨hw.mpr hc.1, hc.2⟩, if_pos ⟨mem_floors g, decide_eq_true hp⟩]
        push_cast
        omega
      · have hp : ¬(Waiting calls g ∧ target_floor < fl g ∧ fl g < st.1.current_floor) :=
          fun h => hc ⟨h.1, by omega⟩
        rw [if_neg (fun h => hc ⟨hw.mp h.1, h.2⟩),
          if_neg (fun h => hp (of_decide_eq_true h.2))]
        push_cast
        omega

/-- The movement of the stop branch toward a target inside the building, for a car inside
the building: the loop ends after `|target_floor - current_floor|` iterations, at the
target, and has counted the waiting calls strictly between start and target. -/
theorem service_move (calls : Calls) (e : ElevatorState) (s : Stats) (target_floor : Int)
    (fuel : Nat) (hfuel : MAX_FLOORS ≤ fuel) (h0 : 0 ≤ e.current_floor)
    (h9 : e.current_floor < (MAX_FLOORS : Int)) (ht0 : 0 ≤ target_floor)
    (ht9 : target_floor < (MAX_FLOORS : Int)) :
    ((move_body calls target_floor)^[(target_floor - e.current_floor).natAbs]
      (set_direction e target_floor, s)).1.current_floor = target_floor ∧
    ((move_body calls target_floor)^[(target_floor - e.current_floor).natAbs]
      (set_direction e target_floor, s)).1.occupancy = e.occupancy ∧
    (target_floor ≠ e.current_floor →
      ((move_body calls target_floor)^[(target_floor - e.current_floor).natAbs]
        (set_direction e target_floor, s)).1.direction
        = if target_floor > e.current_floor then (if target_floor ≥ 9 then -1 else 1)
          else (if target_floor ≤ 0 then 1 else -1)) ∧
    (target_floor = e.current_floor →
      (move_body calls target_floor)^[(target_floor - e.current_floor).natAbs]
        (set_direction e target_floor, s) = (e, s)) ∧
    (∀ k, k < (target_floor - e.current_floor).natAbs →
      ((move_body calls target_floor)^[k]
        (set_direction e target_floor, s)).1.current_floor ≠ target_floor) ∧
    move_loop calls target_floor fuel (set_direction e target_floor, s)
      = .ok ((move_body calls target_floor)^[(target_floor - e.current_floor).natAbs]
          (set_direction e target_floor, s)) ∧
    ((move_body calls target_floor)^[(target_floor - e.current_floor).natAbs]
      (set_direction e target_floor, s)).2.skipped_stops
      = s.skipped_stops + (strictlyBetweenCount calls e.current_floor target_floor : Int) := by
  have h9' : e.current_floor < 10 := h9
  have ht9' : target_floor < 10 := ht9
  have hfuel' : 10 ≤ fuel := hfuel
  rcases lt_trichotomy e.current_floor target_floor with hlt | heq | hgt
  · have hset : set_direction e target_floor = { e with direction := 1 } := by
      unfold set_direction; rw [if_pos hlt]
    obtain ⟨m1, m2, m3, m4, m5, m6⟩ := move_up calls target_floor ht9
      (target_floor - e.current_floor).natAbs fuel (set_direction e target_floor, s)
      (by omega) (by rw [hset]; exact h0) (by rw [hset]; simp only []; omega)
      (fun _ => by rw [hset])
    have hn : (target_floor - e.current_floor).natAbs ≠ 0 := by omega
    have hcount : (floors.countP fun i => decide (Waiting calls i ∧
          (set_direction e target_floor, s).1.current_floor < fl i ∧ fl i < target_floor))
        = strictlyBetweenCount calls e.current_floor target_floor := by
      unfold strictlyBetweenCount
      apply List.countP_congr
      intro i _
      rw [hset]
      simp only [decide_eq_true_eq]
      constructor
      · rintro ⟨hw, h⟩; exact ⟨hw, Or.inl h⟩
      · rintro ⟨hw, h | h⟩
        · exact ⟨hw, h⟩
        · omega
    refine ⟨m1, by rw [m2, hset], fun _ => ?_, fun h => absurd h (by omega), m4, m5, ?_⟩
    · rw [m3 hn, if_pos hlt]
    · rw [m6, hcount]
  · have hset : set_direction e target_floor = e := by
      unfold set_direction; rw [if_neg (by omega), if_neg (by omega)]
    have hn : (target_floor - e.current_floor).natAbs = 0 := by omega
    have hz : strictlyBetweenCount calls e.current_floor target_floor = 0 := by
      unfold strictlyBetweenCount
      rw [List.countP_eq_zero]
      intro i _
      simp only [decide_eq_true_eq]
      omega
    rw [hn, hset, hz]
    refine ⟨heq, rfl, fun h => absurd heq.symm h, fun _ => rfl,
      fun k hk => absurd hk (Nat.not_lt_zero k), ?_, ?_⟩
    · cases fuel <;> simp [move_loop, heq]
    · show s.skipped_stops = s.skipped_stops + ((0 : Nat) : Int)
      simp
  · have hset : set_direction e target_floor = { e with direction := -1 } := by
      unfold set_direction; rw [if_neg (by omega), if_pos hgt]
    obtain ⟨m1, m2, m3, m4, m5, m6⟩ := move_down calls target_floor ht0
      (target_floor - e.current_floor).natAbs fuel (set_direction e target_floor, s)
      (by omega) (by rw [hset]; exact h9) (by rw [hset]; simp only []; omega)
      (fun _ => by rw [hset])
    have hn : (target_floor - e.current_floor).natAbs ≠ 0 := by omega
    have hcount : (floors.countP fun i => decide (Waiting calls i ∧
          target_floor < fl i ∧ fl i < (set_direction e target_floor, s).1.current_floor))
        = strictlyBetweenCount calls e.current_floor target_floor := by
      unfold strictlyBetweenCount
      apply List.countP_congr
      intro i _
      rw [hset]
      simp only [decide_eq_true_eq]
      constructor
      · rintro ⟨hw, h⟩; exact ⟨hw, Or.inr h⟩
      · rintro ⟨hw, h | h⟩
        · omega
        · exact ⟨hw, h⟩
    refine ⟨m1, by rw [m2, hset], fun _ => ?_, fun h => absurd h (by omega), m4, m5, ?_⟩
    · rw [m3 hn, if_neg (show ¬target_floor > e.current_floor by omega)]
    · rw [m6, hcount]

theorem simulate_disembark_position (internal_calls : Flags) (e : ElevatorState)
    (floor : Fin MAX_FLOORS) (has_call : Bool) (r1 r2 : Nat) :
    (simulate_disembark internal_calls e floor has_call r1 r2).2.current_floor
      = e.current_floor ∧
    (simulate_disembark internal_calls e floor has_call r1 r2).2.direction = e.direction := by
  simp only [simulate_disembark]
  split_ifs <;> exact ⟨rfl, rfl⟩

theorem handle_stop_position (calls : Calls) (e : ElevatorState) (s : Stats)
    (floor : Fin MAX_FLOORS) :
    (smartstop_handle_stop calls e s floor).2.1.current_floor = e.current_floor ∧
    (smartstop_handle_stop calls e s floor).2.1.direction = e.direction := by
  simp only [smartstop_handle_stop]
  split_ifs <;> exact ⟨rfl, rfl⟩

theorem fl_range (i : Fin MAX_FLOORS) : 0 ≤ fl i ∧ fl i < 10 := by
  have hi : (i : Nat) < 10 := i.isLt
  unfold fl; omega

theorem posInv_iff (e : ElevatorState) :
    PosInv e ↔ 0 ≤ e.current_floor ∧ e.current_floor ≤ 9 ∧
      (e.direction = 1 ∨ e.direction = -1) ∧ (e.current_floor = 0 → e.direction = 1) ∧
      (e.current_floor = 9 → e.direction = -1) := by
  unfold PosInv
  norm_num

theorem cruise_move_posInv (e : ElevatorState) (h : PosInv e) : PosInv (cruise_move e) := by
  rw [posInv_iff] at h ⊢
  obtain ⟨h0, h9, hd, hz, ht⟩ := h
  have hcm : cruise_move e
      = if e.current_floor + e.direction ≤ 0 then { e with current_floor := 0, direction := 1 }
        else if e.current_floor + e.direction ≥ 9 then
          { e with current_floor := 9, direction := -1 }
        else { e with current_floor := e.current_floor + e.direction } := by
    unfold cruise_move
    norm_num
  rw [hcm]
  split_ifs with h1 h2
  · simp
  · simp
  · simp only []
    omega

/-- The stop branch at a target inside the building returns, with the car at the target
and the position invariant in force. -/
theorem stop_branch_posInv (fuel : Nat) (w : World) (t : Fin MAX_FLOORS) (r1 r2 : Nat)
    (hfuel : MAX_FLOORS ≤ fuel) (h : PosInv w.elevator) :
    ∃ w', stop_branch fuel w (fl t) r1 r2 = .ok w' ∧ w'.elevator.current_floor = fl t ∧
      PosInv w'.elevator := by
  have hinv := (posInv_iff _).mp h
  obtain ⟨h0, h9, hd, hz, ht⟩ := hinv
  have hfl := fl_range t
  obtain ⟨i, hi, hfi⟩ := floorIdx_of_range (fl t) hfl.1 hfl.2
  have hit : i = t := fl_injective hfi
  subst hit
  obtain ⟨m1, -, m3, m4, -, m6, -⟩ := service_move w.calls w.elevator w.stats (fl i) fuel hfuel
    h0 (show w.elevator.current_floor < 10 by omega) hfl.1 hfl.2
  have hfin : PosInv ((move_body w.calls (fl i))^[(fl i - w.elevator.current_floor).natAbs]
      (set_direction w.elevator (fl i), w.stats)).1 := by
    by_cases heq : fl i = w.elevator.current_floor
    · rw [m4 heq]; exact h
    · have hdir := m3 heq
      rw [posInv_iff, m1, hdir]
      refine ⟨hfl.1, by omega, ?_, ?_, ?_⟩
      · split_ifs <;> simp
      · intro hz0
        rw [if_neg (by omega), if_pos (by omega)]
      · intro h9t
        rw [if_pos (by omega), if_pos (by omega)]
  have hpos : ∀ e' : ElevatorState,
      e'.current_floor = ((move_body w.calls (fl i))^[(fl i - w.elevator.current_floor).natAbs]
        (set_direction w.elevator (fl i), w.stats)).1.current_floor →
      e'.direction = ((move_body w.calls (fl i))^[(fl i - w.elevator.current_floor).natAbs]
        (set_direction w.elevator (fl i), w.stats)).1.direction →
      e'.current_floor = fl i ∧ PosInv e' := by
    intro e' hc hdr
    unfold PosInv at hfin ⊢
    rw [hc, hdr]
    exact ⟨m1, hfin⟩
  unfold stop_branch
  rw [m6]
  simp only [hi]
  refine ⟨_, rfl, ?_⟩
  simp only []
  apply hpos
  · split_ifs <;>
      simp only [(handle_stop_position _ _ _ _).1, (simulate_disembark_position _ _ _ _ _ _).1]
  · split_ifs <;>
      simp only [(handle_stop_position _ _ _ _).2, (simulate_disembark_position _ _ _ _ _ _).2]

/-- The cruising branch returns and keeps the position invariant. -/
theorem cruise_branch_posInv (w : World) (r0 r1 r2 : Nat) (h : PosInv w.elevator) :
    ∃ w', cruise_branch w r0 r1 r2 = .ok w' ∧ PosInv w'.elevator := by
  have h0 := ((posInv_iff _).mp h).1
  have h9 := ((posInv_iff _).mp h).2.1
  obtain ⟨i, hi, -⟩ := floorIdx_of_range w.elevator.current_floor h0
    (show w.elevator.current_floor < 10 by omega)
  have hkeep : ∀ e' : ElevatorState, e'.current_floor = w.elevator.current_floor →
      e'.direction = w.elevator.direction → PosInv (cruise_move e') := by
    intro e' hc hdr
    apply cruise_move_posInv
    unfold PosInv at h ⊢
    rw [hc, hdr]
    exact h
  unfold cruise_branch
  simp only [hi]
  split_ifs
  · exact ⟨_, rfl, hkeep _ rfl rfl⟩
  · exact ⟨_, rfl, hkeep _ (simulate_disembark_position _ _ _ _ _ _).1
      (simulate_disembark_position _ _ _ _ _ _).2⟩
  · exact ⟨_, rfl, hkeep _ rfl rfl⟩

theorem button_foldl_noFlag_any (w : World) (h : NoFlag w) :
    floors.foldl (button_step w) (999, -1) = (999, -1) := by
  have hs := scan_foldl (fun x : Int => -x) (Flagged w)
    (fun i => dist w.elevator.current_floor i) (button_step w) 999
    (fun acc i _ => button_step_spec w acc i) (fun i hi => absurd hi (h i)) floors floors_sorted
  rcases hs with ⟨-, hres⟩ | ⟨m, -, hm, -, -⟩
  · exact hres
  · exact absurd hm (h m)

theorem internal_kept_step_spec (w : World) (acc : Int × Int) (i : Fin MAX_FLOORS) :
    (KeptDestination w i ∧ dist w.elevator.current_floor i < acc.1 →
      internal_dir_step w acc i = (dist w.elevator.current_floor i, fl i)) ∧
    (¬(KeptDestination w i ∧ dist w.elevator.current_floor i < acc.1) →
      internal_dir_step w acc i = acc) := by
  unfold KeptDestination internal_dir_step
  simp only []
  constructor
  · rintro ⟨⟨hi, hd⟩, hlt⟩
    rw [if_neg (by simp [hi]), if_neg hd, if_pos hlt]
  · intro hn
    split_ifs with h1 h2 h3
    · rfl
    · rfl
    · exfalso
      apply hn
      exact ⟨⟨by simpa using h1, h2⟩, h3⟩
    · rfl

theorem dist_self (d : Fin MAX_FLOORS) : dist (fl d) d = 0 := by
  unfold dist; simp

theorem dist_eq_zero {current_floor : Int} {i : Fin MAX_FLOORS}
    (h : dist current_floor i = 0) : fl i = current_floor := by
  unfold dist at h
  simp only [] at h
  split at h <;> omega

theorem dist_nonneg (current_floor : Int) (i : Fin MAX_FLOORS) :
    0 ≤ dist current_floor i := by
  unfold dist
  simp only []
  split <;> omega

theorem floorOrNone_fl (i : Fin MAX_FLOORS) : FloorOrNone (fl i) := by
  have := fl_range i
  right; omega

theorem floorOrNone_neg_one : FloorOrNone (-1) := Or.inl rfl

theorem find_emergency_call_cases (calls : Calls) :
    find_emergency_call calls = -1 ∨ ∃ f, find_emergency_call calls = fl f := by
  unfold find_emergency_call
  rcases find_emergency_foldl calls with ⟨-, hres⟩ | ⟨m, -, hres, -⟩
  · left; rw [hres]; simp
  · rw [hres]
    simp only []
    split_ifs
    · right; exact ⟨m, rfl⟩
    · left; rfl

/-- The path loop of the emergency block ends within `|f - current_floor|` iterations
without reading outside the table. -/
theorem count_calls_in_path_ok (calls : Calls) (current_floor : Int) (f : Fin MAX_FLOORS)
    (fuel : Nat) (hfuel : (fl f - current_floor).natAbs ≤ fuel) (h0 : 0 ≤ current_floor)
    (h9 : current_floor < (MAX_FLOORS : Int)) :
    count_calls_in_path calls (fl f) (if fl f > current_floor then 1 else -1) fuel
      current_floor 0 = .ok ((pathCount calls current_floor (fl f) : Nat) : Int) := by
  have hf := fl_range f
  unfold pathCount
  by_cases hup : fl f > current_floor
  · rw [if_pos hup, count_path_up calls (fl f) hf.2 (fl f - current_floor).natAbs fuel
      current_floor 0 hfuel h0 (by omega), zero_add]
    congr 2
    apply List.countP_congr
    intro i _
    simp only [decide_eq_true_eq]
    constructor
    · rintro ⟨hw, h⟩; exact ⟨hw, Or.inl h⟩
    · rintro ⟨hw, h | h⟩
      · exact ⟨hw, h⟩
      · omega
  · rw [if_neg hup, count_path_down calls (fl f) hf.1 (fl f - current_floor).natAbs fuel
      current_floor 0 hfuel h9 (by omega), zero_add]
    congr 2
    apply List.countP_congr
    intro i _
    simp only [decide_eq_true_eq]
    constructor
    · rintro ⟨hw, h⟩; exact ⟨hw, Or.inr h⟩
    · rintro ⟨hw, h | h⟩
      · omega
      · exact ⟨hw, h⟩

theorem waitingAt_range (calls : Calls) (f : Int) (h : WaitingAt calls f) :
    FloorOrNone f := by
  obtain ⟨i, hi, -⟩ := h
  rw [← hi]; exact floorOrNone_fl i

theorem proximity_choice_range (calls : Calls) (e : ElevatorState) (f : Int)
    (h : proximity_choice calls e = some f) : FloorOrNone f := by
  simp only [proximity_choice, List.findSome?] at h
  split at h
  · rename_i x hx
    split_ifs at hx with hc
    cases hx; cases h
    exact waitingAt_range calls _ ((call_waiting_iff calls _).mp hc)
  · split at h
    · rename_i x hx
      split_ifs at hx with hc
      cases hx; cases h
      exact waitingAt_range calls _ ((call_waiting_iff calls _).mp hc)
    · split at h
      · rename_i x hx
        split_ifs at hx with hc
        cases hx; cases h
        exact waitingAt_range calls _ ((call_waiting_iff calls _).mp hc)
      · exact absurd h (by simp)

theorem crowded_scan_range (calls : Calls) (e : ElevatorState) :
    ∀ (L : List Int) (f : Int), crowded_scan calls e L = some f → FloorOrNone f
  | [], f, h => by simp [crowded_scan] at h
  | offset :: rest, f, h => by
    simp only [crowded_scan] at h
    split_ifs at h with h1 h2
    · cases h
      exact waitingAt_range calls _ ((call_waiting_iff calls _).mp h2)
    · exact crowded_scan_range calls e rest f h

theorem smartstop_floorOrNone (calls : Calls) (e : ElevatorState) (s : Stats) (thr : F32)
    (hdir : e.direction = 1 ∨ e.direction = -1) :
    FloorOrNone (smartstop_decide_next_floor calls e s thr).1 := by
  rcases decide_foldl calls e hdir with ⟨-, hres⟩ | ⟨m, -, hres⟩
  · simp only [smartstop_decide_next_floor, hres, if_true]
    exact floorOrNone_neg_one
  · simp only [smartstop_decide_next_floor, hres, fl_ne_neg_one, if_false]
    split_ifs
    · exact floorOrNone_neg_one
    · exact floorOrNone_fl m

theorem fallback_floorOrNone (w : World) (h0 : 0 ≤ w.elevator.current_floor)
    (h9 : w.elevator.current_floor < (MAX_FLOORS : Int)) :
    FloorOrNone (floors.foldl (fallback_step w) (999, -1)).2 := by
  rcases dist_scan_foldl (Waiting w.calls) w.elevator.current_floor (fallback_step w)
    (fun acc i => fallback_step_spec w acc i) h0 h9 with ⟨-, hres⟩ | ⟨m, -, hres⟩
  · rw [hres]; exact floorOrNone_neg_one
  · rw [hres]; exact floorOrNone_fl m

theorem choose_after_proximity_eq (w : World) :
    choose_after_proximity w
      = if (smartstop_stage w).1 ≠ -1 then smartstop_stage w
        else after_smartstop (smartstop_stage w).2 := rfl

theorem smartstop_stage_frame (w : World) :
    (smartstop_stage w).2 = { w with stats := (smartstop_stage w).2.stats } := by
  unfold smartstop_stage
  split_ifs
  · simp only [smartstop_decide_calls, smartstop_decide_elevator]
  · rfl

theorem after_smartstop_floorOrNone (w : World) (h0 : 0 ≤ w.elevator.current_floor)
    (h9 : w.elevator.current_floor < (MAX_FLOORS : Int)) :
    FloorOrNone (after_smartstop w).1 := by
  unfold after_smartstop
  split
  · rename_i f hf
    split_ifs at hf
    exact crowded_scan_range w.calls w.elevator _ f hf
  · split_ifs
    · exact fallback_floorOrNone w h0 h9
    · exact floorOrNone_neg_one

theorem choose_after_proximity_floorOrNone (w : World) (h0 : 0 ≤ w.elevator.current_floor)
    (h9 : w.elevator.current_floor < (MAX_FLOORS : Int))
    (hdir : w.elevator.direction = 1 ∨ w.elevator.direction = -1) :
    FloorOrNone (choose_after_proximity w).1 := by
  rw [choose_after_proximity_eq]
  split_ifs with h
  · unfold smartstop_stage
    split_ifs
    · exact smartstop_floorOrNone w.calls w.elevator w.stats F32.c0_65 hdir
    · exact floorOrNone_neg_one
  · rw [smartstop_stage_frame]
    exact after_smartstop_floorOrNone _ h0 h9

theorem internal_choice_floorOrNone (w : World) (h0 : 0 ≤ w.elevator.current_floor)
    (h9 : w.elevator.current_floor < (MAX_FLOORS : Int)) :
    FloorOrNone (internal_choice w) := by
  have hscan1 := dist_scan_foldl (KeptDestination w) w.elevator.current_floor
    (internal_dir_step w) (fun acc i => internal_kept_step_spec w acc i) h0 h9
  have hscan2 := dist_scan_foldl (fun i => w.internal_calls i = true)
    w.elevator.current_floor (internal_any_step w)
    (fun acc i => internal_any_step_spec w acc i) h0 h9
  unfold internal_choice
  split_ifs
  · rcases hscan1 with ⟨-, hres1⟩ | ⟨m, -, hres1⟩
    · rcases hscan2 with ⟨-, hres2⟩ | ⟨m, -, hres2⟩
      · simp only [hres1, hres2, if_true]; exact floorOrNone_neg_one
      · simp only [hres1, hres2, if_true]; exact floorOrNone_fl m
    · simp only [hres1, fl_ne_neg_one, if_false]; exact floorOrNone_fl m
  · exact floorOrNone_neg_one

theorem choose_after_emergency_floorOrNone (w : World) (h0 : 0 ≤ w.elevator.current_floor)
    (h9 : w.elevator.current_floor < (MAX_FLOORS : Int))
    (hdir : w.elevator.direction = 1 ∨ w.elevator.direction = -1) :
    FloorOrNone (choose_after_emergency w).1 := by
  unfold choose_after_emergency
  simp only []
  split_ifs with h1 h2 h3
  · rcases button_foldl w h0 h9 with ⟨-, hres⟩ | ⟨m, -, hres⟩
    · rw [hres]; exact floorOrNone_neg_one
    · rw [hres]; exact floorOrNone_fl m
  · exact internal_choice_floorOrNone w h0 h9
  · right
    have := h3.2.2
    have h3b : w.elevator.current_floor + w.elevator.direction < 10 := this.2
    exact ⟨this.1, by omega⟩
  · split
    · rename_i f hf
      exact proximity_choice_range w.calls w.elevator f hf
    · exact choose_after_proximity_floorOrNone w h0 h9 hdir

/-- The efficiency depends on the offset through its absolute value and on the wait
through the test `wait_time > 5`. -/
theorem efficiency_abs (est delta wait_time : Int) :
    efficiency est delta wait_time
      = efficiency est (if delta ≥ 0 then delta else -delta)
          (if wait_time > 5 then 6 else 0) := by
  have h1 : (if (if delta ≥ 0 then delta else -delta) ≥ 0 then
      (if delta ≥ 0 then delta else -delta) else -(if delta ≥ 0 then delta else -delta))
      = (if delta ≥ 0 then delta else -delta) := by
    split_ifs <;> omega
  have h2 : ((if wait_time > 5 then (6 : Int) else 0) > 5) ↔ wait_time > 5 := by
    split_ifs <;> omega
  unfold efficiency
  simp only [h1, h2]

/-- At threshold 0.65 and distance 3 to 9, a call of at most 3 passengers is below the
threshold, the call of 3 passengers at distance 3 that has waited more than 5 cycles
apart. -/
theorem efficiency_low (est d : Int) (b : Bool) (he1 : 1 ≤ est) (he3 : est ≤ 3)
    (hd3 : 3 ≤ d) (hd9 : d ≤ 9) (hx : ¬(est = 3 ∧ d = 3 ∧ b = true)) :
    efficiency est d (if b = true then 6 else 0) < F32.c0_65 := by
  interval_cases est <;> interval_cases d <;> cases b <;>
    first
    | decide
    | exact absurd ⟨rfl, rfl, rfl⟩ hx

/-- A SmartStop candidate that no proximity offset covers lies at distance 3 or more. -/
theorem candidate_dist_ge_three (calls : Calls) (e : ElevatorState) (m : Fin MAX_FLOORS)
    (hm : Candidate calls e m)
    (hprox : ∀ j : Int, 0 ≤ j → j ≤ 2 →
      ¬WaitingAt calls (e.current_floor + j * e.direction)) :
    3 ≤ dist e.current_floor m := by
  obtain ⟨hact, hah, hest⟩ := hm
  have hw : Waiting calls m := ⟨hact, hest⟩
  by_contra hlt
  have hd : dist e.current_floor m ≤ 2 := by omega
  unfold dist at hd
  simp only [] at hd
  unfold Ahead at hah
  rcases hah with ⟨hdir, hgt⟩ | ⟨hdir, hgt⟩
  · rw [if_pos (by omega)] at hd
    apply hprox (fl m - e.current_floor) (by omega) hd
    refine ⟨m, ?_, hw⟩
    rw [hdir]; omega
  · rw [if_neg (by omega)] at hd
    apply hprox (-(fl m - e.current_floor)) (by omega) hd
    refine ⟨m, ?_, hw⟩
    rw [hdir]; omega

/-! ## The claims -/

/-- C1. Boarding: for an active call of `est ≥ 0` passengers at `floor` and an occupancy in
`[0, ELEVATOR_CAP]`, `smartstop_handle_stop` boards `min est (ELEVATOR_CAP - occupancy)`
passengers: occupancy and `total_boarded` grow by that number, `total_stops` grows by one
and the call is cleared; with occupancy 7 and 5 passengers waiting exactly one boards. -/
theorem C1_boarding (calls : Calls) (e : ElevatorState) (s : Stats) (floor : Fin MAX_FLOORS)
    (hact : (calls floor).active = true) (hest : 0 ≤ (calls floor).est_passengers)
    (h0 : 0 ≤ e.occupancy) (hcap : e.occupancy ≤ ELEVATOR_CAP) :
    let boarded := min (calls floor).est_passengers (ELEVATOR_CAP - e.occupancy)
    let r := smartstop_handle_stop calls e s floor
    r.2.1.occupancy = e.occupancy + boarded ∧
    r.2.2.total_boarded = s.total_boarded + boarded ∧
    r.2.2.total_stops = s.total_stops + 1 ∧
    (r.1 floor).active = false ∧ (r.1 floor).est_passengers = 0 ∧ (r.1 floor).wait_time = 0 ∧
    (e.occupancy = 7 → (calls floor).est_passengers = 5 →
      boarded = 1 ∧ r.2.1.occupancy = 8 ∧ r.2.2.total_boarded = s.total_boarded + 1) := by
  simp only [smartstop_handle_stop, hact, Bool.not_true, Bool.false_eq_true, if_false,
    Function.update_same, min_def, ELEVATOR_CAP] at hcap ⊢
  split_ifs <;> refine ⟨?_, ?_, ?_, ?_, ?_, ?_, ?_⟩ <;> first | trivial | omega

theorem C1_boarding_witness :
    ((fun i => ⟨true, fl i, 5, 0⟩ : Calls) 3).active = true ∧
    (smartstop_handle_stop (fun i => ⟨true, fl i, 5, 0⟩) ⟨3, 1, 7⟩ ⟨4, 0, 0, 9⟩ 3).2.1.occupancy
      = 8 ∧
    (smartstop_handle_stop (fun i => ⟨true, fl i, 5, 0⟩) ⟨3, 1, 7⟩ ⟨4, 0, 0, 9⟩ 3).2.2.total_boarded
      = 9 + 1 ∧
    (smartstop_handle_stop (fun i => ⟨true, fl i, 5, 0⟩) ⟨3, 1, 7⟩ ⟨4, 0, 0, 9⟩ 3).2.2.total_stops
      = 4 + 1 ∧
    ((smartstop_handle_stop (fun i => ⟨true, fl i, 5, 0⟩) ⟨3, 1, 7⟩ ⟨4, 0, 0, 9⟩ 3).1 3).active
      = false :=
  have h := C1_boarding (fun i => ⟨true, fl i, 5, 0⟩) ⟨3, 1, 7⟩ ⟨4, 0, 0, 9⟩ 3 rfl (by decide)
    (by decide) (by decide)
  ⟨rfl, (h.2.2.2.2.2.2 rfl rfl).2.1, (h.2.2.2.2.2.2 rfl rfl).2.2, h.2.2.1, h.2.2.2.1⟩

/-- C2. Occupancy stays in `[0, ELEVATOR_CAP]`: from an occupancy in that range, both
`smartstop_handle_stop` and `simulate_disembark` end with an occupancy in that range,
for every floor, call table, flag array and random draw. -/
theorem C2_occupancy_in_range (calls : Calls) (e : ElevatorState) (s : Stats)
    (floor : Fin MAX_FLOORS) (internal_calls : Flags) (has_call : Bool) (r1 r2 : Nat)
    (h0 : 0 ≤ e.occupancy) (hcap : e.occupancy ≤ ELEVATOR_CAP) :
    (0 ≤ (smartstop_handle_stop calls e s floor).2.1.occupancy ∧
      (smartstop_handle_stop calls e s floor).2.1.occupancy ≤ ELEVATOR_CAP) ∧
    (0 ≤ (simulate_disembark internal_calls e floor has_call r1 r2).2.occupancy ∧
      (simulate_disembark internal_calls e floor has_call r1 r2).2.occupancy ≤ ELEVATOR_CAP) := by
  constructor
  · simp only [smartstop_handle_stop, ELEVATOR_CAP] at hcap ⊢
    split_ifs <;> constructor <;> simp only [] <;> omega
  · simp only [simulate_disembark, ELEVATOR_CAP, MIN_DISEMBARK_PASSENGERS,
      MAX_DISEMBARK_PASSENGERS] at hcap ⊢
    have hr := Int.emod_nonneg (r2 : Int) (show (4 - 1 + 1 : Int) ≠ 0 by decide)
    split_ifs <;> constructor <;> simp only [] <;> omega

theorem C2_occupancy_in_range_witness :
    (0 ≤ (smartstop_handle_stop (fun i => ⟨true, fl i, 5, 0⟩) ⟨3, 1, 7⟩ ⟨0, 0, 0, 0⟩ 3).2.1.occupancy ∧
      (smartstop_handle_stop (fun i => ⟨true, fl i, 5, 0⟩) ⟨3, 1, 7⟩ ⟨0, 0, 0, 0⟩ 3).2.1.occupancy
        ≤ ELEVATOR_CAP) ∧
    (0 ≤ (simulate_disembark (fun _ => false) ⟨3, 1, 7⟩ 3 true 10 3).2.occupancy ∧
      (simulate_disembark (fun _ => false) ⟨3, 1, 7⟩ 3 true 10 3).2.occupancy ≤ ELEVATOR_CAP) :=
  C2_occupancy_in_range (fun i => ⟨true, fl i, 5, 0⟩) ⟨3, 1, 7⟩ ⟨0, 0, 0, 0⟩ 3 (fun _ => false)
    true 10 3 (by decide) (by decide)

/-- C3, as stated, fails: car at floor 5 with 3 passengers, calls at floors 5 and 6, and a
call at floor 8 that has waited 20 cycles.  Floor 8 is the longest-waiting call, only one
call (floor 6) lies strictly between floors 5 and 8, yet the function returns floor 5: the
path loop also counts the call at the current floor. -/
theorem C3_counterexample :
    LongestWaiting pathTable 8 ∧ (pathTable 8).wait_time ≥ EMERGENCY_WAIT_TIME ∧
    strictlyBetweenCount pathTable 5 (fl 8) < 2 ∧
    (choose_next_floor_realistic 10 (plainWorld pathTable ⟨5, 1, 3⟩)).map Prod.fst = .ok 5 := by
  decide

/-- C3, amended. Emergency escalation: for a car inside the building, if `f` is the
waiting call of largest `wait_time` (lowest floor among equals), that wait is at least
15, and either fewer than 2 waiting calls lie on the floors from the current floor
(included) to `f` (excluded) or fewer than 2 passengers are on board, then
`choose_next_floor_realistic` returns `f` and leaves the state as it was, whatever the
manual flags, internal destinations and other calls are. -/
theorem C3_emergency_escalation (fuel : Nat) (w : World) (f : Fin MAX_FLOORS)
    (hfuel : MAX_FLOORS ≤ fuel) (h0 : 0 ≤ w.elevator.current_floor)
    (h9 : w.elevator.current_floor < (MAX_FLOORS : Int))
    (hf : LongestWaiting w.calls f) (hw : (w.calls f).wait_time ≥ EMERGENCY_WAIT_TIME)
    (hq : pathCount w.calls w.elevator.current_floor (fl f) < 2 ∨ w.elevator.occupancy < 2) :
    choose_next_floor_realistic fuel w = .ok (fl f, w) :=
  emergency_return fuel w f hfuel h0 h9 hf hw hq

theorem C3_emergency_escalation_witness :
    LongestWaiting urgentTable 8 ∧
    pathCount urgentTable 5 (fl 8) < 2 ∧
    choose_next_floor_realistic 10 (plainWorld urgentTable ⟨5, 1, 3⟩)
      = .ok (fl 8, plainWorld urgentTable ⟨5, 1, 3⟩) :=
  ⟨by decide, by decide,
    C3_emergency_escalation 10 (plainWorld urgentTable ⟨5, 1, 3⟩) 8 (by decide) (by decide)
      (by decide) (by decide) (by decide) (Or.inl (by decide))⟩

/-- C4, as stated, fails: with the car at floor 5 going up, 4 passengers at floor 8 (wait
0) and 4 at floor 9 (wait 6), both candidates have the exact efficiency 4/5, which is not
below 0.65, and floor 8 is the lowest floor of maximum exact efficiency; in single
precision the efficiency of floor 8 is below that of floor 9, and
`smartstop_decide_next_floor` returns floor 9. -/
theorem C4_counterexample :
    ExactBest tieCalls ⟨5, 1, 0⟩ 8 ∧
    exactCallEff tieCalls ⟨5, 1, 0⟩ 8 = 4 / 5 ∧
    exactCallEff tieCalls ⟨5, 1, 0⟩ 9 = 4 / 5 ∧
    (13 / 20 : ℚ) ≤ exactCallEff tieCalls ⟨5, 1, 0⟩ 8 ∧
    callEff tieCalls ⟨5, 1, 0⟩ 8 < callEff tieCalls ⟨5, 1, 0⟩ 9 ∧
    (smartstop_decide_next_floor tieCalls ⟨5, 1, 0⟩ ⟨0, 0, 0, 0⟩ F32.c0_65).1 = 9 := by
  have h8 : exactCallEff tieCalls ⟨5, 1, 0⟩ 8 = 4 / 5 := by
    have h1 : (tieCalls 8).est_passengers = 4 := by decide
    have h2 : fl 8 - (⟨5, 1, 0⟩ : ElevatorState).current_floor = 3 := by decide
    have h3 : (tieCalls 8).wait_time = 0 := by decide
    unfold exactCallEff exactEfficiency
    rw [h1, h2, h3]
    norm_num
  have h9 : exactCallEff tieCalls ⟨5, 1, 0⟩ 9 = 4 / 5 := by
    have h1 : (tieCalls 9).est_passengers = 4 := by decide
    have h2 : fl 9 - (⟨5, 1, 0⟩ : ElevatorState).current_floor = 4 := by decide
    have h3 : (tieCalls 9).wait_time = 6 := by decide
    unfold exactCallEff exactEfficiency
    rw [h1, h2, h3]
    norm_num
  have hc : ∀ j, Candidate tieCalls ⟨5, 1, 0⟩ j → j = 8 ∨ j = 9 := by decide
  refine ⟨⟨by decide, ?_⟩, h8, h9, ?_, by decide, by decide⟩
  · intro j hj
    rcases hc j hj with rfl | rfl
    · right; exact ⟨rfl, le_rfl⟩
    · right; exact ⟨by rw [h8, h9], by decide⟩
  · rw [h8]; norm_num

/-- C4, amended. SmartStop selection: for a car going up or down and a candidate `m`
(an active call strictly ahead with passengers waiting), the efficiency the code computes
in single precision lies within the factor `2 ^ -21` of `est_passengers / (|floor -
current_floor| + 2)`, multiplied by 1.2 when `wait_time > 5`; when `m` has the maximum
computed efficiency (lowest floor among equal computed efficiencies) and that efficiency
is not below the threshold, `smartstop_decide_next_floor` returns `m`; it also returns `m`
when the exact efficiency of `m` exceeds that of every other candidate, and the threshold,
by more than the rounding margin; with 3 passengers at floor 6 and 1 at floor 9, the car at
floor 5 going up and threshold 0.65 it returns floor 6. -/
theorem C4_smartstop_selects_best (calls : Calls) (e : ElevatorState) (s : Stats)
    (efficiency_threshold : F32) (hdir : e.direction = 1 ∨ e.direction = -1)
    (m : Fin MAX_FLOORS) (hm : Candidate calls e m) :
    ((1 - 1 / 2 ^ 21) * exactCallEff calls e m ≤ (callEff calls e m).val ∧
      (callEff calls e m).val ≤ (1 + 1 / 2 ^ 21) * exactCallEff calls e m) ∧
    (BestCandidate calls e m → ¬ callEff calls e m < efficiency_threshold →
      (smartstop_decide_next_floor calls e s efficiency_threshold).1 = fl m) ∧
    ((∀ j, Candidate calls e j → j ≠ m →
        (1 + 1 / 2 ^ 21) * exactCallEff calls e j
          < (1 - 1 / 2 ^ 21) * exactCallEff calls e m) →
      efficiency_threshold.val ≤ (1 - 1 / 2 ^ 21) * exactCallEff calls e m →
      (smartstop_decide_next_floor calls e s efficiency_threshold).1 = fl m) ∧
    (smartstop_decide_next_floor exampleCalls ⟨5, 1, 0⟩ s F32.c0_65).1 = 6 := by
  have key : ∀ (calls : Calls) (e : ElevatorState) (thr : F32),
      (e.direction = 1 ∨ e.direction = -1) → ∀ m, BestCandidate calls e m →
      ¬ callEff calls e m < thr → (smartstop_decide_next_floor calls e s thr).1 = fl m := by
    intro calls e thr hdir m hm hthr
    rcases decide_foldl calls e hdir with ⟨hno, -⟩ | ⟨m', hm', hres⟩
    · exact absurd hm.1 (hno m)
    · have hmm : m' = m := bestCandidate_unique calls e m' m hm' hm
      subst hmm
      have hb : F32.blt (callEff calls e m') thr = false := by
        rw [Bool.eq_false_iff, Ne, F32.blt_iff]; exact hthr
      simp only [smartstop_decide_next_floor, hres, fl_ne_neg_one, if_false, hb,
        Bool.false_eq_true]
  have hacc : ∀ j, Candidate calls e j →
      (1 - 1 / 2 ^ 21) * exactCallEff calls e j ≤ (callEff calls e j).val ∧
      (callEff calls e j).val ≤ (1 + 1 / 2 ^ 21) * exactCallEff calls e j :=
    fun j hj => efficiency_within _ _ _ (le_of_lt hj.2.2)
  refine ⟨hacc m hm, key calls e efficiency_threshold hdir m, ?_,
    key exampleCalls ⟨5, 1, 0⟩ F32.c0_65 (by decide) 6 (by decide) (by decide)⟩
  intro hmargin hthr
  apply key calls e efficiency_threshold hdir m
  · refine ⟨hm, fun j hj => ?_⟩
    by_cases hjm : j = m
    · subst hjm
      right; exact ⟨rfl, le_rfl⟩
    · left
      rw [F32.lt_iff_val]
      calc (callEff calls e j).val ≤ (1 + 1 / 2 ^ 21) * exactCallEff calls e j := (hacc j hj).2
        _ < (1 - 1 / 2 ^ 21) * exactCallEff calls e m := hmargin j hj hjm
        _ ≤ (callEff calls e m).val := (hacc m hm).1
  · rw [F32.lt_iff_val]
    exact not_lt.mpr (le_trans hthr (hacc m hm).1)

theorem C4_smartstop_selects_best_witness :
    Candidate exampleCalls ⟨5, 1, 0⟩ 6 ∧
    (∀ j, Candidate exampleCalls ⟨5, 1, 0⟩ j → j ≠ 6 →
      (1 + 1 / 2 ^ 21) * exactCallEff exampleCalls ⟨5, 1, 0⟩ j
        < (1 - 1 / 2 ^ 21) * exactCallEff exampleCalls ⟨5, 1, 0⟩ 6) ∧
    F32.c0_65.val ≤ (1 - 1 / 2 ^ 21) * exactCallEff exampleCalls ⟨5, 1, 0⟩ 6 ∧
    (smartstop_decide_next_floor exampleCalls ⟨5, 1, 0⟩ ⟨0, 0, 0, 0⟩ F32.c0_65).1 = fl 6 := by
  have h6 : exactCallEff exampleCalls ⟨5, 1, 0⟩ 6 = 1 := by
    have h1 : (exampleCalls 6).est_passengers = 3 := by decide
    have h2 : fl 6 - (⟨5, 1, 0⟩ : ElevatorState).current_floor = 1 := by decide
    have h3 : (exampleCalls 6).wait_time = 0 := by decide
    unfold exactCallEff exactEfficiency
    rw [h1, h2, h3]
    norm_num
  have h9 : exactCallEff exampleCalls ⟨5, 1, 0⟩ 9 = 1 / 6 := by
    have h1 : (exampleCalls 9).est_passengers = 1 := by decide
    have h2 : fl 9 - (⟨5, 1, 0⟩ : ElevatorState).current_floor = 4 := by decide
    have h3 : (exampleCalls 9).wait_time = 0 := by decide
    unfold exactCallEff exactEfficiency
    rw [h1, h2, h3]
    norm_num
  have hc : ∀ j, Candidate exampleCalls ⟨5, 1, 0⟩ j → j = 6 ∨ j = 9 := by decide
  have hmargin : ∀ j, Candidate exampleCalls ⟨5, 1, 0⟩ j → j ≠ 6 →
      (1 + 1 / 2 ^ 21) * exactCallEff exampleCalls ⟨5, 1, 0⟩ j
        < (1 - 1 / 2 ^ 21) * exactCallEff exampleCalls ⟨5, 1, 0⟩ 6 := by
    intro j hj hne
    rcases hc j hj with rfl | rfl
    · exact absurd rfl hne
    · rw [h6, h9]; norm_num
  have hthr : F32.c0_65.val ≤ (1 - 1 / 2 ^ 21) * exactCallEff exampleCalls ⟨5, 1, 0⟩ 6 := by
    have hv : F32.c0_65 = ⟨10905190, -24⟩ := by decide
    have ht : Int.toNat 24 = 24 := rfl
    rw [h6, hv]
    norm_num [F32.val, F32.num, F32.den, ht]
  exact ⟨by decide, hmargin, hthr,
    (C4_smartstop_selects_best exampleCalls ⟨5, 1, 0⟩ ⟨0, 0, 0, 0⟩ F32.c0_65 (by decide) 6
      (by decide)).2.2.1 hmargin hthr⟩

/-- C6. SmartStop only looks strictly ahead: for a car going up or down, a floor `f`
other than `-1` returned by `smartstop_decide_next_floor` is a floor of the building whose
call is active with passengers waiting, above the car when it goes up and below it when
it goes down; it is never the current floor. -/
theorem C6_smartstop_strictly_ahead (calls : Calls) (e : ElevatorState) (s : Stats)
    (efficiency_threshold : F32) (hdir : e.direction = 1 ∨ e.direction = -1) (f : Int)
    (hret : (smartstop_decide_next_floor calls e s efficiency_threshold).1 = f)
    (hf : f ≠ -1) :
    0 ≤ f ∧ f < (MAX_FLOORS : Int) ∧ f ≠ e.current_floor ∧
    (e.direction = 1 → f > e.current_floor) ∧ (e.direction = -1 → f < e.current_floor) ∧
    ∃ i, fl i = f ∧ (calls i).active = true ∧ (calls i).est_passengers > 0 := by
  rcases decide_foldl calls e hdir with ⟨-, hres⟩ | ⟨m, hm, hres⟩
  · simp only [smartstop_decide_next_floor, hres, if_true] at hret
    exact absurd hret.symm hf
  · simp only [smartstop_decide_next_floor, hres, fl_ne_neg_one, if_false] at hret
    split_ifs at hret with hb
    · exact absurd hret.symm hf
    · obtain ⟨⟨hact, hah, hest⟩, -⟩ := hm
      have hfm : fl m = f := hret
      have h1 : 0 ≤ fl m ∧ fl m < (MAX_FLOORS : Int) := by
        unfold fl; constructor <;> omega
      unfold Ahead at hah
      rw [← hfm]
      refine ⟨h1.1, h1.2, by omega, by omega, by omega, m, rfl, hact, hest⟩

theorem C6_smartstop_strictly_ahead_witness :
    (0 : Int) ≤ 6 ∧ (6 : Int) < (MAX_FLOORS : Int) ∧ (6 : Int) ≠ 5 ∧
    ((1 : Int) = 1 → (6 : Int) > 5) ∧ ((1 : Int) = -1 → (6 : Int) < 5) ∧
    ∃ i, fl i = 6 ∧ (exampleCalls i).active = true ∧ (exampleCalls i).est_passengers > 0 :=
  C6_smartstop_strictly_ahead exampleCalls ⟨5, 1, 0⟩ ⟨0, 0, 0, 0⟩ F32.c0_65 (by decide) 6
    (by decide) (by decide)

/-- C7. Manual override priority: for a car inside the building and a state with at least
one manual flag, if the emergency block does not return then
`choose_next_floor_realistic` returns the flagged floor closest to the car (the lowest
floor among equally distant ones), whatever calls wait nearby or ahead; and if the
emergency floor qualifies for immediate return, that floor is returned instead. -/
theorem C7_manual_override (fuel : Nat) (w : World) (hfuel : MAX_FLOORS ≤ fuel)
    (h0 : 0 ≤ w.elevator.current_floor) (h9 : w.elevator.current_floor < (MAX_FLOORS : Int))
    (hflag : ∃ i, Flagged w i) :
    (EmergencySilent w →
      ∃ m, ClosestFlagged w m ∧ choose_next_floor_realistic fuel w = .ok (fl m, w)) ∧
    (∀ f, LongestWaiting w.calls f → (w.calls f).wait_time ≥ EMERGENCY_WAIT_TIME →
      (pathCount w.calls w.elevator.current_floor (fl f) < 2 ∨ w.elevator.occupancy < 2) →
      choose_next_floor_realistic fuel w = .ok (fl f, w)) := by
  constructor
  · intro hs
    rw [emergency_silent fuel w hfuel h0 h9 hs]
    obtain ⟨i, hi⟩ := hflag
    rcases button_foldl w h0 h9 with ⟨hno, -⟩ | ⟨m, hm, hres⟩
    · exact absurd hi (hno i)
    · refine ⟨m, hm, ?_⟩
      simp only [choose_after_emergency, hres, ne_eq, fl_ne_neg_one, not_false_eq_true,
        if_true]
  · intro f hf hw hq
    exact emergency_return fuel w f hfuel h0 h9 hf hw hq

theorem C7_manual_override_witness :
    (∃ i, Flagged (flaggedWorld exampleCalls ⟨5, 1, 3⟩) i) ∧
    EmergencySilent (flaggedWorld exampleCalls ⟨5, 1, 3⟩) ∧
    (∃ m, ClosestFlagged (flaggedWorld exampleCalls ⟨5, 1, 3⟩) m ∧
      choose_next_floor_realistic 10 (flaggedWorld exampleCalls ⟨5, 1, 3⟩)
        = .ok (fl m, flaggedWorld exampleCalls ⟨5, 1, 3⟩)) ∧
    LongestWaiting urgentTable 8 ∧
    choose_next_floor_realistic 10 (flaggedWorld urgentTable ⟨5, 1, 3⟩)
      = .ok (fl 8, flaggedWorld urgentTable ⟨5, 1, 3⟩) :=
  ⟨⟨2, by decide⟩, by decide,
    (C7_manual_override 10 (flaggedWorld exampleCalls ⟨5, 1, 3⟩) (by decide) (by decide)
      (by decide) ⟨2, by decide⟩).1 (by decide),
    by decide,
    (C7_manual_override 10 (flaggedWorld urgentTable ⟨5, 1, 3⟩) (by decide) (by decide)
      (by decide) ⟨2, by decide⟩).2 8 (by decide) (by decide) (Or.inl (by decide))⟩

/-- C8, as stated, fails: car at floor 5 going up and empty, calls of one passenger at
floors 2 and 7 only, the one at floor 2 having waited 15 cycles: the emergency block
returns floor 2. -/
theorem C8_counterexample :
    (∀ i, Waiting (twoCalls 1 15 1 0) i ↔ (i = 2 ∨ i = 7)) ∧
    (choose_next_floor_realistic 10 (plainWorld (twoCalls 1 15 1 0) ⟨5, 1, 0⟩)).map Prod.fst
      = .ok 2 := by
  decide

/-- C8, amended. For a car at floor 5 going up and empty, with no manual flag and no
internal destination, and waiting calls at floors 2 and 7 only,
`choose_next_floor_realistic` leaves the state as it was and returns 7, unless the call
at floor 2 has waited at least 15 cycles and at least as long as the call at floor 7: it
then returns 2. -/
theorem C8_returns_seven (fuel : Nat) (w : World) (hfuel : MAX_FLOORS ≤ fuel)
    (hcf : w.elevator.current_floor = 5) (hdir : w.elevator.direction = 1)
    (hocc : w.elevator.occupancy = 0)
    (hbtnA : ∀ i, w.internal_from_button i = false)
    (hbtnB : ∀ i, w.external_from_button i = false)
    (hint : ∀ i, w.internal_calls i = false)
    (hcalls : ∀ i, Waiting w.calls i ↔ (i = 2 ∨ i = 7)) :
    choose_next_floor_realistic fuel w
      = .ok (if (w.calls 2).wait_time ≥ EMERGENCY_WAIT_TIME ∧
                (w.calls 7).wait_time ≤ (w.calls 2).wait_time then 2 else 7, w) := by
  have h0 : 0 ≤ w.elevator.current_floor := by omega
  have h9 : w.elevator.current_floor < (MAX_FLOORS : Int) := by rw [hcf]; decide
  have hw2 : Waiting w.calls 2 := (hcalls 2).mpr (Or.inl rfl)
  have hw7 : Waiting w.calls 7 := (hcalls 7).mpr (Or.inr rfl)
  by_cases h2 : (w.calls 2).wait_time ≥ EMERGENCY_WAIT_TIME ∧
      (w.calls 7).wait_time ≤ (w.calls 2).wait_time
  · rw [if_pos h2]
    have hl : LongestWaiting w.calls 2 := by
      refine ⟨hw2, fun j hj => ?_⟩
      rcases (hcalls j).mp hj with rfl | rfl
      · right; exact ⟨rfl, le_rfl⟩
      · rcases lt_or_eq_of_le h2.2 with h | h
        · left; exact h
        · right; exact ⟨h, by decide⟩
    exact emergency_return fuel w 2 hfuel h0 h9 hl h2.1 (Or.inr (by omega))
  · rw [if_neg h2]
    by_cases h7 : (w.calls 7).wait_time ≥ EMERGENCY_WAIT_TIME
    · have hl : LongestWaiting w.calls 7 := by
        refine ⟨hw7, fun j hj => ?_⟩
        rcases (hcalls j).mp hj with rfl | rfl
        · left
          simp only [EMERGENCY_WAIT_TIME] at h2 h7
          omega
        · right; exact ⟨rfl, le_rfl⟩
      exact emergency_return fuel w 7 hfuel h0 h9 hl h7 (Or.inr (by omega))
    · have hnone : ∀ i, Waiting w.calls i → (w.calls i).wait_time < EMERGENCY_WAIT_TIME := by
        intro i hi
        simp only [EMERGENCY_WAIT_TIME] at h2 h7 ⊢
        rcases (hcalls i).mp hi with rfl | rfl <;> omega
      rw [no_emergency fuel w hnone]
      have hbtn : floors.foldl (button_step w) (999, -1) = (999, -1) := by
        rcases button_foldl w h0 h9 with ⟨-, hres⟩ | ⟨m, hm, -⟩
        · exact hres
        · rcases hm.1 with h | h
          · rw [hbtnA m] at h; exact absurd h (by decide)
          · rw [hbtnB m] at h; exact absurd h (by decide)
      have hany : any_internal_call w.internal_calls = false := by
        unfold any_internal_call
        rw [List.any_eq_false]
        intro i _
        simp [hint i]
      have hn5 : call_waiting w.calls 5 = false := by
        have := call_waiting_fl w.calls 5
        rw [show fl 5 = 5 from rfl] at this
        rw [this, decide_eq_false_iff_not, hcalls 5]
        decide
      have hn6 : call_waiting w.calls 6 = false := by
        have := call_waiting_fl w.calls 6
        rw [show fl 6 = 6 from rfl] at this
        rw [this, decide_eq_false_iff_not, hcalls 6]
        decide
      have hy7 : call_waiting w.calls 7 = true := by
        have := call_waiting_fl w.calls 7
        rw [show fl 7 = 7 from rfl] at this
        rw [this, decide_eq_true_iff]
        exact hw7
      have hprox : proximity_choice w.calls w.elevator = some 7 := by
        simp [proximity_choice, hcf, hdir, hn5, hn6, hy7]
      simp [choose_after_emergency, hbtn, internal_choice, hany, hocc, hprox]

theorem C8_returns_seven_witness :
    (∀ i, Waiting (twoCalls 3 14 1 2) i ↔ (i = 2 ∨ i = 7)) ∧
    choose_next_floor_realistic 10 (plainWorld (twoCalls 3 14 1 2) ⟨5, 1, 0⟩)
      = .ok (if ((plainWorld (twoCalls 3 14 1 2) ⟨5, 1, 0⟩).calls 2).wait_time
                  ≥ EMERGENCY_WAIT_TIME ∧
                ((plainWorld (twoCalls 3 14 1 2) ⟨5, 1, 0⟩).calls 7).wait_time
                  ≤ ((plainWorld (twoCalls 3 14 1 2) ⟨5, 1, 0⟩).calls 2).wait_time
             then 2 else 7, plainWorld (twoCalls 3 14 1 2) ⟨5, 1, 0⟩) :=
  ⟨by decide,
    C8_returns_seven 10 (plainWorld (twoCalls 3 14 1 2) ⟨5, 1, 0⟩) (by decide) rfl rfl rfl
      (fun _ => rfl) (fun _ => rfl) (fun _ => rfl) (by decide)⟩

/-- C9. Evaluation at `staleTable`, car at floor 9, no new call drawn: the table satisfies
the inactive-call invariant, and so does the table aged by `generate_random_hall_calls`,
but `cleanup_empty_calls` then deactivates floor 3 and leaves `wait_time = 1` there, so the
invariant no longer holds. -/
theorem C9_cleanup_keeps_wait_time :
    InactiveClean staleTable ∧
    InactiveClean
      (generate_random_hall_calls staleTable ⟨9, -1, 0⟩ .TRAFFIC_MEDIUM (fun _ => 50) 0).1 ∧
    cleanup_empty_calls
      (generate_random_hall_calls staleTable ⟨9, -1, 0⟩ .TRAFFIC_MEDIUM (fun _ => 50) 0).1 3
        = ⟨false, 3, 0, 1⟩ ∧
    ¬ InactiveClean (cleanup_empty_calls
      (generate_random_hall_calls staleTable ⟨9, -1, 0⟩ .TRAFFIC_MEDIUM (fun _ => 50) 0).1) := by
  decide

/-- C10. `cleanup_empty_calls` is idempotent, and after one application no floor holds an
active call with `est_passengers ≤ 0`. -/
theorem C10_cleanup_idempotent (calls : Calls) :
    cleanup_empty_calls (cleanup_empty_calls calls) = cleanup_empty_calls calls ∧
    ∀ i, ¬((cleanup_empty_calls calls i).active = true ∧
            (cleanup_empty_calls calls i).est_passengers ≤ 0) := by
  constructor
  · funext i
    rw [cleanup_empty_calls_apply, cleanup_empty_calls_apply, cleanup_call_idem]
  · intro i
    rw [cleanup_empty_calls_apply]
    unfold cleanup_call
    split <;> simp_all

/-- C11. Internal destinations rule: for a car inside the building going up or down, when
the emergency block does not return, no manual flag is set and an internal destination is
pending, `choose_next_floor_realistic` returns the destination closest to the car among
those whose offset is zero or has the sign of the direction; when no destination lies in
that direction it returns the destination closest to the car; the lowest floor wins among
equally distant destinations, and the state is left as it was. -/
theorem C11_internal_destinations (fuel : Nat) (w : World) (hfuel : MAX_FLOORS ≤ fuel)
    (h0 : 0 ≤ w.elevator.current_floor) (h9 : w.elevator.current_floor < (MAX_FLOORS : Int))
    (hdir : w.elevator.direction = 1 ∨ w.elevator.direction = -1)
    (hsilent : EmergencySilent w) (hflag : NoFlag w)
    (hint : ∃ i, w.internal_calls i = true) :
    ((∃ i, w.internal_calls i = true ∧ InDirection w.elevator i) →
      ∃ m, Closest (fun i => w.internal_calls i = true ∧ InDirection w.elevator i)
          w.elevator.current_floor m ∧
        choose_next_floor_realistic fuel w = .ok (fl m, w)) ∧
    ((¬∃ i, w.internal_calls i = true ∧ InDirection w.elevator i) →
      ∃ m, Closest (fun i => w.internal_calls i = true) w.elevator.current_floor m ∧
        choose_next_floor_realistic fuel w = .ok (fl m, w)) := by
  obtain ⟨i0, hi0⟩ := hint
  have hany := any_internal_call_eq_true w.internal_calls i0 hi0
  have hbtn := button_foldl_noFlag w h0 h9 hflag
  have hscan1 := dist_scan_foldl
    (fun i => w.internal_calls i = true ∧ InDirection w.elevator i) w.elevator.current_floor
    (internal_dir_step w) (fun acc i => internal_dir_step_spec w hdir acc i) h0 h9
  have hscan2 := dist_scan_foldl (fun i => w.internal_calls i = true)
    w.elevator.current_floor (internal_any_step w)
    (fun acc i => internal_any_step_spec w acc i) h0 h9
  rw [emergency_silent fuel w hfuel h0 h9 hsilent]
  constructor
  · rintro ⟨i, hi⟩
    rcases hscan1 with ⟨hno, -⟩ | ⟨m, hm, hres⟩
    · exact absurd hi (hno i)
    · refine ⟨m, hm, ?_⟩
      have hic : internal_choice w = fl m := by
        simp only [internal_choice, hany, if_true, hres, fl_ne_neg_one, if_false]
      simp only [choose_after_emergency, hbtn, ne_eq, not_true_eq_false, if_false, hic,
        fl_ne_neg_one, not_false_eq_true, if_true]
  · intro hnone
    rcases hscan1 with ⟨-, hres1⟩ | ⟨m, hm, -⟩
    · rcases hscan2 with ⟨hno, -⟩ | ⟨m, hm, hres2⟩
      · exact absurd hi0 (hno i0)
      · refine ⟨m, hm, ?_⟩
        have hic : internal_choice w = fl m := by
          simp only [internal_choice, hany, if_true, hres1, hres2]
        simp only [choose_after_emergency, hbtn, ne_eq, not_true_eq_false, if_false, hic,
          fl_ne_neg_one, not_false_eq_true, if_true]
    · exact absurd ⟨m, hm.1⟩ hnone

theorem C11_internal_destinations_witness :
    (∃ m, Closest (fun i => (destinationWorld exampleCalls ⟨5, 1, 3⟩).internal_calls i = true ∧
          InDirection (destinationWorld exampleCalls ⟨5, 1, 3⟩).elevator i) 5 m ∧
        choose_next_floor_realistic 10 (destinationWorld exampleCalls ⟨5, 1, 3⟩)
          = .ok (fl m, destinationWorld exampleCalls ⟨5, 1, 3⟩)) ∧
    (∃ m, Closest (fun i => (destinationWorld exampleCalls ⟨2, -1, 3⟩).internal_calls i = true)
          2 m ∧
        choose_next_floor_realistic 10 (destinationWorld exampleCalls ⟨2, -1, 3⟩)
          = .ok (fl m, destinationWorld exampleCalls ⟨2, -1, 3⟩)) :=
  ⟨(C11_internal_destinations 10 (destinationWorld exampleCalls ⟨5, 1, 3⟩) (by decide)
      (by decide) (by decide) (by decide) (by decide) (by decide) ⟨3, by decide⟩).1
      ⟨8, by decide⟩,
    (C11_internal_destinations 10 (destinationWorld exampleCalls ⟨2, -1, 3⟩) (by decide)
      (by decide) (by decide) (by decide) (by decide) (by decide) ⟨3, by decide⟩).2
      (by decide)⟩

/-- C12, as stated, fails: on the SmartStop example with all counters at zero,
`total_cycles` is 1 after the call. -/
theorem C12_counterexample :
    (smartstop_decide_next_floor exampleCalls ⟨5, 1, 0⟩ ⟨0, 0, 0, 0⟩ F32.c0_65).2.2.2.total_cycles
      = 1 ∧
    (⟨0, 0, 0, 0⟩ : Stats).total_cycles = 0 := by
  decide

/-- C12, amended. Stats frame of SmartStop: `smartstop_decide_next_floor` adds exactly
one to `total_cycles`, leaves `total_stops` and `total_boarded` as they were, changes
`skipped_stops` by zero or one, and changes neither the call table nor the elevator
state. -/
theorem C12_smartstop_frame (calls : Calls) (e : ElevatorState) (s : Stats)
    (efficiency_threshold : F32) :
    (smartstop_decide_next_floor calls e s efficiency_threshold).2.2.2.total_cycles
      = s.total_cycles + 1 ∧
    (smartstop_decide_next_floor calls e s efficiency_threshold).2.2.2.total_stops
      = s.total_stops ∧
    (smartstop_decide_next_floor calls e s efficiency_threshold).2.2.2.total_boarded
      = s.total_boarded ∧
    ((smartstop_decide_next_floor calls e s efficiency_threshold).2.2.2.skipped_stops
        = s.skipped_stops ∨
      (smartstop_decide_next_floor calls e s efficiency_threshold).2.2.2.skipped_stops
        = s.skipped_stops + 1) ∧
    (smartstop_decide_next_floor calls e s efficiency_threshold).2.1 = calls ∧
    (smartstop_decide_next_floor calls e s efficiency_threshold).2.2.1 = e := by
  simp only [smartstop_decide_next_floor]
  split_ifs <;> simp

/-- C13. Traffic generation frame and aging: `generate_random_hall_calls` leaves the call
at the car's floor as it was; at every other floor an active call keeps its fields and
waits one cycle more; at every other floor without an active call the record is unchanged
or becomes an active call with `wait_time = 0` and an estimate in the range of the traffic
mode (Low 0..1, Medium 0..3, High 0..5). -/
theorem C13_generate_frame (calls : Calls) (e : ElevatorState) (mode : TrafficMode)
    (rand : Nat → Nat) (pos : Nat) (i : Fin MAX_FLOORS) :
    (fl i = e.current_floor →
      (generate_random_hall_calls calls e mode rand pos).1 i = calls i) ∧
    (fl i ≠ e.current_floor → (calls i).active = true →
      (generate_random_hall_calls calls e mode rand pos).1 i
        = { calls i with wait_time := (calls i).wait_time + 1 }) ∧
    (fl i ≠ e.current_floor → (calls i).active = false →
      (generate_random_hall_calls calls e mode rand pos).1 i = calls i ∨
      (((generate_random_hall_calls calls e mode rand pos).1 i).active = true ∧
        ((generate_random_hall_calls calls e mode rand pos).1 i).wait_time = 0 ∧
        0 ≤ ((generate_random_hall_calls calls e mode rand pos).1 i).est_passengers ∧
        ((generate_random_hall_calls calls e mode rand pos).1 i).est_passengers
          ≤ modeMax mode)) := by
  obtain ⟨p, hp⟩ := (generate_foldl_apply e mode rand floors floors_nodup (calls, pos) i).2
    (mem_floors i)
  have hres : (generate_random_hall_calls calls e mode rand pos).1 i
      = generate_entry e mode rand (calls i) p i := hp
  rw [hres]
  refine ⟨?_, ?_, ?_⟩
  · intro h
    simp only [generate_entry, h, if_true]
  · intro h ha
    simp only [generate_entry, h, if_false, ha, Bool.not_true, Bool.false_eq_true]
  · intro h ha
    simp only [generate_entry, h, if_false, ha, Bool.not_false, if_true]
    split_ifs
    · right
      have := estimate_passengers_range mode (rand (p + 1))
      exact ⟨rfl, rfl, this.1, this.2⟩
    · left; rfl

theorem C13_generate_frame_witness :
    ((generate_random_hall_calls exampleCalls ⟨9, -1, 0⟩ .TRAFFIC_HIGH (fun _ => 7) 0).1 9
        = exampleCalls 9) ∧
    ((generate_random_hall_calls exampleCalls ⟨9, -1, 0⟩ .TRAFFIC_HIGH (fun _ => 7) 0).1 6
        = { exampleCalls 6 with wait_time := (exampleCalls 6).wait_time + 1 }) ∧
    ((generate_random_hall_calls exampleCalls ⟨9, -1, 0⟩ .TRAFFIC_HIGH (fun _ => 7) 0).1 2
        = exampleCalls 2 ∨
      (((generate_random_hall_calls exampleCalls ⟨9, -1, 0⟩ .TRAFFIC_HIGH (fun _ => 7) 0).1
          2).active = true ∧
        ((generate_random_hall_calls exampleCalls ⟨9, -1, 0⟩ .TRAFFIC_HIGH (fun _ => 7) 0).1
          2).wait_time = 0 ∧
        0 ≤ ((generate_random_hall_calls exampleCalls ⟨9, -1, 0⟩ .TRAFFIC_HIGH (fun _ => 7)
          0).1 2).est_passengers ∧
        ((generate_random_hall_calls exampleCalls ⟨9, -1, 0⟩ .TRAFFIC_HIGH (fun _ => 7) 0).1
          2).est_passengers ≤ modeMax .TRAFFIC_HIGH)) :=
  ⟨(C13_generate_frame exampleCalls ⟨9, -1, 0⟩ .TRAFFIC_HIGH (fun _ => 7) 0 9).1 (by decide),
    (C13_generate_frame exampleCalls ⟨9, -1, 0⟩ .TRAFFIC_HIGH (fun _ => 7) 0 6).2.1
      (by decide) (by decide),
    (C13_generate_frame exampleCalls ⟨9, -1, 0⟩ .TRAFFIC_HIGH (fun _ => 7) 0 2).2.2
      (by decide) (by decide)⟩

/-- C14. Disembark semantics: with at most 2 passengers `simulate_disembark` changes
nothing; with more, passengers leave exactly when the floor is a pending internal
destination (then removed) or `r1 % 100` is under the exit probability (35, or 70 at
floor 0 and at the top floor, plus 25 with a hall call); the number leaving is
`min (1 + r2 % 4) occupancy`, between 1 and 4, and occupancy drops by that number;
otherwise nothing changes. -/
theorem C14_disembark (internal_calls : Flags) (e : ElevatorState) (floor : Fin MAX_FLOORS)
    (has_call : Bool) (r1 r2 : Nat) :
    (e.occupancy ≤ 2 →
      simulate_disembark internal_calls e floor has_call r1 r2 = (internal_calls, e)) ∧
    (e.occupancy > 2 → Leaves internal_calls floor has_call r1 →
      1 ≤ min (1 + ((r2 % 4 : Nat) : Int)) e.occupancy ∧
      min (1 + ((r2 % 4 : Nat) : Int)) e.occupancy ≤ 4 ∧
      (simulate_disembark internal_calls e floor has_call r1 r2).2
        = { e with occupancy := e.occupancy - min (1 + ((r2 % 4 : Nat) : Int)) e.occupancy } ∧
      (simulate_disembark internal_calls e floor has_call r1 r2).1
        = (if internal_calls floor then Function.update internal_calls floor false
           else internal_calls)) ∧
    (e.occupancy > 2 → ¬Leaves internal_calls floor has_call r1 →
      simulate_disembark internal_calls e floor has_call r1 r2 = (internal_calls, e)) := by
  have hr : ((r2 % 4 : Nat) : Int) = (r2 : Int) % 4 := by push_cast; rfl
  have hr0 : 0 ≤ (r2 : Int) % 4 := Int.emod_nonneg _ (by decide)
  have hr4 : (r2 : Int) % 4 < 4 := Int.emod_lt_of_pos _ (by decide)
  refine ⟨?_, ?_, ?_⟩
  · intro h
    simp only [simulate_disembark, h, if_true]
  · intro h hl
    have hn : ¬e.occupancy ≤ 2 := by omega
    rw [hr]
    refine ⟨by rw [min_def]; split <;> omega, by rw [min_def]; split <;> omega, ?_, ?_⟩
    · unfold Leaves exitProbability at hl
      simp only [simulate_disembark, hn, if_false, MIN_DISEMBARK_PASSENGERS,
        MAX_DISEMBARK_PASSENGERS, min_def]
      by_cases hi : internal_calls floor = true
      · simp only [hi, if_true]
        split_ifs <;> first | rfl | (congr 1; omega)
      · have hi' : internal_calls floor = false := by simpa using hi
        have hlt := hl.resolve_left hi
        simp only [hi', Bool.false_eq_true, if_false]
        cases has_call <;>
          simp only [Bool.false_eq_true, if_false, if_true, add_zero] at hlt ⊢ <;>
          simp only [hlt, decide_True, if_true] <;>
          split_ifs <;> first | rfl | (congr 1; omega)
    · unfold Leaves exitProbability at hl
      simp only [simulate_disembark, hn, if_false]
      by_cases hi : internal_calls floor = true
      · simp only [hi, if_true]
      · have hi' : internal_calls floor = false := by simpa using hi
        simp only [hi', Bool.false_eq_true, if_false]
        split_ifs <;> rfl
  · intro h hl
    have hn : ¬e.occupancy ≤ 2 := by omega
    unfold Leaves exitProbability at hl
    push_neg at hl
    have hi' : internal_calls floor = false := by simpa using hl.1
    have hlt := hl.2
    simp only [simulate_disembark, hn, if_false, hi', Bool.false_eq_true]
    cases has_call <;>
      simp only [Bool.false_eq_true, if_false, if_true, add_zero] at hlt ⊢ <;>
      simp only [not_lt.mpr hlt, decide_False, Bool.false_eq_true, if_false]

theorem C14_disembark_witness :
    Leaves (fun _ => false) 0 true 94 ∧
    (simulate_disembark (fun _ => false) ⟨0, 1, 5⟩ 0 true 94 7).2
      = { (⟨0, 1, 5⟩ : ElevatorState) with
          occupancy := 5 - min (1 + ((7 % 4 : Nat) : Int)) 5 } ∧
    simulate_disembark (fun _ => false) ⟨0, 1, 2⟩ 0 true 94 7 = (fun _ => false, ⟨0, 1, 2⟩) :=
  ⟨by decide,
    ((C14_disembark (fun _ => false) ⟨0, 1, 5⟩ 0 true 94 7).2.1 (by decide) (by decide)).2.2.1,
    (C14_disembark (fun _ => false) ⟨0, 1, 2⟩ 0 true 94 7).1 (by decide)⟩

/-- C15. Servicing movement: for a car and a target inside the building, the direction
is first set toward the target when it differs from the current floor; the movement loop
then ends after exactly `|target_floor - current_floor|` iterations with the car at the
target, and `skipped_stops` has grown by the number of floors strictly between the start
floor and the target that hold a waiting call. -/
theorem C15_servicing_movement (calls : Calls) (e : ElevatorState) (s : Stats)
    (target_floor : Int) (fuel : Nat) (hfuel : MAX_FLOORS ≤ fuel)
    (h0 : 0 ≤ e.current_floor) (h9 : e.current_floor < (MAX_FLOORS : Int))
    (ht0 : 0 ≤ target_floor) (ht9 : target_floor < (MAX_FLOORS : Int)) :
    (target_floor > e.current_floor → (set_direction e target_floor).direction = 1) ∧
    (target_floor < e.current_floor → (set_direction e target_floor).direction = -1) ∧
    (target_floor = e.current_floor → set_direction e target_floor = e) ∧
    (∃ final,
      move_loop calls target_floor fuel (set_direction e target_floor, s) = .ok final ∧
      final = (move_body calls target_floor)^[(target_floor - e.current_floor).natAbs]
        (set_direction e target_floor, s) ∧
      final.1.current_floor = target_floor ∧
      final.2.skipped_stops
        = s.skipped_stops + (strictlyBetweenCount calls e.current_floor target_floor : Int)) ∧
    (∀ k, k < (target_floor - e.current_floor).natAbs →
      ((move_body calls target_floor)^[k]
        (set_direction e target_floor, s)).1.current_floor ≠ target_floor) := by
  obtain ⟨m1, -, -, -, m5, m6, m7⟩ :=
    service_move calls e s target_floor fuel hfuel h0 h9 ht0 ht9
  refine ⟨?_, ?_, ?_, ⟨_, m6, rfl, m1, m7⟩, m5⟩
  · intro h; unfold set_direction; rw [if_pos h]
  · intro h; unfold set_direction; rw [if_neg (by omega), if_pos h]
  · intro h; unfold set_direction; rw [if_neg (by omega), if_neg (by omega)]

theorem C15_servicing_movement_witness :
    (∃ final,
      move_loop pathTable 8 10 (set_direction ⟨4, -1, 3⟩ 8, ⟨0, 0, 0, 0⟩) = .ok final ∧
      final = (move_body pathTable 8)^[((8 : Int) - 4).natAbs]
        (set_direction ⟨4, -1, 3⟩ 8, ⟨0, 0, 0, 0⟩) ∧
      final.1.current_floor = 8 ∧
      final.2.skipped_stops = 0 + (strictlyBetweenCount pathTable 4 8 : Int)) ∧
    strictlyBetweenCount pathTable 4 8 = 2 :=
  ⟨(C15_servicing_movement pathTable ⟨4, -1, 3⟩ ⟨0, 0, 0, 0⟩ 8 10 (by decide) (by decide)
      (by decide) (by decide) (by decide)).2.2.2.1, by decide⟩

/-- C16. Proximity rule: for a car inside the building, when the emergency block does not
return, no manual flag is set, no internal destination is pending and the forced-disembark
rule does not fire, if a call waits at offset `k` in {0, 1, 2} along the direction and at
no smaller offset, `choose_next_floor_realistic` returns that floor and leaves the whole
state, Stats included, as it was, whatever the occupancy. -/
theorem C16_proximity (fuel : Nat) (w : World) (hfuel : MAX_FLOORS ≤ fuel)
    (h0 : 0 ≤ w.elevator.current_floor) (h9 : w.elevator.current_floor < (MAX_FLOORS : Int))
    (hsilent : EmergencySilent w) (hflag : NoFlag w) (hint : NoInternal w)
    (hforced : ¬ForcedFires w) (k : Int) (hk0 : 0 ≤ k) (hk2 : k ≤ 2)
    (hwait : WaitingAt w.calls (w.elevator.current_floor + k * w.elevator.direction))
    (hfirst : ∀ j : Int, 0 ≤ j → j < k →
      ¬WaitingAt w.calls (w.elevator.current_floor + j * w.elevator.direction)) :
    choose_next_floor_realistic fuel w
      = .ok (w.elevator.current_floor + k * w.elevator.direction, w) := by
  rw [emergency_silent fuel w hfuel h0 h9 hsilent,
    choose_after_emergency_plain w h0 h9 hflag hint, if_neg hforced]
  unfold choose_from_proximity
  rw [proximity_choice_first w.calls w.elevator k hk0 hk2 hwait hfirst]

theorem C16_proximity_witness :
    WaitingAt (plainWorld nearCall ⟨5, 1, 6⟩).calls (5 + 2 * 1) ∧
    choose_next_floor_realistic 10 (plainWorld nearCall ⟨5, 1, 6⟩)
      = .ok (5 + 2 * 1, plainWorld nearCall ⟨5, 1, 6⟩) :=
  ⟨by decide,
    C16_proximity 10 (plainWorld nearCall ⟨5, 1, 6⟩) (by decide) (by decide) (by decide)
      (by decide) (by decide) (by decide) (by decide) 2 (by decide) (by decide) (by decide)
      (by
        intro j hj0 hj2
        have hj : j = 0 ∨ j = 1 := by omega
        rcases hj with rfl | rfl <;> decide)⟩

/-- C17. Forced disembark under saturation: for a car inside the building, when the
emergency block does not return, no manual flag is set and no internal destination is
pending, if the car is full and the saturation counter is at least 8 then: with
`current_floor + direction` inside the building `choose_next_floor_realistic` returns that
floor and resets the counter, whatever calls are active; with that floor outside the
building the function goes on with the proximity rule and the counter keeps its value. -/
theorem C17_forced_disembark (fuel : Nat) (w : World) (hfuel : MAX_FLOORS ≤ fuel)
    (h0 : 0 ≤ w.elevator.current_floor) (h9 : w.elevator.current_floor < (MAX_FLOORS : Int))
    (hsilent : EmergencySilent w) (hflag : NoFlag w) (hint : NoInternal w)
    (hocc : w.elevator.occupancy = ELEVATOR_CAP)
    (hcyc : w.cycles_at_full_capacity ≥ CYCLES_FULL_MAX) :
    ((0 ≤ w.elevator.current_floor + w.elevator.direction ∧
        w.elevator.current_floor + w.elevator.direction < (MAX_FLOORS : Int)) →
      choose_next_floor_realistic fuel w
        = .ok (w.elevator.current_floor + w.elevator.direction,
            { w with cycles_at_full_capacity := 0 })) ∧
    (¬(0 ≤ w.elevator.current_floor + w.elevator.direction ∧
        w.elevator.current_floor + w.elevator.direction < (MAX_FLOORS : Int)) →
      choose_next_floor_realistic fuel w = .ok (choose_from_proximity w) ∧
      (choose_from_proximity w).2.cycles_at_full_capacity = w.cycles_at_full_capacity) := by
  rw [emergency_silent fuel w hfuel h0 h9 hsilent,
    choose_after_emergency_plain w h0 h9 hflag hint]
  constructor
  · intro hin
    rw [if_pos ⟨by rw [hocc], hcyc, hin.1, hin.2⟩]
  · intro hout
    rw [if_neg (fun h => hout ⟨h.2.2.1, h.2.2.2⟩)]
    refine ⟨rfl, ?_⟩
    unfold choose_from_proximity
    split
    · rfl
    · simp only [choose_after_proximity]
      split_ifs <;> (try split) <;> rfl

theorem C17_forced_disembark_witness :
    choose_next_floor_realistic 10 (saturatedWorld exampleCalls ⟨5, 1, 8⟩ 8)
      = .ok (5 + 1, { saturatedWorld exampleCalls ⟨5, 1, 8⟩ 8 with
          cycles_at_full_capacity := 0 }) ∧
    (choose_next_floor_realistic 10 (saturatedWorld exampleCalls ⟨9, 1, 8⟩ 8)
        = .ok (choose_from_proximity (saturatedWorld exampleCalls ⟨9, 1, 8⟩ 8)) ∧
      (choose_from_proximity (saturatedWorld exampleCalls ⟨9, 1, 8⟩ 8)).2.cycles_at_full_capacity
        = 8) :=
  ⟨(C17_forced_disembark 10 (saturatedWorld exampleCalls ⟨5, 1, 8⟩ 8) (by decide) (by decide)
      (by decide) (by decide) (by decide) (by decide) rfl (by decide)).1 (by decide),
    (C17_forced_disembark 10 (saturatedWorld exampleCalls ⟨9, 1, 8⟩ 8) (by decide) (by decide)
      (by decide) (by decide) (by decide) (by decide) rfl (by decide)).2 (by decide)⟩

/-- C18. Empty-car fallback: for an empty car inside the building, when the emergency
block does not return, no manual flag is set, no internal destination is pending, no call
waits at the offsets 0, 1, 2 along the direction and SmartStop returns no floor,
`choose_next_floor_realistic` returns the waiting call closest to the car in any direction
(the lowest floor among equally distant ones) if a call waits, and `-1` if none does. -/
theorem C18_empty_car_fallback (fuel : Nat) (w : World) (hfuel : MAX_FLOORS ≤ fuel)
    (h0 : 0 ≤ w.elevator.current_floor) (h9 : w.elevator.current_floor < (MAX_FLOORS : Int))
    (hocc : w.elevator.occupancy = 0)
    (hsilent : EmergencySilent w) (hflag : NoFlag w) (hint : NoInternal w)
    (hprox : ∀ j : Int, 0 ≤ j → j ≤ 2 →
      ¬WaitingAt w.calls (w.elevator.current_floor + j * w.elevator.direction))
    (hsm : (smartstop_decide_next_floor w.calls w.elevator w.stats F32.c0_65).1 = -1) :
    ((∃ i, Waiting w.calls i) →
      ∃ m, Closest (Waiting w.calls) w.elevator.current_floor m ∧
        (choose_next_floor_realistic fuel w).map Prod.fst = .ok (fl m)) ∧
    ((¬∃ i, Waiting w.calls i) →
      (choose_next_floor_realistic fuel w).map Prod.fst = .ok (-1)) := by
  have hforced : ¬ForcedFires w := by
    intro h
    have := h.1
    rw [hocc] at this
    exact absurd this (by decide)
  have hchoose : (choose_next_floor_realistic fuel w).map Prod.fst
      = .ok (floors.foldl (fallback_step w) (999, -1)).2 := by
    rw [emergency_silent fuel w hfuel h0 h9 hsilent,
      choose_after_emergency_plain w h0 h9 hflag hint, if_neg hforced]
    unfold choose_from_proximity
    rw [proximity_choice_none w.calls w.elevator hprox]
    simp only [Except.map, choose_after_proximity_empty w hocc hsm]
  have hscan := dist_scan_foldl (Waiting w.calls) w.elevator.current_floor (fallback_step w)
    (fun acc i => fallback_step_spec w acc i) h0 h9
  rw [hchoose]
  constructor
  · rintro ⟨i, hi⟩
    rcases hscan with ⟨hno, -⟩ | ⟨m, hm, hres⟩
    · exact absurd hi (hno i)
    · exact ⟨m, hm, by rw [hres]⟩
  · intro hnone
    rcases hscan with ⟨-, hres⟩ | ⟨m, hm, -⟩
    · rw [hres]
    · exact absurd ⟨m, hm.1⟩ hnone

theorem C18_empty_car_fallback_witness :
    (∃ i, Waiting (plainWorld behindCall ⟨5, 1, 0⟩).calls i) ∧
    ∃ m, Closest (Waiting (plainWorld behindCall ⟨5, 1, 0⟩).calls) 5 m ∧
      (choose_next_floor_realistic 10 (plainWorld behindCall ⟨5, 1, 0⟩)).map Prod.fst
        = .ok (fl m) :=
  ⟨⟨0, by decide⟩,
    (C18_empty_car_fallback 10 (plainWorld behindCall ⟨5, 1, 0⟩) (by decide) (by decide)
      (by decide) rfl (by decide) (by decide) (by decide)
      (by
        intro j hj0 hj2
        have hj : j = 0 ∨ j = 1 ∨ j = 2 := by omega
        rcases hj with rfl | rfl | rfl <;> decide)
      (by decide)).1 ⟨0, by decide⟩⟩

/-- C19, as stated, fails: with a single call, of one passenger at floor 0, the car at
floor 5 going up with one passenger on board, no flag and no internal destination, none
of the rules emergency, manual, internal, forced disembark, proximity and SmartStop returns
a floor and floor 0 is the closest waiting call, yet `choose_next_floor_realistic` returns
`-1`. -/
theorem C19_counterexample :
    (plainWorld behindCall ⟨5, 1, 1⟩).elevator.occupancy ≤ 2 ∧
    EmergencySilent (plainWorld behindCall ⟨5, 1, 1⟩) ∧
    NoFlag (plainWorld behindCall ⟨5, 1, 1⟩) ∧
    NoInternal (plainWorld behindCall ⟨5, 1, 1⟩) ∧
    ¬ForcedFires (plainWorld behindCall ⟨5, 1, 1⟩) ∧
    proximity_choice behindCall ⟨5, 1, 1⟩ = none ∧
    (smartstop_decide_next_floor behindCall ⟨5, 1, 1⟩ ⟨0, 0, 0, 0⟩ F32.c0_65).1 = -1 ∧
    Closest (Waiting behindCall) 5 0 ∧
    (choose_next_floor_realistic 10 (plainWorld behindCall ⟨5, 1, 1⟩)).map Prod.fst
      = .ok (-1) := by
  decide

/-- C19, amended. The fallback is that of the empty car: for a car inside the building
with at most 2 passengers, when the emergency block does not return, no manual flag is
set, no internal destination is pending, no call waits at the offsets 0, 1, 2 along the
direction, SmartStop returns no floor and a call waits, `choose_next_floor_realistic`
returns the waiting call closest to the car (the lowest floor among equally distant ones)
when the car is empty, and `-1` when 1 or 2 passengers are on board. -/
theorem C19_fallback_only_when_empty (fuel : Nat) (w : World) (hfuel : MAX_FLOORS ≤ fuel)
    (h0 : 0 ≤ w.elevator.current_floor) (h9 : w.elevator.current_floor < (MAX_FLOORS : Int))
    (hocc : w.elevator.occupancy ≤ 2)
    (hsilent : EmergencySilent w) (hflag : NoFlag w) (hint : NoInternal w)
    (hprox : ∀ j : Int, 0 ≤ j → j ≤ 2 →
      ¬WaitingAt w.calls (w.elevator.current_floor + j * w.elevator.direction))
    (hsm : (smartstop_decide_next_floor w.calls w.elevator w.stats F32.c0_65).1 = -1)
    (hex : ∃ i, Waiting w.calls i) :
    (w.elevator.occupancy = 0 →
      ∃ m, Closest (Waiting w.calls) w.elevator.current_floor m ∧
        (choose_next_floor_realistic fuel w).map Prod.fst = .ok (fl m)) ∧
    (w.elevator.occupancy ≠ 0 →
      (choose_next_floor_realistic fuel w).map Prod.fst = .ok (-1)) := by
  have hforced : ¬ForcedFires w := by
    intro h
    have h8 : w.elevator.occupancy ≥ 8 := h.1
    omega
  have hchoose : choose_next_floor_realistic fuel w = .ok (choose_after_proximity w) := by
    rw [emergency_silent fuel w hfuel h0 h9 hsilent,
      choose_after_emergency_plain w h0 h9 hflag hint, if_neg hforced]
    unfold choose_from_proximity
    rw [proximity_choice_none w.calls w.elevator hprox]
  rw [hchoose]
  constructor
  · intro hzero
    obtain ⟨i, hi⟩ := hex
    rcases dist_scan_foldl (Waiting w.calls) w.elevator.current_floor (fallback_step w)
      (fun acc i => fallback_step_spec w acc i) h0 h9 with ⟨hno, -⟩ | ⟨m, hm, hres⟩
    · exact absurd hi (hno i)
    · refine ⟨m, hm, ?_⟩
      simp only [Except.map, choose_after_proximity_empty w hzero hsm, hres]
  · intro hne
    have hst : (smartstop_stage w).1 = -1 := by
      unfold smartstop_stage
      rw [if_pos (show w.elevator.occupancy < ELEVATOR_CAP - 2 by
        simp only [ELEVATOR_CAP]; omega)]
      exact hsm
    have hfr : (smartstop_stage w).2.elevator = w.elevator := by
      rw [smartstop_stage_frame w]
    have h7 : ¬(smartstop_stage w).2.elevator.occupancy ≥ ELEVATOR_CAP - 1 := by
      rw [hfr]; simp only [ELEVATOR_CAP]; omega
    have hz : ¬(smartstop_stage w).2.elevator.occupancy = 0 := by
      rw [hfr]; exact hne
    rw [choose_after_proximity_eq, if_neg (not_not.mpr hst)]
    unfold after_smartstop
    simp only [if_neg h7, if_neg hz, Except.map]

theorem C19_fallback_only_when_empty_witness :
    (plainWorld behindCall ⟨5, 1, 2⟩).elevator.occupancy ≠ 0 ∧
    (∃ i, Waiting (plainWorld behindCall ⟨5, 1, 2⟩).calls i) ∧
    (choose_next_floor_realistic 10 (plainWorld behindCall ⟨5, 1, 2⟩)).map Prod.fst
      = .ok (-1) :=
  ⟨by decide, ⟨0, by decide⟩,
    (C19_fallback_only_when_empty 10 (plainWorld behindCall ⟨5, 1, 2⟩) (by decide) (by decide)
      (by decide) (by decide) (by decide) (by decide) (by decide)
      (by
        intro j hj0 hj2
        have hj : j = 0 ∨ j = 1 ∨ j = 2 := by omega
        rcases hj with rfl | rfl | rfl <;> decide)
      (by decide) ⟨0, by decide⟩).2 (by decide)⟩

/-- C20. Position and direction invariant: the state built by `smartstop_init` has the
car inside the building, going up or down, up at floor 0 and down at floor 9; from any
state with that property the floor `current_floor + direction` is inside the building,
the cruising branch returns a state with that property, and so does the stop branch for
every target inside the building. -/
theorem C20_position_invariant (fuel : Nat) (hfuel : MAX_FLOORS ≤ fuel) :
    PosInv smartstop_init.2.1 ∧
    ∀ w : World, PosInv w.elevator →
      (0 ≤ w.elevator.current_floor + w.elevator.direction ∧
        w.elevator.current_floor + w.elevator.direction < (MAX_FLOORS : Int)) ∧
      (∀ r0 r1 r2, ∃ w', cruise_branch w r0 r1 r2 = .ok w' ∧ PosInv w'.elevator) ∧
      (∀ (t : Fin MAX_FLOORS) r1 r2,
        ∃ w', stop_branch fuel w (fl t) r1 r2 = .ok w' ∧ w'.elevator.current_floor = fl t ∧
          PosInv w'.elevator) := by
  refine ⟨by decide, fun w h => ⟨?_, fun r0 r1 r2 => cruise_branch_posInv w r0 r1 r2 h,
    fun t r1 r2 => stop_branch_posInv fuel w t r1 r2 hfuel h⟩⟩
  obtain ⟨h0, h9, hd, hz, ht⟩ := (posInv_iff _).mp h
  constructor
  · omega
  · show w.elevator.current_floor + w.elevator.direction < 10
    omega

theorem C20_position_invariant_witness :
    PosInv (plainWorld pathTable smartstop_init.2.1).elevator ∧
    (∃ w', cruise_branch (plainWorld pathTable smartstop_init.2.1) 3 7 2 = .ok w' ∧
      PosInv w'.elevator) ∧
    (∃ w', stop_branch 10 (plainWorld pathTable smartstop_init.2.1) (fl 0) 7 2 = .ok w' ∧
      w'.elevator.current_floor = fl 0 ∧ PosInv w'.elevator) :=
  ⟨(C20_position_invariant 10 (by decide)).1,
    ((C20_position_invariant 10 (by decide)).2 (plainWorld pathTable smartstop_init.2.1)
      (by decide)).2.1 3 7 2,
    ((C20_position_invariant 10 (by decide)).2 (plainWorld pathTable smartstop_init.2.1)
      (by decide)).2.2 0 7 2⟩

/-- C21. Result range and index safety of the dispatcher: for a car inside the building
going up or down, `choose_next_floor_realistic` returns, and what it returns is `-1` or a
floor in `[0, 9]`; when `find_emergency_call` finds an emergency floor, that floor is in
the table and the path loop toward it ends within `|floor - current_floor|` iterations
without reading outside the table. -/
theorem C21_result_range (fuel : Nat) (w : World) (hfuel : MAX_FLOORS ≤ fuel)
    (h0 : 0 ≤ w.elevator.current_floor) (h9 : w.elevator.current_floor < (MAX_FLOORS : Int))
    (hdir : w.elevator.direction = 1 ∨ w.elevator.direction = -1) :
    (∃ r, choose_next_floor_realistic fuel w = .ok r ∧ (r.1 = -1 ∨ (0 ≤ r.1 ∧ r.1 ≤ 9))) ∧
    (find_emergency_call w.calls ≠ -1 →
      ∃ f, find_emergency_call w.calls = fl f ∧
        ∀ n, (fl f - w.elevator.current_floor).natAbs ≤ n →
          count_calls_in_path w.calls (fl f)
              (if fl f > w.elevator.current_floor then 1 else -1) n
              w.elevator.current_floor 0
            = .ok ((pathCount w.calls w.elevator.current_floor (fl f) : Nat) : Int)) := by
  have hlate := choose_after_emergency_floorOrNone w h0 h9 hdir
  constructor
  · unfold choose_next_floor_realistic
    rcases find_emergency_call_cases w.calls with hnone | ⟨f, hf⟩
    · simp only [hnone, ne_eq, not_true_eq_false, if_false]
      exact ⟨_, rfl, hlate⟩
    · simp only [hf, ne_eq, fl_ne_neg_one, not_false_eq_true, if_true,
        count_calls_in_path_eq w.calls w.elevator.current_floor f fuel hfuel h0 h9]
      split_ifs
      · exact ⟨_, rfl, floorOrNone_fl f⟩
      · exact ⟨_, rfl, hlate⟩
  · intro hne
    rcases find_emergency_call_cases w.calls with hnone | ⟨f, hf⟩
    · exact absurd hnone hne
    · exact ⟨f, hf, fun n hn =>
        count_calls_in_path_ok w.calls w.elevator.current_floor f n hn h0 h9⟩

theorem C21_result_range_witness :
    (∃ r, choose_next_floor_realistic 10 (flaggedWorld pathTable ⟨5, 1, 3⟩) = .ok r ∧
      (r.1 = -1 ∨ (0 ≤ r.1 ∧ r.1 ≤ 9))) ∧
    ∃ f, find_emergency_call (flaggedWorld pathTable ⟨5, 1, 3⟩).calls = fl f ∧
      ∀ n, (fl f - 5).natAbs ≤ n →
        count_calls_in_path (flaggedWorld pathTable ⟨5, 1, 3⟩).calls (fl f)
            (if fl f > 5 then 1 else -1) n 5 0
          = .ok ((pathCount (flaggedWorld pathTable ⟨5, 1, 3⟩).calls 5 (fl f) : Nat) : Int) :=
  ⟨(C21_result_range 10 (flaggedWorld pathTable ⟨5, 1, 3⟩) (by decide) (by decide) (by decide)
      (by decide)).1,
    (C21_result_range 10 (flaggedWorld pathTable ⟨5, 1, 3⟩) (by decide) (by decide) (by decide)
      (by decide)).2 (by decide)⟩

/-- C22. Unserved internal destination at low occupancy: when the car stands at floor
`d`, `d` is a pending internal destination, at most 2 passengers are on board, no hall
call is active at `d`, no manual flag is set and the emergency block does not return,
`choose_next_floor_realistic` returns `d` and leaves the state as it was, and the stop
branch at `d` returns the very same state: floor, occupancy and the pending destination
`d` included, so the next cycle decides on the same state. -/
theorem C22_unserved_destination (fuel : Nat) (w : World) (d : Fin MAX_FLOORS) (r1 r2 : Nat)
    (hfuel : MAX_FLOORS ≤ fuel) (hcf : w.elevator.current_floor = fl d)
    (hdest : w.internal_calls d = true) (hocc : w.elevator.occupancy ≤ 2)
    (hcall : (w.calls d).active = false) (hflag : NoFlag w) (hsilent : EmergencySilent w) :
    choose_next_floor_realistic fuel w = .ok (fl d, w) ∧
    stop_branch fuel w (fl d) r1 r2 = .ok w := by
  have hr := fl_range d
  have h0 : 0 ≤ w.elevator.current_floor := by rw [hcf]; exact hr.1
  have h9 : w.elevator.current_floor < (MAX_FLOORS : Int) := by rw [hcf]; exact hr.2
  constructor
  · rw [emergency_silent fuel w hfuel h0 h9 hsilent]
    have hany := any_internal_call_eq_true w.internal_calls d hdest
    have hbtn := button_foldl_noFlag_any w hflag
    have hkept : KeptDestination w d := by
      refine ⟨hdest, ?_⟩
      rw [hcf]
      omega
    have hscan := dist_scan_foldl (KeptDestination w) w.elevator.current_floor
      (internal_dir_step w) (fun acc i => internal_kept_step_spec w acc i) h0 h9
    rcases hscan with ⟨hno, -⟩ | ⟨m, hm, hres⟩
    · exact absurd hkept (hno d)
    · have hmd : m = d := by
        have hd0 : dist w.elevator.current_floor d = 0 := by rw [hcf]; exact dist_self d
        have hm0 : dist w.elevator.current_floor m = 0 := by
          have := dist_nonneg w.elevator.current_floor m
          rcases hm.2 d hkept with h | ⟨h, -⟩ <;> omega
        exact fl_injective ((dist_eq_zero hm0).trans hcf)
      subst hmd
      have hic : internal_choice w = fl m := by
        simp only [internal_choice, hany, if_true, hres, fl_ne_neg_one, if_false]
      simp only [choose_after_emergency, hbtn, ne_eq, not_true_eq_false, if_false, hic,
        fl_ne_neg_one, not_false_eq_true, if_true]
  · obtain ⟨i, hi, hfi⟩ := floorIdx_of_range (fl d) hr.1 hr.2
    have hid : i = d := fl_injective hfi
    subst hid
    have hset : set_direction w.elevator (fl i) = w.elevator := by
      unfold set_direction
      rw [if_neg (by omega), if_neg (by omega)]
    have hloop : move_loop w.calls (fl i) fuel (w.elevator, w.stats)
        = .ok (w.elevator, w.stats) := by
      cases fuel <;> simp [move_loop, hcf]
    have hdis : ∀ b, simulate_disembark w.internal_calls w.elevator i b r1 r2
        = (w.internal_calls, w.elevator) := by
      intro b
      simp only [simulate_disembark, hocc, if_true]
    have hA : Function.update w.internal_from_button i false = w.internal_from_button := by
      apply Function.update_eq_self_iff.mpr
      have := hflag i
      unfold Flagged at this
      cases h : w.internal_from_button i
      · rfl
      · exact absurd (Or.inl h) this
    have hB : Function.update w.external_from_button i false = w.external_from_button := by
      apply Function.update_eq_self_iff.mpr
      have := hflag i
      unfold Flagged at this
      cases h : w.external_from_button i
      · rfl
      · exact absurd (Or.inr h) this
    unfold stop_branch
    rw [hset, hloop]
    simp only [hi, hdis, hcall, hA, hB, Bool.false_eq_true, false_and, if_false, ite_self]

theorem C22_unserved_destination_witness :
    choose_next_floor_realistic 10 (pendingWorld exampleCalls ⟨5, 1, 2⟩)
      = .ok (fl 5, pendingWorld exampleCalls ⟨5, 1, 2⟩) ∧
    stop_branch 10 (pendingWorld exampleCalls ⟨5, 1, 2⟩) (fl 5) 3 7
      = .ok (pendingWorld exampleCalls ⟨5, 1, 2⟩) :=
  C22_unserved_destination 10 (pendingWorld exampleCalls ⟨5, 1, 2⟩) 5 3 7 (by decide) rfl rfl
    (by decide) rfl (by decide) (by decide)

/-- C23. Effective SmartStop reach inside the ladder: for a car inside the building going
up or down, when every earlier rule has passed (emergency block silent, no manual flag,
no internal destination, forced disembark not firing, no waiting call at the offsets 0,
1, 2) and SmartStop, consulted with fewer than 6 passengers at threshold 0.65, returns a
floor, `choose_next_floor_realistic` returns that floor; it lies at distance 3 or more and
holds at least 3 passengers, and with exactly 3 passengers it lies at distance 3 and has
waited more than 5 cycles. -/
theorem C23_smartstop_reach (fuel : Nat) (w : World) (hfuel : MAX_FLOORS ≤ fuel)
    (h0 : 0 ≤ w.elevator.current_floor) (h9 : w.elevator.current_floor < (MAX_FLOORS : Int))
    (hdir : w.elevator.direction = 1 ∨ w.elevator.direction = -1)
    (hsilent : EmergencySilent w) (hflag : NoFlag w) (hint : NoInternal w)
    (hforced : ¬ForcedFires w)
    (hprox : ∀ j : Int, 0 ≤ j → j ≤ 2 →
      ¬WaitingAt w.calls (w.elevator.current_floor + j * w.elevator.direction))
    (hocc : w.elevator.occupancy < ELEVATOR_CAP - 2) (f : Int)
    (hf : (smartstop_decide_next_floor w.calls w.elevator w.stats F32.c0_65).1 = f)
    (hne : f ≠ -1) :
    (choose_next_floor_realistic fuel w).map Prod.fst = .ok f ∧
    ∃ m, fl m = f ∧ 3 ≤ dist w.elevator.current_floor m ∧
      3 ≤ (w.calls m).est_passengers ∧
      ((w.calls m).est_passengers = 3 →
        dist w.elevator.current_floor m = 3 ∧ (w.calls m).wait_time > 5) := by
  constructor
  · rw [emergency_silent fuel w hfuel h0 h9 hsilent,
      choose_after_emergency_plain w h0 h9 hflag hint, if_neg hforced]
    unfold choose_from_proximity
    rw [proximity_choice_none w.calls w.elevator hprox, choose_after_proximity_eq]
    have hst : (smartstop_stage w).1 = f := by
      unfold smartstop_stage
      rw [if_pos hocc]
      exact hf
    rw [if_pos (by rw [hst]; exact hne)]
    simp only [Except.map, hst]
  · rcases decide_foldl w.calls w.elevator hdir with ⟨-, hres⟩ | ⟨m, hm, hres⟩
    · simp only [smartstop_decide_next_floor, hres, if_true] at hf
      exact absurd hf.symm hne
    · simp only [smartstop_decide_next_floor, hres, fl_ne_neg_one, if_false] at hf
      split_ifs at hf with hb
      · exact absurd hf.symm hne
      · have hnlt : ¬callEff w.calls w.elevator m < F32.c0_65 :=
          fun h => hb ((F32.blt_iff _ _).mpr h)
        have hd3 := candidate_dist_ge_three w.calls w.elevator m hm.1 hprox
        have hd9 : dist w.elevator.current_floor m ≤ 9 := by
          have := fl_range m
          have h9' : w.elevator.current_floor < 10 := h9
          unfold dist
          simp only []
          split <;> omega
        have hest : 0 < (w.calls m).est_passengers := hm.1.2.2
        have heff : callEff w.calls w.elevator m
            = efficiency (w.calls m).est_passengers (dist w.elevator.current_floor m)
                (if decide ((w.calls m).wait_time > 5) = true then 6 else 0) := by
          unfold callEff dist
          rw [efficiency_abs]
          simp only [decide_eq_true_eq]
        have hlow : ∀ hx : ¬((w.calls m).est_passengers = 3 ∧
            dist w.elevator.current_floor m = 3 ∧ decide ((w.calls m).wait_time > 5) = true),
            (w.calls m).est_passengers ≤ 3 → False := by
          intro hx he3
          apply hnlt
          rw [heff]
          exact efficiency_low _ _ _ (by omega) he3 hd3 hd9 hx
        refine ⟨m, hf, hd3, ?_, ?_⟩
        · by_contra hlt
          exact hlow (fun h => hlt (by omega)) (by omega)
        · intro he
          by_contra hnot
          apply hlow _ (by omega)
          rintro ⟨-, hd, hwt⟩
          exact hnot ⟨hd, of_decide_eq_true hwt⟩

theorem C23_smartstop_reach_witness :
    (choose_next_floor_realistic 10 (plainWorld reachCall ⟨5, 1, 0⟩)).map Prod.fst = .ok 8 ∧
    ∃ m, fl m = 8 ∧ 3 ≤ dist (plainWorld reachCall ⟨5, 1, 0⟩).elevator.current_floor m ∧
      3 ≤ ((plainWorld reachCall ⟨5, 1, 0⟩).calls m).est_passengers ∧
      (((plainWorld reachCall ⟨5, 1, 0⟩).calls m).est_passengers = 3 →
        dist (plainWorld reachCall ⟨5, 1, 0⟩).elevator.current_floor m = 3 ∧
          ((plainWorld reachCall ⟨5, 1, 0⟩).calls m).wait_time > 5) :=
  C23_smartstop_reach 10 (plainWorld reachCall ⟨5, 1, 0⟩) (by decide) (by decide) (by decide)
    (by decide) (by decide) (by decide) (by decide) (by decide)
    (by
      intro j hj0 hj2
      have hj : j = 0 ∨ j = 1 ∨ j = 2 := by omega
      rcases hj with rfl | rfl | rfl <;> decide)
    (by decide) 8 (by decide) (by decide)

/-- C24. Dispatch gap at occupancy 6: with 6 passengers on board, no manual flag, no
internal destination, no waiting call that has waited 15 cycles and no waiting call at
the offsets 0, 1, 2 along the direction, `choose_next_floor_realistic` returns `-1` and
leaves the whole state, Stats included, as it was, whatever other calls are active. -/
theorem C24_dispatch_gap (fuel : Nat) (w : World) (hocc : w.elevator.occupancy = 6)
    (hflag : NoFlag w) (hint : NoInternal w)
    (hwait : ∀ i, Waiting w.calls i → (w.calls i).wait_time < EMERGENCY_WAIT_TIME)
    (hprox : ∀ j : Int, 0 ≤ j → j ≤ 2 →
      ¬WaitingAt w.calls (w.elevator.current_floor + j * w.elevator.direction)) :
    choose_next_floor_realistic fuel w = .ok (-1, w) := by
  have h5 : ¬w.elevator.occupancy < 8 - 2 := by omega
  have h6 : ¬w.elevator.occupancy ≥ 8 - 1 := by omega
  have h7 : ¬w.elevator.occupancy ≥ 8 := by omega
  have h8 : ¬w.elevator.occupancy = 0 := by omega
  rw [no_emergency fuel w hwait]
  simp only [choose_after_emergency, button_foldl_noFlag_any w hflag,
    internal_choice_none w hint, ne_eq, not_true_eq_false, if_false,
    proximity_choice_none w.calls w.elevator hprox, choose_after_proximity,
    ELEVATOR_CAP, h5, h6, h7, h8, false_and]

theorem C24_dispatch_gap_witness :
    Waiting (plainWorld farCalls ⟨5, 1, 6⟩).calls 9 ∧
    choose_next_floor_realistic 10 (plainWorld farCalls ⟨5, 1, 6⟩)
      = .ok (-1, plainWorld farCalls ⟨5, 1, 6⟩) :=
  ⟨by decide,
    C24_dispatch_gap 10 (plainWorld farCalls ⟨5, 1, 6⟩) rfl (by decide) (by decide) (by decide)
      (by
        intro j hj0 hj2
        have hj : j = 0 ∨ j = 1 ∨ j = 2 := by omega
        rcases hj with rfl | rfl | rfl <;> decide)⟩

end SmartStop
